import Mathlib

/-!
# ring_buffer and radix_iterator: a shallow embedding

Source files: `include/radix_iterator.hpp`, `include/ring_buffer.hpp`.

Conventions of the embedding.

* `size_type` is `std::size_t` of a 64-bit target: a `Nat` below `SIZE_MOD`, every
  arithmetic step reduced modulo `SIZE_MOD`.  `difference_type` is the signed type of
  the same width: an `Int`, obtained from a `size_type` by `to_diff` and turned back
  by `to_size`.
* A pointer is the address of an element slot, counted in elements: an `Int`.
  `nullptr` is address `0`.  Pointer arithmetic is flat (`p + n` is address `p + n`).
* The region owned by `memblk` is a `region`: its address and one cell per allocated
  slot, `none` for raw storage and `some v` for a constructed element.
* The allocator is `std::allocator<T>` (the default template argument): it has no
  state, every instance draws on the same free store.  What the free store does
  during a call is the argument `alloc : allocator_type`.
* Every operation returns `Except Fault _`.  `Fault.out_of_range` and
  `Fault.bad_alloc` are the two exceptions of the source; `Fault.undefined` is
  undefined behaviour (division by zero, an access outside the region, a read or a
  destroy of raw storage); `Fault.diverges` is a loop that does not end.
* The state of `*this` that a throw leaves is read off the `member` versions (`*_m`) of
  the member functions, which thread the state statement by statement; they return
  what the plain versions return (`*_m_returns`).
* `mb_size * expansion_ratio` is computed in `double` (IEEE 754 binary64, round to
  nearest even) and converted back: `expand`.
-/

/-- Modulus of `size_type`: `2 ^ 64`. -/
def SIZE_MOD : Nat := 18446744073709551616

/-- Largest positive `difference_type` plus one: `2 ^ 63`. -/
def DIFF_MAX_SUCC : Nat := 9223372036854775808

/-- Ways in which a call of the source can fail to return. -/
inductive Fault where
  | out_of_range
  | bad_alloc
  | undefined
  | diverges
  deriving DecidableEq, Repr

/-- Addition of two `size_type` values. -/
def uadd (a b : Nat) : Nat := (a + b) % SIZE_MOD

/-- Subtraction of two `size_type` values (`a`, `b` below `SIZE_MOD`). -/
def usub (a b : Nat) : Nat := (a + SIZE_MOD - b) % SIZE_MOD

/-- Conversion `size_type → difference_type` (two's complement). -/
def to_diff (u : Nat) : Int :=
  if u % SIZE_MOD < DIFF_MAX_SUCC then ((u % SIZE_MOD : Nat) : Int)
  else ((u % SIZE_MOD : Nat) : Int) - (SIZE_MOD : Int)

/-- Conversion `difference_type → size_type`. -/
def to_size (z : Int) : Nat := (z % (SIZE_MOD : Int)).toNat

/-- Number of low bits that an integer of more than 53 bits loses when it is rounded to
the 53 significant bits of a `double`; `fuel` bounds the count. -/
def sig_shift : Nat → Nat → Nat
  | 0, _ => 0
  | fuel + 1, n => if n < 9007199254740992 then 0 else 1 + sig_shift fuel (n / 2)

/-- Rounding of `n / 2 ^ k` to the nearest integer, ties to the even one. -/
def round_even (n k : Nat) : Nat :=
  let q := n / 2 ^ k
  let r := n % 2 ^ k
  let half := 2 ^ k / 2
  if r < half then q
  else if half < r then q + 1
  else if q % 2 = 0 then q else q + 1

/-- The `double` nearest to the integer `n` (IEEE 754 binary64, round to nearest, ties
to even), for `n` of at most 117 bits: an integer below `2 ^ 53` is a `double` itself,
a larger one keeps 53 significant bits. -/
def to_double (n : Nat) : Nat :=
  if n < 9007199254740992 then n
  else
    let k := sig_shift 64 n
    round_even n k * 2 ^ k

/-! ## radix_iterator -/

/-- The cursor of `radix_iterator.hpp`: three pointers. -/
structure radix_iterator where
  front : Int
  back : Int
  current : Int
  deriving DecidableEq, Repr

namespace radix_iterator

/-- Default constructor: all three pointers null. -/
def default_ctor : radix_iterator := ⟨0, 0, 0⟩

/-- Source: `range_empty`. -/
def range_empty (it : radix_iterator) : Bool := it.front == it.back

/-- Source: `invariants`. -/
def invariants (it : radix_iterator) : Bool :=
  if it.back < it.front then false
  else if it.range_empty then
    (if it.front ≠ it.current ∨ it.current ≠ it.back then false else true)
  else
    (if it.current < it.front ∨ it.back ≤ it.current then false else true)

/-- Source: `operator++()`. -/
def pre_inc (it : radix_iterator) : radix_iterator :=
  if it.range_empty then it
  else
    let c := it.current + 1
    if c = it.back then { it with current := it.front } else { it with current := c }

/-- Source: `operator--()`. -/
def pre_dec (it : radix_iterator) : radix_iterator :=
  if it.range_empty then it
  else
    let c := if it.current = it.front then it.back else it.current
    { it with current := c - 1 }

/-- Source: `operator++(int)`: the returned copy and the stepped cursor. -/
def post_inc (it : radix_iterator) : radix_iterator × radix_iterator := (it, it.pre_inc)

/-- Source: `operator--(int)`: the returned copy and the stepped cursor. -/
def post_dec (it : radix_iterator) : radix_iterator × radix_iterator := (it, it.pre_dec)

/-- Source: `get`. -/
def get (it : radix_iterator) : Int := it.current

/-- Source: `operator==`: only the current positions are compared. -/
def eq (l r : radix_iterator) : Bool := l.current == r.current

/-- Source: `operator!=`. -/
def ne (l r : radix_iterator) : Bool := !(eq l r)

/-- Library `std::next(it, n)` on a bidirectional iterator, `n ≥ 0`: `n` increments. -/
def next : radix_iterator → Nat → radix_iterator
  | it, 0 => it
  | it, n + 1 => next it.pre_inc n

/-- Library `std::prev(it, n)` on a bidirectional iterator, `n ≥ 0`: `n` decrements. -/
def prev : radix_iterator → Nat → radix_iterator
  | it, 0 => it
  | it, n + 1 => prev it.pre_dec n

/-- Library `std::distance(first, last)` on a bidirectional iterator: the number of
increments that take `first` to `last`.  `fuel` bounds the search. -/
def distance_loop : Nat → radix_iterator → radix_iterator → Nat → Except Fault Nat
  | 0, first, last, n => if eq first last then .ok n else .error .diverges
  | fuel + 1, first, last, n =>
    if eq first last then .ok n else distance_loop fuel first.pre_inc last (n + 1)

/-- Number of steps (in either direction) after which a cursor has either met the
address `target` or will never meet it: the way to `front` and to `back`, the length
of the range, the way to the target. -/
def walk_bound (it : radix_iterator) (target : Int) : Nat :=
  (it.front - it.current).natAbs + (it.back - it.current).natAbs
    + (it.back - it.front).natAbs + (target - it.current).natAbs + 1

/-- Library `std::distance(first, last)`. -/
def distance (first last : radix_iterator) : Except Fault Nat :=
  distance_loop (first.walk_bound last.current) first last 0

end radix_iterator

/-- Library `std::reverse_iterator<radix_iterator>`: it stores a cursor (`base`). -/
structure reverse_iterator where
  base : radix_iterator
  deriving DecidableEq, Repr

namespace reverse_iterator

/-- Library `operator++` of `reverse_iterator`: decrements the stored cursor. -/
def pre_inc (r : reverse_iterator) : reverse_iterator := ⟨r.base.pre_dec⟩

/-- Library `operator==` of `reverse_iterator`: compares the stored cursors. -/
def eq (l r : reverse_iterator) : Bool := radix_iterator.eq l.base r.base

/-- Address read by library `operator*` of `reverse_iterator`: `*--tmp` on a copy. -/
def deref_addr (r : reverse_iterator) : Int := r.base.pre_dec.current

end reverse_iterator

/-! ## The region and the buffer -/

/-- What the free store does during one call: it grants a request of at most
`max_size` elements and hands out the block at address `next`. -/
structure allocator_type where
  max_size : Nat
  next : Int
  deriving DecidableEq, Repr

/-- An allocated block: its address and its cells. -/
structure region (α : Type) where
  addr : Int
  cells : List (Option α)
  deriving DecidableEq, Repr

/-- The data members of `ring_buffer` (`mm` has no state, see above). -/
structure ring_buffer (α : Type) where
  mb_size : Nat
  memblk : Option (region α)
  m_begin : Nat
  m_end : Nat
  deriving DecidableEq, Repr

namespace ring_buffer

variable {α : Type}

/-- Source: `pwrap`.  `val % wrap` converts `val` to `size_type`; a zero `wrap` is a
division by zero. -/
def pwrap (val : Int) (wrap : Nat) : Except Fault Nat :=
  if wrap = 0 then .error .undefined
  else .ok (uadd (to_size val % wrap) wrap % wrap)

/-- Source: `memblk.get()`. -/
def get_ptr (b : ring_buffer α) : Int :=
  match b.memblk with
  | none => 0
  | some r => r.addr

/-- Index of the cell at address `p` of a region, when `p` lies inside it. -/
def cell_index (r : region α) (p : Int) : Option Nat :=
  if r.addr ≤ p ∧ p < r.addr + r.cells.length then some (p - r.addr).toNat else none

/-- Read of the element at address `p` (`*p`). -/
def load (b : ring_buffer α) (p : Int) : Except Fault α :=
  match b.memblk with
  | none => .error .undefined
  | some r =>
    match cell_index r p with
    | none => .error .undefined
    | some i =>
      match r.cells[i]? with
      | some (some v) => .ok v
      | _ => .error .undefined

/-- Source: `atraits::construct(mm, p, v)`. -/
def construct (b : ring_buffer α) (p : Int) (v : α) : Except Fault (ring_buffer α) :=
  match b.memblk with
  | none => .error .undefined
  | some r =>
    match cell_index r p with
    | none => .error .undefined
    | some i => .ok { b with memblk := some { r with cells := r.cells.set i (some v) } }

/-- Source: `atraits::destroy(mm, p)`. -/
def destroy (b : ring_buffer α) (p : Int) : Except Fault (ring_buffer α) :=
  match b.memblk with
  | none => .error .undefined
  | some r =>
    match cell_index r p with
    | none => .error .undefined
    | some i =>
      match r.cells[i]? with
      | some (some _) => .ok { b with memblk := some { r with cells := r.cells.set i none } }
      | _ => .error .undefined

/-- Source: `size`.  `diff` is a `size_type`, so the test `diff >= 0` always holds. -/
def size (b : ring_buffer α) : Nat :=
  let diff := usub b.m_end b.m_begin
  if 0 ≤ diff then diff else usub b.mb_size diff

/-- Source: `capacity`. -/
def capacity (b : ring_buffer α) : Nat := usub b.mb_size 1

/-- Source: `empty`. -/
def empty (b : ring_buffer α) : Bool := b.size == 0

/-- Source: `abs_offset_of`. -/
def abs_offset_of (b : ring_buffer α) (idx : Int) : Except Fault Nat := pwrap idx b.mb_size

/-- Source: `offset_of`.  `idx + m_begin` is a `size_type` sum. -/
def offset_of (b : ring_buffer α) (idx : Int) : Except Fault Nat :=
  b.abs_offset_of (to_diff (uadd (to_size idx) b.m_begin))

/-- Source: `idx_of`.  `off - m_begin` is a `size_type` difference. -/
def idx_of (b : ring_buffer α) (off : Nat) : Except Fault Nat :=
  pwrap (to_diff (usub off b.m_begin)) b.mb_size

/-- Source: `it_offset`. -/
def it_offset (b : ring_buffer α) (it : radix_iterator) : Except Fault Nat :=
  b.abs_offset_of (it.get - b.get_ptr)

/-- Source: `it_of` and `cit_of`. -/
def it_of (b : ring_buffer α) (idx : Nat) : radix_iterator :=
  ⟨b.get_ptr, b.get_ptr + to_diff b.mb_size, b.get_ptr + to_diff idx⟩

/-- Source: `begin`, `cbegin`. -/
def begin (b : ring_buffer α) : radix_iterator := b.it_of b.m_begin

/-- Source: `end`, `cend`. -/
def end_ (b : ring_buffer α) : radix_iterator := b.it_of b.m_end

/-- Source: `rbegin`, `crbegin`. -/
def rbegin (b : ring_buffer α) : reverse_iterator := ⟨b.it_of (usub b.m_end 1)⟩

/-- Source: `rend`, `crend`. -/
def rend (b : ring_buffer α) : reverse_iterator := ⟨b.it_of (usub b.m_begin 1)⟩

/-- Source: `range_check`. -/
def range_check (b : ring_buffer α) (pos : Nat) : Except Fault Bool :=
  if pos ≥ b.size then .error .out_of_range else .ok true

/-- Source: `operator[]`: the offset of the cell the returned reference names. -/
def index (b : ring_buffer α) (pos : Nat) : Except Fault Nat := b.offset_of (to_diff pos)

/-- Source: `at`. -/
def at_ (b : ring_buffer α) (pos : Nat) : Except Fault Nat := do
  let _ ← b.range_check pos
  b.index pos

/-- Source: `ctor_value`. -/
def ctor_value (b : ring_buffer α) (idx : Nat) (v : α) : Except Fault (ring_buffer α) :=
  b.construct (b.get_ptr + to_diff idx) v

/-- Source: `dtor_value(abs_offset)`. -/
def dtor_value (b : ring_buffer α) (idx : Nat) : Except Fault (ring_buffer α) := do
  let off ← b.abs_offset_of (to_diff idx)
  b.destroy (b.get_ptr + to_diff off)

end ring_buffer

namespace radix_iterator

/-- Library `std::advance(it, n)` on a bidirectional iterator. -/
def advance (it : radix_iterator) (n : Int) : radix_iterator :=
  if 0 ≤ n then it.next n.toNat else it.prev (-n).toNat

end radix_iterator

namespace ring_buffer

variable {α : Type}

/-- Source: `atraits::allocate(mm, size)` as used by `alloc_memblk`. -/
def alloc_memblk (alloc : allocator_type) (size : Nat) : Except Fault (region α) :=
  if size ≤ alloc.max_size then .ok ⟨alloc.next, List.replicate size none⟩
  else .error .bad_alloc

/-- Source: `ring_buffer(const allocator_type&)` and `ring_buffer()`. -/
def ctor_default : ring_buffer α := ⟨0, none, 0, 0⟩

/-- Source: `ring_buffer(size_type cap, const allocator_type& alloc)`. -/
def ctor_cap (cap : Nat) (alloc : allocator_type) : Except Fault (ring_buffer α) := do
  let mb := uadd cap 1
  let blk ← alloc_memblk alloc mb
  .ok ⟨mb, some blk, 0, 0⟩

/-- Source: the loop of `dtor_value(abs_offset begin, abs_offset end)`. -/
def dtor_value_loop : Nat → ring_buffer α → Nat → Nat → Except Fault (ring_buffer α)
  | 0, b, idx, e => if idx = e then .ok b else .error .diverges
  | fuel + 1, b, idx, e =>
    if idx = e then .ok b
    else do
      let b1 ← b.dtor_value idx
      if b.mb_size = 0 then .error .undefined
      else dtor_value_loop fuel b1 (uadd idx 1 % b.mb_size) e

/-- Source: `dtor_value(abs_offset begin, abs_offset end)`.  Every round destroys a
cell below `mb_size`, and a cell is destroyed once, so `mb_size + 1` rounds are never
all taken. -/
def dtor_value_range (b : ring_buffer α) (bgn e : Nat) : Except Fault (ring_buffer α) :=
  dtor_value_loop (b.mb_size + 1) b bgn e

/-- Source: `dtor_value_all`. -/
def dtor_value_all (b : ring_buffer α) : Except Fault (ring_buffer α) := do
  let b1 ← b.dtor_value_range b.m_begin b.m_end
  .ok { b1 with m_begin := 0, m_end := 0 }

/-- Source: `destruct_memblk(self, ptr)`: destroy all, then `deallocate(ptr, mb_size)`,
which requires the size the block was allocated with. -/
def destruct_memblk (self : ring_buffer α) (ptr : region α) :
    Except Fault (ring_buffer α) := do
  let b1 ← self.dtor_value_all
  if b1.mb_size = ptr.cells.length then .ok b1 else .error .undefined

/-- Destructor of `ring_buffer`: the `unique_ptr` calls its deleter on a non-null
pointer, which is still stored while the deleter runs. -/
def dtor (b : ring_buffer α) : Except Fault Unit :=
  match b.memblk with
  | none => .ok ()
  | some r => do
    let _ ← destruct_memblk b r
    .ok ()

/-- Library `unique_ptr::reset()` on `memblk`: the stored pointer is set to null
first, then the deleter runs on the old pointer. -/
def memblk_reset (b : ring_buffer α) : Except Fault (ring_buffer α) :=
  match b.memblk with
  | none => .ok b
  | some old => destruct_memblk { b with memblk := none } old

/-- Source: `swap`: the new `*this` and the new `other`. -/
def swap (self other : ring_buffer α) : ring_buffer α × ring_buffer α :=
  ({ mb_size := other.mb_size, memblk := other.memblk,
     m_begin := other.m_begin, m_end := other.m_end },
   { mb_size := self.mb_size, memblk := self.memblk,
     m_begin := self.m_begin, m_end := self.m_end })

/-- Source: the loop of `ensure_alloc_copy`: `own_it` walks `self`, `new_it` walks
`new_blk`. -/
def ensure_alloc_copy_loop : Nat → ring_buffer α → ring_buffer α → radix_iterator →
    radix_iterator → Except Fault (ring_buffer α)
  | 0, self, new_blk, own_it, new_it =>
    if radix_iterator.ne own_it self.end_ && radix_iterator.ne new_it new_blk.end_ then
      .error .diverges
    else .ok new_blk
  | fuel + 1, self, new_blk, own_it, new_it =>
    if radix_iterator.ne own_it self.end_ && radix_iterator.ne new_it new_blk.end_ then do
      let v ← self.load own_it.get
      let nb ← new_blk.ctor_value (to_size (new_it.get - new_blk.get_ptr)) v
      ensure_alloc_copy_loop fuel self nb own_it.pre_inc new_it.pre_inc
    else .ok new_blk

/-- Source: `ensure_alloc_copy`. -/
def ensure_alloc_copy (alloc : allocator_type) (b : ring_buffer α) (count : Nat) :
    Except Fault (ring_buffer α) :=
  if count > b.capacity then do
    let nb0 ← ctor_cap count alloc
    let nb1 : ring_buffer α := { nb0 with m_begin := 0, m_end := b.size }
    let fuel := max (b.begin.walk_bound b.end_.current)
      (nb1.begin.walk_bound nb1.end_.current)
    let nb2 ← ensure_alloc_copy_loop fuel b nb1 b.begin nb1.begin
    let (self, old) := swap b nb2
    let _ ← old.dtor
    .ok self
  else .ok b

/-- The value of `mb_size * expansion_ratio` converted back to `size_type`: `mb_size`
is converted to `double`, the product with `1.5` is rounded to a `double`, and the
conversion to `size_type` drops the fraction.  The product is `3 * d / 2` for the
`double` `d` of `mb_size`; rounding a number of halves is rounding the integer
`3 * d`.  (For `mb_size` up to `PTRDIFF_MAX` the result is below `2 ^ 64`.) -/
def expand (mb_size : Nat) : Nat := to_double (3 * to_double mb_size) / 2

/-- Source: `ensure_alloc_copy_extra`. -/
def ensure_alloc_copy_extra (alloc : allocator_type) (b : ring_buffer α) (count : Nat) :
    Except Fault (ring_buffer α) :=
  let new_size :=
    if count > b.capacity then
      let grown := expand b.mb_size
      if count > grown then count else grown
    else count
  b.ensure_alloc_copy alloc new_size

/-- Source: `front`: the address of the returned reference, `*begin()`. -/
def front (b : ring_buffer α) : Int := b.begin.current

/-- Source: `back`: the address of the returned reference, `*rbegin()`. -/
def back (b : ring_buffer α) : Int := b.rbegin.deref_addr

/-- Source: `emplace_front`, `push_front`: the new state and the returned reference. -/
def emplace_front (alloc : allocator_type) (b : ring_buffer α) (v : α) :
    Except Fault (ring_buffer α × Int) := do
  let b1 ← b.ensure_alloc_copy_extra alloc (uadd b.size 1)
  let new_begin ← b1.it_offset (b1.begin.advance (-1))
  let b2 ← b1.ctor_value new_begin v
  let b3 : ring_buffer α := { b2 with m_begin := new_begin }
  .ok (b3, b3.front)

/-- Source: `push_front`. -/
def push_front (alloc : allocator_type) (b : ring_buffer α) (v : α) :
    Except Fault (ring_buffer α × Int) := b.emplace_front alloc v

/-- Source: `pop_front`. -/
def pop_front (b : ring_buffer α) : Except Fault (ring_buffer α) := do
  let new_begin ← b.it_offset (b.begin.advance 1)
  let b1 ← b.dtor_value b.m_begin
  .ok { b1 with m_begin := new_begin }

/-- Source: `emplace_back`, `push_back`: the new state and the returned reference. -/
def emplace_back (alloc : allocator_type) (b : ring_buffer α) (v : α) :
    Except Fault (ring_buffer α × Int) := do
  let b1 ← b.ensure_alloc_copy_extra alloc (uadd b.size 1)
  let b2 ← b1.ctor_value b1.m_end v
  let new_end ← b2.it_offset (b2.begin.advance 1)
  let b3 : ring_buffer α := { b2 with m_end := new_end }
  .ok (b3, b3.back)

/-- Source: `push_back`. -/
def push_back (alloc : allocator_type) (b : ring_buffer α) (v : α) :
    Except Fault (ring_buffer α × Int) := b.emplace_back alloc v

/-- Source: `pop_back`. -/
def pop_back (b : ring_buffer α) : Except Fault (ring_buffer α) := do
  let new_end ← b.it_offset (b.end_.advance (-1))
  let b1 ← b.dtor_value new_end
  .ok { b1 with m_end := new_end }

/-- Source: `reserve`. -/
def reserve (alloc : allocator_type) (b : ring_buffer α) (new_cap : Nat) :
    Except Fault (ring_buffer α) :=
  if new_cap > b.capacity then b.ensure_alloc_copy alloc new_cap else .ok b

/-- The element a reference to cell `off` names: a read of `memblk[off]`. -/
def cell_value (b : ring_buffer α) (off : Nat) : Except Fault α :=
  b.load (b.get_ptr + to_diff off)

/-- The element `at(pos)` refers to. -/
def at_value (b : ring_buffer α) (pos : Nat) : Except Fault α := do
  let off ← b.at_ pos
  b.cell_value off

end ring_buffer

namespace ring_buffer

variable {α : Type}

/-- Source: the loop of the copy constructor: `src` walks `other`, `dst` walks the new
buffer. -/
def ctor_copy_loop : Nat → ring_buffer α → ring_buffer α → radix_iterator →
    radix_iterator → Except Fault (ring_buffer α)
  | 0, other, self, src, dst =>
    if radix_iterator.ne src other.end_ && radix_iterator.ne dst self.end_ then
      .error .diverges
    else .ok self
  | fuel + 1, other, self, src, dst =>
    if radix_iterator.ne src other.end_ && radix_iterator.ne dst self.end_ then do
      let v ← other.load src.get
      let off ← self.it_offset dst
      let s1 ← self.ctor_value off v
      ctor_copy_loop fuel other s1 src.pre_inc dst.pre_inc
    else .ok self

/-- Source: `ring_buffer(const ring_buffer& other, const allocator_type& alloc)` and
`ring_buffer(const ring_buffer& other)`. -/
def ctor_copy (other : ring_buffer α) (alloc : allocator_type) :
    Except Fault (ring_buffer α) := do
  let mb := uadd other.size 1
  let blk ← alloc_memblk alloc mb
  let s0 : ring_buffer α := ⟨mb, some blk, 0, other.size⟩
  let fuel := max (other.begin.walk_bound other.end_.current)
    (s0.begin.walk_bound s0.end_.current)
  ctor_copy_loop fuel other s0 other.begin s0.begin

/-- Source: `ring_buffer(ring_buffer&& other)`: the new buffer and what is left of
`other` (`memblk.release()` makes its pointer null, nothing else is written). -/
def ctor_move (other : ring_buffer α) : ring_buffer α × ring_buffer α :=
  ({ mb_size := other.mb_size, memblk := other.memblk,
     m_begin := other.m_begin, m_end := other.m_end },
   { other with memblk := none })

/-- Source: `shrink_to_fit`. -/
def shrink_to_fit (alloc : allocator_type) (b : ring_buffer α) :
    Except Fault (ring_buffer α) :=
  let size := b.size
  if size = 0 then do
    let b1 ← b.memblk_reset
    .ok { b1 with mb_size := 0, m_begin := 0, m_end := 0 }
  else if size < b.capacity then do
    let copy ← ctor_copy b alloc
    let (self, old) := swap b copy
    let _ ← old.dtor
    .ok self
  else .ok b

/-- Source: first loop of `it_insert` (front extended): move `[old_begin, pos)` to the
new front. -/
def it_insert_fwd_loop : Nat → ring_buffer α → radix_iterator → radix_iterator →
    radix_iterator → Except Fault (ring_buffer α)
  | 0, b, src, _, pos => if radix_iterator.ne src pos then .error .diverges else .ok b
  | fuel + 1, b, src, dst, pos =>
    if radix_iterator.ne src pos then do
      let v ← b.load src.get
      let b1 ← b.construct dst.get v
      let b2 ← b1.destroy src.get
      it_insert_fwd_loop fuel b2 src.pre_inc dst.pre_inc pos
    else .ok b

/-- Source: second loop of `it_insert` (back extended), on reverse iterators: the
value read is `*from`, the cells written and destroyed are `to.base().get()` and
`from.base().get()`. -/
def it_insert_back_loop : Nat → ring_buffer α → reverse_iterator → reverse_iterator →
    reverse_iterator → Except Fault (ring_buffer α)
  | 0, b, src, _, end_pos => if !(reverse_iterator.eq src end_pos) then .error .diverges else .ok b
  | fuel + 1, b, src, dst, end_pos =>
    if !(reverse_iterator.eq src end_pos) then do
      let v ← b.load src.deref_addr
      let b1 ← b.construct dst.base.get v
      let b2 ← b1.destroy src.base.get
      it_insert_back_loop fuel b2 src.pre_inc dst.pre_inc end_pos
    else .ok b

/-- Source: last loop of `it_insert`: construct the values of `[first, last)`, at most
`count` of them, from cursor `it` on. -/
def it_insert_init_loop : ring_buffer α → radix_iterator → List α → Nat → Nat →
    Except Fault (ring_buffer α)
  | b, _, [], _, _ => .ok b
  | b, it, v :: rest, num, count =>
    if num < count then do
      let off ← b.it_offset it
      let b1 ← b.ctor_value off v
      it_insert_init_loop b1 it.pre_inc rest (uadd num 1) count
    else .ok b

/-- Source: `it_insert(const_iterator pos, InputIt first, InputIt last, size_type count)`;
`vals` is the range `[first, last)`.  Result: the new state and the returned cursor. -/
def it_insert (alloc : allocator_type) (b : ring_buffer α) (pos : radix_iterator)
    (vals : List α) (count : Nat) : Except Fault (ring_buffer α × radix_iterator) := do
  let d1 ← radix_iterator.distance b.begin pos
  let d2 ← radix_iterator.distance pos b.end_
  let expand_forward : Bool := decide (d1 < d2)
  let pos_off ← b.it_offset pos
  let buf_start ← b.idx_of pos_off
  let b1 ← b.ensure_alloc_copy_extra alloc (uadd b.size count)
  let b2 ← (if expand_forward then do
      let old_begin := b1.begin
      let nb ← b1.it_offset (b1.end_.advance (-(to_diff count)))
      let b1a : ring_buffer α := { b1 with m_begin := nb }
      it_insert_fwd_loop (old_begin.walk_bound pos.current) b1a old_begin b1a.begin pos
    else do
      let old_end := b1.rbegin
      let end_pos : reverse_iterator := ⟨pos.advance (-1)⟩
      let moved_end ← b1.it_offset (b1.end_.advance (to_diff count))
      let b1a : ring_buffer α := { b1 with m_end := moved_end }
      let new_end := b1a.rbegin
      it_insert_back_loop (old_end.base.walk_bound end_pos.base.current) b1a old_end new_end
        end_pos)
  let first_elem := b2.begin.advance (to_diff buf_start)
  let b3 ← it_insert_init_loop b2 first_elem vals 0 count
  .ok (b3, first_elem)

/-- Source: `insert(const_iterator pos, const value_type& value)` and the rvalue
overload: a range of one element, a pointer range, so the forward-iterator path with
`count = std::distance(first, last) = 1`. -/
def insert (alloc : allocator_type) (b : ring_buffer α) (pos : radix_iterator) (value : α) :
    Except Fault (ring_buffer α × radix_iterator) :=
  b.it_insert alloc pos [value] 1

/-- Source: `insert(const_iterator pos, InputIt first, InputIt last)` for a forward
range. -/
def insert_range (alloc : allocator_type) (b : ring_buffer α) (pos : radix_iterator)
    (vals : List α) : Except Fault (ring_buffer α × radix_iterator) :=
  b.it_insert alloc pos vals (vals.length % SIZE_MOD)

/-- Source: `insert(const_iterator pos, std::initializer_list<value_type> il)`. -/
def insert_il (alloc : allocator_type) (b : ring_buffer α) (pos : radix_iterator)
    (il : List α) : Except Fault (ring_buffer α × radix_iterator) :=
  b.it_insert alloc pos il (il.length % SIZE_MOD)

/-- Logical contents: the elements `at(0)`, ..., `at(n - 1)` read in order. -/
def contents_upto (b : ring_buffer α) : Nat → Except Fault (List α)
  | 0 => .ok []
  | n + 1 => do
    let xs ← contents_upto b n
    let x ← b.at_value n
    .ok (xs ++ [x])

/-- Logical contents: `at(0)`, ..., `at(size() - 1)`. -/
def contents (b : ring_buffer α) : Except Fault (List α) := contents_upto b b.size

end ring_buffer

/-! ## Reference model and concrete runs -/

deriving instance DecidableEq for Except

/-- A free store that grants every request of at most `PTRDIFF_MAX` elements and
hands out the block at address `addr`. -/
def std_alloc (addr : Int) : allocator_type := ⟨9223372036854775807, addr⟩

/-- The operations of an ordinary double-ended list, in the words of the spec. -/
inductive deque_op (α : Type) where
  | push_back (v : α)
  | push_front (v : α)
  | pop_back
  | pop_front

/-- Spec model: append, prepend, drop-last, drop-first on a list. -/
def deque_op.apply {α : Type} (l : List α) : deque_op α → List α
  | .push_back v => l ++ [v]
  | .push_front v => v :: l
  | .pop_back => l.dropLast
  | .pop_front => l.drop 1

/-- Spec model of a sequence of operations, started on the empty list. -/
def deque_model {α : Type} (ops : List (deque_op α)) : List α :=
  ops.foldl deque_op.apply []

namespace ring_buffer

/-- The run `ring_buffer<int> b(0); b.push_back(1); b.push_back(2);` -/
def run_two_push_back : Except Fault (ring_buffer Nat) := do
  let b ← ctor_cap 0 (std_alloc 100)
  let (b, _) ← b.push_back (std_alloc 200) 1
  let (b, _) ← b.push_back (std_alloc 300) 2
  .ok b

/-- The run `ring_buffer<int> b(2); b.push_back(1); b.push_back(2);` -/
def run_fill_two : Except Fault (ring_buffer Nat) := do
  let b ← ctor_cap 2 (std_alloc 100)
  let (b, _) ← b.push_back (std_alloc 200) 1
  let (b, _) ← b.push_back (std_alloc 300) 2
  .ok b

/-- The run `ring_buffer<int> b(3); b.push_back(7); b.pop_front(); b.push_back(2);
b.push_front(1);`: the two elements 1, 2 in cells 0 and 1. -/
def run_one_two : Except Fault (ring_buffer Nat) := do
  let b ← ctor_cap 3 (std_alloc 100)
  let (b, _) ← b.push_back (std_alloc 200) 7
  let b ← b.pop_front
  let (b, _) ← b.push_back (std_alloc 200) 2
  let (b, _) ← b.push_front (std_alloc 200) 1
  .ok b

/-- The run `run_one_two` followed by `b.insert(std::next(b.begin()), 9)`. -/
def run_insert_middle : Except Fault (ring_buffer Nat × radix_iterator) := do
  let b ← run_one_two
  b.insert (std_alloc 200) (b.begin.advance 1) 9

/-- The run `ring_buffer<int> b(2); b.push_back(7); b.push_front(8);`: the two elements 8, 7,
the range wraps (cells 2 and 0 of 3). -/
def run_wrapped_small : Except Fault (ring_buffer Nat) := do
  let b ← ctor_cap 2 (std_alloc 100)
  let (b, _) ← b.push_back (std_alloc 200) 7
  let (b, _) ← b.push_front (std_alloc 300) 8
  .ok b

/-- The run `ring_buffer<int> b(3); b.push_back(2); b.push_front(1);`: the two elements 1, 2,
the range wraps (cells 3 and 0 of 4). -/
def run_wrapped : Except Fault (ring_buffer Nat) := do
  let b ← ctor_cap 3 (std_alloc 100)
  let (b, _) ← b.push_back (std_alloc 200) 2
  let (b, _) ← b.push_front (std_alloc 200) 1
  .ok b

end ring_buffer

/-! ## The data-model invariant -/

namespace ring_buffer

variable {α : Type}

/-- Forward wrap-distance from `m_begin` to `m_end`: the number of elements held. -/
def live_count (b : ring_buffer α) : Nat := (b.m_end + b.mb_size - b.m_begin) % b.mb_size

/-- Cell `k` of a region holds a constructed element. -/
def is_live (r : region α) (k : Nat) : Prop := ∃ v, r.cells[k]? = some (some v)

/-- Invariant of section 3 of the spec: a region of `mb_size >= 1` cells is owned, both
offsets lie inside it, and the cells of the circular range `[m_begin, m_end)` hold
constructed elements.  (`mb_size` is below `2 ^ 63`: a block has at most `PTRDIFF_MAX`
elements.) -/
def well_formed (b : ring_buffer α) : Prop :=
  0 < b.mb_size ∧ b.mb_size < DIFF_MAX_SUCC ∧ b.m_begin < b.mb_size ∧ b.m_end < b.mb_size ∧
  ∃ r, b.memblk = some r ∧ r.cells.length = b.mb_size ∧
    ∀ j, j < live_count b → is_live r ((b.m_begin + j) % b.mb_size)

end ring_buffer

namespace ring_buffer

/-- The run `ring_buffer<int> b(3); b.push_back(9); b.pop_front(); b.push_back(9); b.pop_front();
b.push_back(3); b.push_front(2); b.push_front(1);`: a buffer of capacity 3 holding the
three elements 1, 2, 3 in cells 0 to 2. -/
def run_full_three : Except Fault (ring_buffer Nat) := do
  let b ← ctor_cap 3 (std_alloc 100)
  let (b, _) ← b.push_back (std_alloc 200) 9
  let b ← b.pop_front
  let (b, _) ← b.push_back (std_alloc 200) 9
  let b ← b.pop_front
  let (b, _) ← b.push_back (std_alloc 200) 3
  let (b, _) ← b.push_front (std_alloc 200) 2
  let (b, _) ← b.push_front (std_alloc 200) 1
  .ok b

/-- The state `run_full_three` ends in. -/
def full_three : ring_buffer Nat := ⟨4, some ⟨100, [some 1, some 2, some 3, none]⟩, 0, 3⟩

end ring_buffer

namespace ring_buffer

/-- The state `run_one_two` ends in. -/
def one_two : ring_buffer Nat := ⟨4, some ⟨100, [some 1, some 2, none, none]⟩, 0, 2⟩

end ring_buffer

/-! ## Clearing, assignment and resizing -/

namespace ring_buffer

variable {α : Type}

/-- Source: `clear`. -/
def clear (b : ring_buffer α) : Except Fault (ring_buffer α) := do
  let b1 ← b.memblk_reset
  .ok { b1 with m_begin := 0, m_end := 0, mb_size := 0 }

/-- Library move assignment of `unique_ptr` as in `memblk = alloc_memblk(count)`:
`reset(p)` stores the new pointer first, then the deleter runs on the old one. -/
def memblk_assign (b : ring_buffer α) (blk : region α) : Except Fault (ring_buffer α) :=
  match b.memblk with
  | none => .ok { b with memblk := some blk }
  | some old => destruct_memblk { b with memblk := some blk } old

/-- Source: `ensure_alloc_blanked`. -/
def ensure_alloc_blanked (alloc : allocator_type) (b : ring_buffer α) (count : Nat) :
    Except Fault (ring_buffer α) := do
  let b1 ← b.dtor_value_all
  if count > b1.capacity then do
    let blk ← alloc_memblk alloc count
    let b2 ← b1.memblk_assign blk
    .ok { b2 with mb_size := uadd count 1, m_begin := 0, m_end := uadd count 1 }
  else .ok b1

/-- Source: the loop of `assign(size_type, const T&)`: `i` is a `size_type` that runs
from `m_begin` up to `m_end`. -/
def assign_loop : Nat → ring_buffer α → Nat → α → Except Fault (ring_buffer α)
  | 0, b, i, _ => if i = b.m_end then .ok b else .error .diverges
  | fuel + 1, b, i, val =>
    if i = b.m_end then .ok b
    else do
      let b1 ← b.ctor_value i val
      assign_loop fuel b1 (uadd i 1) val

/-- Source: `assign(size_type count, const T& val)`.  Counting modulo `SIZE_MOD`, `i`
meets `m_end` after `m_end - m_begin` rounds. -/
def assign (alloc : allocator_type) (b : ring_buffer α) (count : Nat) (val : α) :
    Except Fault (ring_buffer α) := do
  let b1 ← b.ensure_alloc_blanked alloc count
  assign_loop (usub b1.m_end b1.m_begin) b1 b1.m_begin val

/-- Source: `ring_buffer(size_type count, const value_type& value, const allocator_type&)`. -/
def ctor_fill (alloc : allocator_type) (count : Nat) (value : α) :
    Except Fault (ring_buffer α) :=
  (ctor_default : ring_buffer α).assign alloc count value

/-- Source: `assign(InputIt first, InputIt last)` for a forward range `vals`, and
`assign(std::initializer_list<T>)`, which passes the pointer range of the list. -/
def assign_range (alloc : allocator_type) (b : ring_buffer α) (vals : List α) :
    Except Fault (ring_buffer α) := do
  let b1 ← b.dtor_value_all
  let r ← b1.insert_range alloc b1.begin vals
  .ok r.1

/-- Source: `ring_buffer(InputIt first, InputIt last, const allocator_type&)` for a
forward range, and `ring_buffer(std::initializer_list<T>, const allocator_type&)`. -/
def ctor_range (alloc : allocator_type) (vals : List α) : Except Fault (ring_buffer α) :=
  (ctor_default : ring_buffer α).assign_range alloc vals

/-- Source: the loop of the growing branch of `resize_val`. -/
def resize_fill_loop : Nat → ring_buffer α → radix_iterator → α →
    Except Fault (ring_buffer α)
  | 0, b, it, _ => if radix_iterator.ne it b.end_ then .error .diverges else .ok b
  | fuel + 1, b, it, v =>
    if radix_iterator.ne it b.end_ then do
      let off ← b.it_offset it
      let b1 ← b.ctor_value off v
      resize_fill_loop fuel b1 it.pre_inc v
    else .ok b

/-- Source: `resize_val` and `resize(size_type count, const value_type& value)`.  The
loop header of the source reads `for(auto it == it_old_end; ...)`, which declares
nothing; it is taken as the initialisation `auto it = it_old_end`. -/
def resize (alloc : allocator_type) (b : ring_buffer α) (count : Nat) (value : α) :
    Except Fault (ring_buffer α) :=
  if count > b.size then do
    let b1 ← b.ensure_alloc_copy_extra alloc count
    let it_old_end := b1.end_
    let new_end ← b1.offset_of (to_diff count)
    let b2 : ring_buffer α := { b1 with m_end := new_end }
    resize_fill_loop (it_old_end.walk_bound b2.end_.current) b2 it_old_end value
  else if count < b.size then do
    let old_end := b.m_end
    let new_end ← b.abs_offset_of (to_diff (uadd b.m_begin count))
    let b1 : ring_buffer α := { b with m_end := new_end }
    b1.dtor_value_range new_end old_end
  else .ok b

/-! ## Traversal -/

/-- The loop `for(it = first; it != last; ++it)` over a cursor pair: the addresses
`it.get()` visited, in order. -/
def walk_loop : Nat → radix_iterator → radix_iterator → List Int → Except Fault (List Int)
  | 0, it, last, acc => if radix_iterator.ne it last then .error .diverges else .ok acc
  | fuel + 1, it, last, acc =>
    if radix_iterator.ne it last then walk_loop fuel it.pre_inc last (acc ++ [it.get])
    else .ok acc

/-- Forward traversal `for(it = begin(); it != end(); ++it)`: the addresses visited. -/
def forward_walk (b : ring_buffer α) : Except Fault (List Int) :=
  walk_loop (b.begin.walk_bound b.end_.current) b.begin b.end_ []

/-- The loop `for(it = first; it != last; ++it)` over a reverse cursor pair: the
addresses `&*it` visited, in order. -/
def reverse_walk_loop : Nat → reverse_iterator → reverse_iterator → List Int →
    Except Fault (List Int)
  | 0, it, last, acc => if !(reverse_iterator.eq it last) then .error .diverges else .ok acc
  | fuel + 1, it, last, acc =>
    if !(reverse_iterator.eq it last) then
      reverse_walk_loop fuel it.pre_inc last (acc ++ [it.deref_addr])
    else .ok acc

/-- Reverse traversal `for(it = rbegin(); it != rend(); ++it)`: the addresses visited. -/
def reverse_walk (b : ring_buffer α) : Except Fault (List Int) :=
  reverse_walk_loop (b.rbegin.base.walk_bound b.rend.base.current) b.rbegin b.rend []

/-- The address of the cell `at(pos)` names. -/
def at_addr (b : ring_buffer α) (pos : Nat) : Except Fault Int := do
  let off ← b.at_ pos
  .ok (b.get_ptr + to_diff off)

end ring_buffer

/-! ## Member functions with an explicit `*this`: the state a throw leaves -/

/-- The body of a member function that may throw.  Run on a state of `*this` it gives a
result or a fault and, in both cases, the state of `*this` it leaves: what was written
before a throw stays written.  (After a fault `undefined` or `diverges` the state has no
meaning.) -/
def member (α β : Type) : Type := ring_buffer α → Except Fault β × ring_buffer α

namespace member

variable {α β γ : Type}

/-- Sequencing of two statements: the second runs on the state the first leaves; a
fault of the first ends the body in the state it was raised in. -/
def seq (m : member α β) (f : β → member α γ) : member α γ := fun s =>
  match m s with
  | (.ok x, s1) => f x s1
  | (.error e, s1) => (.error e, s1)

instance : Monad (member α) where
  pure x := fun s => (.ok x, s)
  bind := seq

/-- Read of the data members of `*this`. -/
def read : member α (ring_buffer α) := fun s => (.ok s, s)

/-- Write of data members of `*this`. -/
def write (s1 : ring_buffer α) : member α Unit := fun _ => (.ok (), s1)

/-- Evaluation of an expression that writes no data member of `*this` and no cell of
its region (it may allocate, and work on local objects). -/
def eval (r : Except Fault β) : member α β := fun s => (r, s)

/-- A statement that throws no exception: it computes the new state of `*this` from the
current one and writes it, or its behaviour is undefined. -/
def step (f : ring_buffer α → Except Fault (ring_buffer α)) : member α Unit := do
  let s ← read
  let s1 ← eval (f s)
  write s1

/-- What a body run on `s` returns: the state it leaves and its value. -/
def returns (m : member α β) (s : ring_buffer α) : Except Fault (ring_buffer α × β) :=
  match m s with
  | (.ok x, s1) => .ok (s1, x)
  | (.error e, _) => .error e

/-- The state a body without a value leaves when it returns. -/
def leaves (m : member α Unit) (s : ring_buffer α) : Except Fault (ring_buffer α) :=
  match m s with
  | (.ok _, s1) => .ok s1
  | (.error e, _) => .error e

end member

namespace ring_buffer

variable {α : Type}

/-- Source: `ensure_alloc_copy`, statement by statement.  `new_blk` is a local object:
its constructor allocates, the loop constructs into it, `swap` is the only write to
`*this`, and the destructor of `new_blk` runs at the end of the block. -/
def ensure_alloc_copy_m (alloc : allocator_type) (count : Nat) : member α Unit := do
  let s ← member.read
  if count > s.capacity then
    let nb0 ← member.eval (ctor_cap count alloc)
    let nb1 : ring_buffer α := { nb0 with m_begin := 0, m_end := s.size }
    let fuel := max (s.begin.walk_bound s.end_.current)
      (nb1.begin.walk_bound nb1.end_.current)
    let nb2 ← member.eval (ensure_alloc_copy_loop fuel s nb1 s.begin nb1.begin)
    member.write (swap s nb2).1
    member.eval (swap s nb2).2.dtor
  else pure ()

/-- Source: `ensure_alloc_copy_extra`, statement by statement. -/
def ensure_alloc_copy_extra_m (alloc : allocator_type) (count : Nat) : member α Unit := do
  let s ← member.read
  let new_size :=
    if count > s.capacity then
      let grown := expand s.mb_size
      if count > grown then count else grown
    else count
  ensure_alloc_copy_m alloc new_size

/-- Source: `emplace_back`, `push_back`, statement by statement. -/
def emplace_back_m (alloc : allocator_type) (v : α) : member α Int := do
  let s ← member.read
  ensure_alloc_copy_extra_m alloc (uadd s.size 1)
  member.step (fun t => t.ctor_value t.m_end v)
  let s2 ← member.read
  let new_end ← member.eval (s2.it_offset (s2.begin.advance 1))
  member.write { s2 with m_end := new_end }
  let s3 ← member.read
  pure s3.back

/-- Source: `emplace_front`, `push_front`, statement by statement. -/
def emplace_front_m (alloc : allocator_type) (v : α) : member α Int := do
  let s ← member.read
  ensure_alloc_copy_extra_m alloc (uadd s.size 1)
  let s1 ← member.read
  let new_begin ← member.eval (s1.it_offset (s1.begin.advance (-1)))
  member.step (fun t => t.ctor_value new_begin v)
  let s2 ← member.read
  member.write { s2 with m_begin := new_begin }
  let s3 ← member.read
  pure s3.front

/-- Source: `reserve`, statement by statement. -/
def reserve_m (alloc : allocator_type) (new_cap : Nat) : member α Unit := do
  let s ← member.read
  if new_cap > s.capacity then ensure_alloc_copy_m alloc new_cap else pure ()

/-- Source: `resize_val`, `resize`, statement by statement (the loop header is read as in
`resize`). -/
def resize_m (alloc : allocator_type) (count : Nat) (value : α) : member α Unit := do
  let s ← member.read
  if count > s.size then
    ensure_alloc_copy_extra_m alloc count
    let s1 ← member.read
    let it_old_end := s1.end_
    let new_end ← member.eval (s1.offset_of (to_diff count))
    member.write { s1 with m_end := new_end }
    let s2 ← member.read
    member.step
      (fun t => resize_fill_loop (it_old_end.walk_bound s2.end_.current) t it_old_end value)
  else if count < s.size then
    let old_end := s.m_end
    let new_end ← member.eval (s.abs_offset_of (to_diff (uadd s.m_begin count)))
    member.write { s with m_end := new_end }
    member.step (fun t => t.dtor_value_range new_end old_end)
  else pure ()

/-- Source: `it_insert(const_iterator, InputIt, InputIt, size_type)`, statement by
statement. -/
def it_insert_m (alloc : allocator_type) (pos : radix_iterator) (vals : List α)
    (count : Nat) : member α radix_iterator := do
  let s ← member.read
  let d1 ← member.eval (radix_iterator.distance s.begin pos)
  let d2 ← member.eval (radix_iterator.distance pos s.end_)
  let expand_forward : Bool := decide (d1 < d2)
  let pos_off ← member.eval (s.it_offset pos)
  let buf_start ← member.eval (s.idx_of pos_off)
  ensure_alloc_copy_extra_m alloc (uadd s.size count)
  let s1 ← member.read
  (if expand_forward then do
      let old_begin := s1.begin
      let nb ← member.eval (s1.it_offset (s1.end_.advance (-(to_diff count))))
      member.write { s1 with m_begin := nb }
      let s1a ← member.read
      member.step
        (fun t => it_insert_fwd_loop (old_begin.walk_bound pos.current) t old_begin s1a.begin pos)
    else do
      let old_end := s1.rbegin
      let end_pos : reverse_iterator := ⟨pos.advance (-1)⟩
      let moved_end ← member.eval (s1.it_offset (s1.end_.advance (to_diff count)))
      member.write { s1 with m_end := moved_end }
      let s1a ← member.read
      let new_end := s1a.rbegin
      member.step
        (fun t => it_insert_back_loop (old_end.base.walk_bound end_pos.base.current) t old_end
          new_end end_pos))
  let s2 ← member.read
  let first_elem := s2.begin.advance (to_diff buf_start)
  member.step (fun t => it_insert_init_loop t first_elem vals 0 count)
  pure first_elem

/-- Source: the loop of `it_insert(const_iterator, InputIt, InputIt, cte_bool<false>)`,
statement by statement. -/
def it_insert_input_loop_m (allocs : Nat → allocator_type) :
    Nat → radix_iterator → List α → radix_iterator → member α radix_iterator
  | _, _, [], insert_pos => pure insert_pos
  | i, pos, v :: rest, _ => do
    let r ← it_insert_m (allocs i) pos (v :: rest) 1
    it_insert_input_loop_m allocs (i + 1) pos rest r

/-- Source: `it_insert(const_iterator, InputIt, InputIt, cte_bool<false>)`, statement by
statement. -/
def it_insert_input_m (allocs : Nat → allocator_type) (pos : radix_iterator)
    (vals : List α) : member α radix_iterator := do
  let s ← member.read
  let pos_off ← member.eval (s.it_offset pos)
  let idx ← member.eval (s.idx_of pos_off)
  let insert_pos := s.begin.advance (to_diff idx)
  it_insert_input_loop_m allocs 0 pos vals insert_pos

/-- Source: `ensure_alloc_blanked`, statement by statement: `dtor_value_all()` writes
first; `alloc_memblk(count)` is evaluated before the assignment to `memblk`. -/
def ensure_alloc_blanked_m (alloc : allocator_type) (count : Nat) : member α Unit := do
  member.step dtor_value_all
  let s1 ← member.read
  if count > s1.capacity then
    let blk ← member.eval (alloc_memblk alloc count)
    member.step (fun t => t.memblk_assign blk)
    let s2 ← member.read
    member.write { s2 with mb_size := uadd count 1, m_begin := 0, m_end := uadd count 1 }
  else pure ()

/-- Source: `assign(size_type count, const T& val)`, statement by statement. -/
def assign_m (alloc : allocator_type) (count : Nat) (val : α) : member α Unit := do
  ensure_alloc_blanked_m alloc count
  let s1 ← member.read
  member.step (fun t => assign_loop (usub s1.m_end s1.m_begin) t s1.m_begin val)

/-- Source: `assign(InputIt first, InputIt last)` for a forward range, statement by
statement. -/
def assign_range_m (alloc : allocator_type) (vals : List α) : member α Unit := do
  member.step dtor_value_all
  let s1 ← member.read
  let _ ← it_insert_m alloc s1.begin vals (vals.length % SIZE_MOD)
  pure ()

end ring_buffer

namespace ring_buffer

end ring_buffer

/-! ## Further concrete runs -/

namespace ring_buffer

/-- The run `ring_buffer<int> b(3); b.clear();` -/
def run_clear_empty : Except Fault (ring_buffer Nat) := do
  let b ← ctor_cap 3 (std_alloc 100)
  b.clear

/-- The run `ring_buffer<int> b(3); b.shrink_to_fit();` -/
def run_shrink_empty : Except Fault (ring_buffer Nat) := do
  let b ← ctor_cap 3 (std_alloc 100)
  b.shrink_to_fit (std_alloc 200)

/-- The run `ring_buffer<int> b; b.push_back(1);` -/
def run_default_push_back : Except Fault (ring_buffer Nat × Int) :=
  (ctor_default : ring_buffer Nat).push_back (std_alloc 100) 1

/-- The run `ring_buffer<int> b(1); b.assign(3, 7);` -/
def run_assign_grow : Except Fault (ring_buffer Nat) := do
  let b ← ctor_cap 1 (std_alloc 100)
  b.assign (std_alloc 200) 3 7

/-- The run `ring_buffer<int> b(5); b.assign(3, 7);` -/
def run_assign_fits : Except Fault (ring_buffer Nat) := do
  let b ← ctor_cap 5 (std_alloc 100)
  b.assign (std_alloc 200) 3 7

/-- The run `ring_buffer<int> b(3); b.assign({1, 2});` -/
def run_assign_list : Except Fault (ring_buffer Nat) := do
  let b ← ctor_cap 3 (std_alloc 100)
  b.assign_range (std_alloc 200) [1, 2]

/-- The run `ring_buffer<int> b(3); b.push_back(9); b.pop_front();`: an empty buffer
with `m_begin == m_end == 1`. -/
def run_empty_at_one : Except Fault (ring_buffer Nat) := do
  let b ← ctor_cap 3 (std_alloc 100)
  let (b, _) ← b.push_back (std_alloc 200) 9
  b.pop_front

/-- The run `run_empty_at_one` followed by `b.resize(3, 7)`. -/
def run_resize_three : Except Fault (ring_buffer Nat) := do
  let b ← run_empty_at_one
  b.resize (std_alloc 200) 3 7

end ring_buffer

/-! ## Slot tracking and the one-at-a-time insertion path -/

/-- Floor-modulo in the words of the spec: the `r` with `0 <= r < wrap` congruent to
`val` modulo `wrap`. -/
def spec_floor_mod (val : Int) (wrap : Nat) : Nat := (val % (wrap : Int)).toNat

namespace ring_buffer

variable {α : Type}

/-- Number of cells of the region that hold a constructed element (for `pitfall`
elements: the contribution of this region to `pitfall::live_count`). -/
def constructed_count (b : ring_buffer α) : Nat :=
  match b.memblk with
  | none => 0
  | some r => (r.cells.filter Option.isSome).length

/-- Destructor of `ring_buffer`, with the number of elements that are still
constructed when the block is handed to `deallocate`. -/
def dtor_leak (b : ring_buffer α) : Except Fault Nat :=
  match b.memblk with
  | none => .ok 0
  | some r => do
    let b1 ← destruct_memblk b r
    .ok b1.constructed_count

/-- Source: the loop of `it_insert(const_iterator, InputIt, InputIt, cte_bool<false>)`:
every round calls `it_insert(pos, it, last, 1)` with the same `pos`.  `allocs i` is what
the free store does in round `i`. -/
def it_insert_input_loop (allocs : Nat → allocator_type) :
    Nat → ring_buffer α → radix_iterator → List α → radix_iterator →
    Except Fault (ring_buffer α × radix_iterator)
  | _, b, _, [], insert_pos => .ok (b, insert_pos)
  | i, b, pos, v :: rest, _ => do
    let r ← b.it_insert (allocs i) pos (v :: rest) 1
    it_insert_input_loop allocs (i + 1) r.1 pos rest r.2

/-- Source: `it_insert(const_iterator pos, InputIt first, InputIt last, cte_bool<false>)`,
the path taken for an input range whose length is not known in advance. -/
def it_insert_input (allocs : Nat → allocator_type) (b : ring_buffer α)
    (pos : radix_iterator) (vals : List α) :
    Except Fault (ring_buffer α × radix_iterator) := do
  let pos_off ← b.it_offset pos
  let idx ← b.idx_of pos_off
  let insert_pos := b.begin.advance (to_diff idx)
  it_insert_input_loop allocs 0 b pos vals insert_pos

/-- The run `ring_buffer<int> b(7); b.push_back(9); b.pop_front(); b.push_back(9);
b.pop_front(); b.push_back(3); b.push_front(2); b.push_front(1);`: a buffer of capacity 7
holding the three elements 1, 2, 3 in cells 0 to 2. -/
def run_three_of_seven : Except Fault (ring_buffer Nat) := do
  let b ← ctor_cap 7 (std_alloc 100)
  let (b, _) ← b.push_back (std_alloc 200) 9
  let b ← b.pop_front
  let (b, _) ← b.push_back (std_alloc 200) 9
  let b ← b.pop_front
  let (b, _) ← b.push_back (std_alloc 200) 3
  let (b, _) ← b.push_front (std_alloc 200) 2
  let (b, _) ← b.push_front (std_alloc 200) 1
  .ok b

/-- The state `run_three_of_seven` ends in. -/
def three_of_seven : ring_buffer Nat :=
  ⟨8, some ⟨100, [some 1, some 2, some 3, none, none, none, none, none]⟩, 0, 3⟩

end ring_buffer

/-! ## Offsets of the states the operations produce -/

namespace ring_buffer

variable {α : Type}

/-- Two states have the same `mb_size`, `m_begin` and `m_end`. -/
def same_offsets (b b1 : ring_buffer α) : Prop :=
  b1.mb_size = b.mb_size ∧ b1.m_begin = b.m_begin ∧ b1.m_end = b.m_end

/-- Either the buffer is in the state without slots (`mb_size == m_begin == m_end == 0`,
as after default construction or `clear`), or `mb_size >= 1` and both offsets are below
`mb_size`; a block has at most `PTRDIFF_MAX` slots. -/
def offsets_in_region (b : ring_buffer α) : Prop :=
  b.mb_size < DIFF_MAX_SUCC ∧
  ((b.mb_size = 0 ∧ b.m_begin = 0 ∧ b.m_end = 0) ∨
   (1 ≤ b.mb_size ∧ b.m_begin < b.mb_size ∧ b.m_end < b.mb_size))

end ring_buffer

/-! ## Move and copy assignment -/

namespace ring_buffer

variable {α : Type}

/-- Library move assignment of `unique_ptr` as in `memblk = std::move(other.memblk)`:
`reset(other.memblk.release())`. -/
def memblk_move_from (b : ring_buffer α) (p : Option (region α)) :
    Except Fault (ring_buffer α) :=
  match p with
  | none => b.memblk_reset
  | some blk => b.memblk_assign blk

/-- Source: `move_assign(ring_buffer&& other, cte_bool<true>)`, the path that
`operator=(ring_buffer&&)` takes for `std::allocator`
(`propagate_on_container_move_assignment` is `true_type`): the new `*this` and what is
left of `other`, whose pointer is null after the move and whose other members are not
written. -/
def move_assign (self other : ring_buffer α) :
    Except Fault (ring_buffer α × ring_buffer α) := do
  let s1 ← self.memblk_reset
  let s2 ← s1.memblk_move_from other.memblk
  .ok ({ s2 with mb_size := other.mb_size, m_begin := other.m_begin, m_end := other.m_end },
    { other with memblk := none })

/-- The values `*it` for `it` from `begin()` up to `end()`, in order. -/
def range_values (b : ring_buffer α) : Except Fault (List α) := do
  let addrs ← b.forward_walk
  addrs.mapM b.load

/-- Source: `operator=(const ring_buffer& other)`: `clear()`, then
`assign(other.begin(), other.end())` (`copy_assign_mm` has nothing to copy for
`std::allocator`).  The cursors of `other` are bidirectional, so `assign` takes the path
of a forward range; the values of the range are read before the call, which makes no
difference when every cell of the range of `other` is constructed. -/
def copy_assign (alloc : allocator_type) (self other : ring_buffer α) :
    Except Fault (ring_buffer α) := do
  let s1 ← self.clear
  let vals ← other.range_values
  s1.assign_range alloc vals

/-- The element the reference `front()` names. -/
def front_value (b : ring_buffer α) : Except Fault α := b.load b.front

/-- The element the reference `back()` names. -/
def back_value (b : ring_buffer α) : Except Fault α := b.load b.back

/-- The run `ring_buffer<int> b(3); b.push_back(7);` with the reference `push_back`
returns. -/
def run_push_back_one : Except Fault (ring_buffer Nat × Int) := do
  let b ← ctor_cap 3 (std_alloc 100)
  b.push_back (std_alloc 200) 7

/-- The run `ring_buffer<int> b(3); b.push_front(7);` with the reference `push_front`
returns. -/
def run_push_front_one : Except Fault (ring_buffer Nat × Int) := do
  let b ← ctor_cap 3 (std_alloc 100)
  b.push_front (std_alloc 200) 7

end ring_buffer

/-! ## Theorems -/

/-! ### Machine arithmetic -/

theorem to_diff_small {u : Nat} (h : u < DIFF_MAX_SUCC) : to_diff u = (u : Int) := by
  unfold DIFF_MAX_SUCC at h
  have h1 : u % SIZE_MOD = u := Nat.mod_eq_of_lt (by unfold SIZE_MOD; omega)
  unfold to_diff
  rw [h1]
  simp [DIFF_MAX_SUCC, h]

theorem to_size_natCast {u : Nat} (h : u < SIZE_MOD) : to_size (u : Int) = u := by
  unfold to_size
  unfold SIZE_MOD at *
  omega

theorem uadd_small {a b : Nat} (h : a + b < SIZE_MOD) : uadd a b = a + b := by
  unfold uadd; exact Nat.mod_eq_of_lt h

theorem usub_small {a b : Nat} (h : b ≤ a) (ha : a < SIZE_MOD) : usub a b = a - b := by
  unfold usub
  have : a + SIZE_MOD - b = (a - b) + SIZE_MOD := by omega
  rw [this, Nat.add_mod_right]
  exact Nat.mod_eq_of_lt (by omega)

theorem usub_wrap {a b : Nat} (h : a < b) (hb : b ≤ SIZE_MOD) : usub a b = a + SIZE_MOD - b := by
  unfold usub
  exact Nat.mod_eq_of_lt (by omega)

theorem sig_shift_small (fuel n : Nat) (h : n < 9007199254740992) : sig_shift fuel n = 0 := by
  cases fuel with
  | zero => rfl
  | succ f => unfold sig_shift; rw [if_pos h]

theorem sig_shift_pow (fuel n : Nat) (h : 9007199254740992 ≤ n) :
    2 ^ sig_shift fuel n * 4503599627370496 ≤ n := by
  induction fuel generalizing n with
  | zero =>
    unfold sig_shift
    omega
  | succ f ih =>
    unfold sig_shift
    rw [if_neg (by omega)]
    by_cases h2 : n / 2 < 9007199254740992
    · rw [sig_shift_small f _ h2]
      omega
    · have h3 := ih (n / 2) (by omega)
      rw [Nat.pow_add]
      omega

theorem round_even_le (n k : Nat) : round_even n k ≤ n / 2 ^ k + 1 := by
  unfold round_even
  simp only
  split_ifs <;> omega

theorem to_double_le (n : Nat) : to_double n ≤ n + n / 4503599627370496 := by
  unfold to_double
  split
  · omega
  · next h =>
    simp only
    have h1 := sig_shift_pow 64 n (by omega)
    have h2 := round_even_le n (sig_shift 64 n)
    generalize 2 ^ sig_shift 64 n = P at h1 h2 ⊢
    have h3 : round_even n (sig_shift 64 n) * P ≤ (n / P + 1) * P :=
      Nat.mul_le_mul_right P h2
    have h4 : n / P * P ≤ n := Nat.div_mul_le_self n P
    have h5 : P ≤ n / 4503599627370496 :=
      (Nat.le_div_iff_mul_le (by omega)).2 h1
    rw [Nat.add_mul, Nat.one_mul] at h3
    omega

theorem mod_two_range {x n : Nat} (h : x < 2 * n) :
    x % n = if x < n then x else x - n := by
  split
  · next h1 => exact Nat.mod_eq_of_lt h1
  · next h1 =>
    have h2 : x = (x - n) + n := by omega
    conv_lhs => rw [h2]
    rw [Nat.add_mod_right]
    exact Nat.mod_eq_of_lt (by omega)

namespace ring_buffer

variable {α : Type}

@[simp] theorem bind_ok_eq {ε β γ : Type} (x : β) (f : β → Except ε γ) :
    (Except.ok x >>= f) = f x := rfl

@[simp] theorem bind_error_eq {ε β γ : Type} (e : ε) (f : β → Except ε γ) :
    ((Except.error e : Except ε β) >>= f) = Except.error e := rfl

theorem pwrap_small {z n : Nat} (hn : 0 < n) (hn2 : n < DIFF_MAX_SUCC) (hz : z < SIZE_MOD) :
    pwrap (z : Int) n = .ok (z % n) := by
  unfold pwrap
  have h0 : n ≠ 0 := by omega
  rw [if_neg h0, to_size_natCast hz]
  have h1 : z % n < n := Nat.mod_lt _ hn
  have h2 : uadd (z % n) n = z % n + n := by
    apply uadd_small
    unfold DIFF_MAX_SUCC at hn2; unfold SIZE_MOD; omega
  rw [h2, Nat.add_mod_right, Nat.mod_mod]

end ring_buffer

namespace radix_iterator

theorem pre_inc_in_range (a : Int) (n k : Nat) (hk : k < n) :
    pre_inc ⟨a, a + n, a + k⟩ = ⟨a, a + n, a + ((k + 1) % n : Nat)⟩ := by
  unfold pre_inc range_empty
  have h1 : ¬ (a = a + (n : Int)) := by omega
  simp only [beq_iff_eq, h1, if_false]
  by_cases h2 : k + 1 = n
  · have : a + (k : Int) + 1 = a + (n : Int) := by omega
    simp [this, h2]
  · have : ¬ (a + (k : Int) + 1 = a + (n : Int)) := by omega
    have h3 : (k + 1) % n = k + 1 := Nat.mod_eq_of_lt (by omega)
    simp [this, h3]
    omega

theorem pre_dec_in_range (a : Int) (n k : Nat) (hk : k < n) :
    pre_dec ⟨a, a + n, a + k⟩ = ⟨a, a + n, a + ((k + n - 1) % n : Nat)⟩ := by
  unfold pre_dec range_empty
  have h1 : ¬ (a = a + (n : Int)) := by omega
  simp only [beq_iff_eq, h1, if_false]
  by_cases h2 : k = 0
  · subst h2
    have h3 : (0 + n - 1) % n = n - 1 := by
      rw [Nat.zero_add]
      exact Nat.mod_eq_of_lt (by omega)
    simp [h3]
    omega
  · have h3 : (k + n - 1) % n = k - 1 := by
      have : k + n - 1 = (k - 1) + n := by omega
      rw [this, Nat.add_mod_right]
      exact Nat.mod_eq_of_lt (by omega)
    have h4 : ¬ (a + (k : Int) = a) := by omega
    simp [h3, h4]
    omega

end radix_iterator

namespace ring_buffer

variable {α : Type}

/-! ### Cursors and memory of a buffer that owns a region -/

theorem it_of_mk (n : Nat) (a : Int) (cs : List (Option α)) (bg en k : Nat)
    (hn : n < DIFF_MAX_SUCC) (hk : k < DIFF_MAX_SUCC) :
    (⟨n, some ⟨a, cs⟩, bg, en⟩ : ring_buffer α).it_of k = ⟨a, a + n, a + k⟩ := by
  simp [it_of, get_ptr, to_diff_small hn, to_diff_small hk]

theorem cell_index_mk (a : Int) (cs : List (Option α)) (k : Nat) (hk : k < cs.length) :
    cell_index (⟨a, cs⟩ : region α) (a + k) = some k := by
  unfold cell_index
  have h : a ≤ a + (k : Int) ∧ a + (k : Int) < a + (cs.length : Int) := by
    constructor <;> omega
  simp only [h, and_self, if_true]
  congr 1
  omega

theorem load_mk (n : Nat) (a : Int) (cs : List (Option α)) (bg en k : Nat) (v : α)
    (hv : cs[k]? = some (some v)) :
    (⟨n, some ⟨a, cs⟩, bg, en⟩ : ring_buffer α).load (a + k) = .ok v := by
  have hk : k < cs.length := by
    by_contra hc
    have : cs[k]? = none := List.getElem?_eq_none (by omega)
    rw [this] at hv
    cases hv
  simp [load, cell_index_mk a cs k hk, hv]

theorem ctor_value_mk (n : Nat) (a : Int) (cs : List (Option α)) (bg en k : Nat) (v : α)
    (hk : k < cs.length) (hk2 : k < DIFF_MAX_SUCC) :
    (⟨n, some ⟨a, cs⟩, bg, en⟩ : ring_buffer α).ctor_value k v =
      .ok ⟨n, some ⟨a, cs.set k (some v)⟩, bg, en⟩ := by
  simp [ctor_value, construct, get_ptr, to_diff_small hk2, cell_index_mk a cs k hk]

theorem it_offset_mk (n : Nat) (a : Int) (cs : List (Option α)) (bg en k : Nat) (f bk : Int)
    (hn : 0 < n) (hn2 : n < DIFF_MAX_SUCC) (hk : k < SIZE_MOD) :
    (⟨n, some ⟨a, cs⟩, bg, en⟩ : ring_buffer α).it_offset ⟨f, bk, a + k⟩ = .ok (k % n) := by
  simp only [it_offset, abs_offset_of, radix_iterator.get, get_ptr]
  have : a + (k : Int) - a = (k : Int) := by omega
  rw [this]
  exact pwrap_small hn hn2 hk

theorem dtor_value_mk (n : Nat) (a : Int) (cs : List (Option α)) (bg en k : Nat) (v : α)
    (hn2 : n < DIFF_MAX_SUCC) (hk : k < n) (hv : cs[k]? = some (some v)) :
    (⟨n, some ⟨a, cs⟩, bg, en⟩ : ring_buffer α).dtor_value k =
      .ok ⟨n, some ⟨a, cs.set k none⟩, bg, en⟩ := by
  have hkl : k < cs.length := by
    by_contra hc
    have : cs[k]? = none := List.getElem?_eq_none (by omega)
    rw [this] at hv
    cases hv
  have hk2 : k < DIFF_MAX_SUCC := by omega
  have hk3 : k < SIZE_MOD := by unfold DIFF_MAX_SUCC at hk2; unfold SIZE_MOD; omega
  have hp : pwrap (k : Int) n = .ok k := by
    rw [pwrap_small (by omega) hn2 hk3, Nat.mod_eq_of_lt hk]
  simp [dtor_value, abs_offset_of, to_diff_small hk2, hp, destroy, get_ptr,
    cell_index_mk a cs k hkl, hv]

end ring_buffer

/-! ### Positions on the circle -/

theorem wrap_count_lt {s e n : Nat} (hn : 0 < n) : (e + n - s) % n < n := Nat.mod_lt _ hn

theorem wrap_end {s e n L : Nat} (hs : s < n) (he : e < n) (hL : L = (e + n - s) % n) :
    (s + L) % n = e := by
  rw [mod_two_range (show e + n - s < 2 * n by omega)] at hL
  have hL2 : L < n := by split_ifs at hL <;> omega
  rw [mod_two_range (show s + L < 2 * n by omega)]
  split_ifs at hL ⊢ <;> omega

theorem wrap_ne_end {s e n L j : Nat} (hs : s < n) (he : e < n) (hL : L = (e + n - s) % n)
    (hj : j < L) : (s + j) % n ≠ e := by
  rw [mod_two_range (show e + n - s < 2 * n by omega)] at hL
  have hL2 : L < n := by split_ifs at hL <;> omega
  rw [mod_two_range (show s + j < 2 * n by omega)]
  split_ifs at hL ⊢ <;> omega

theorem wrap_inj {s n i j : Nat} (hs : s < n) (hi : i < n) (hj : j < i) :
    (s + i) % n ≠ (s + j) % n := by
  rw [mod_two_range (show s + i < 2 * n by omega),
    mod_two_range (show s + j < 2 * n by omega)]
  split_ifs <;> omega

theorem wrap_succ {s n j : Nat} : ((s + j) % n + 1) % n = (s + (j + 1)) % n := by
  rw [Nat.mod_add_mod]
  rfl

namespace ring_buffer

variable {α : Type}

/-! ### The destructor of a well-formed buffer -/

theorem dtor_value_loop_ok (n : Nat) (a : Int) (bg en s e L : Nat)
    (hn : 0 < n) (hn2 : n < DIFF_MAX_SUCC) (hs : s < n) (he : e < n)
    (hL : L = (e + n - s) % n) :
    ∀ (r fuel j : Nat) (cs : List (Option α)), j + r = L → r ≤ fuel →
      (∀ i, j ≤ i → i < L → ∃ v, cs[(s + i) % n]? = some (some v)) →
      ∃ cs1, dtor_value_loop fuel (⟨n, some ⟨a, cs⟩, bg, en⟩ : ring_buffer α) ((s + j) % n) e
          = .ok ⟨n, some ⟨a, cs1⟩, bg, en⟩ ∧ cs1.length = cs.length := by
  intro r
  induction r with
  | zero =>
    intro fuel j cs hj _ _
    have hjL : j = L := by omega
    have hend : (s + j) % n = e := by rw [hjL]; exact wrap_end hs he hL
    refine ⟨cs, ?_, rfl⟩
    cases fuel <;> simp [dtor_value_loop, hend]
  | succ r ih =>
    intro fuel j cs hj hfuel hlive
    obtain ⟨f, rfl⟩ : ∃ f, fuel = f + 1 := ⟨fuel - 1, by omega⟩
    have hjL : j < L := by omega
    have hne : (s + j) % n ≠ e := wrap_ne_end hs he hL hjL
    obtain ⟨v, hv⟩ := hlive j (Nat.le_refl _) hjL
    have hidx : (s + j) % n < n := Nat.mod_lt _ hn
    have hd := dtor_value_mk n a cs bg en ((s + j) % n) v hn2 hidx hv
    have hnext : uadd ((s + j) % n) 1 % n = (s + (j + 1)) % n := by
      rw [uadd_small (by unfold DIFF_MAX_SUCC at hn2; unfold SIZE_MOD; omega)]
      exact wrap_succ
    have hLn : L < n := by rw [hL]; exact Nat.mod_lt _ hn
    obtain ⟨cs1, h1, h2⟩ := ih f (j + 1) (cs.set ((s + j) % n) none) (by omega) (by omega)
      (by
        intro i hi1 hi2
        obtain ⟨w, hw⟩ := hlive i (by omega) hi2
        refine ⟨w, ?_⟩
        rw [List.getElem?_set_ne (Ne.symm (wrap_inj hs (by omega) (by omega)))]
        exact hw)
    refine ⟨cs1, ?_, ?_⟩
    · have hn0 : n ≠ 0 := by omega
      simp only [dtor_value_loop, hne, if_false, hd, bind_ok_eq, hn0, hnext]
      exact h1
    · rw [h2]; simp

theorem dtor_ok (b : ring_buffer α) (hwf : well_formed b) : b.dtor = .ok () := by
  obtain ⟨hn, hn2, hb, he, r, hr, hlen, hlive⟩ := hwf
  obtain ⟨n, m, bg, en⟩ := b
  obtain ⟨a, cs⟩ := r
  simp only at hn hn2 hb he hr hlen hlive
  subst hr
  obtain ⟨cs1, h1, h2⟩ := dtor_value_loop_ok n a bg en bg en (live_count ⟨n, some ⟨a, cs⟩, bg, en⟩)
    hn hn2 hb he rfl (live_count ⟨n, some ⟨a, cs⟩, bg, en⟩) (n + 1) 0 cs (by omega)
    (by have := @wrap_count_lt bg en n hn; unfold live_count; simp only; omega)
    (fun i _ hi => hlive i hi)
  have h0 : (bg + 0) % n = bg := by simpa using Nat.mod_eq_of_lt hb
  rw [h0] at h1
  simp [dtor, destruct_memblk, dtor_value_all, dtor_value_range, h1, h2, hlen]

end ring_buffer

namespace ring_buffer

variable {α : Type}

/-! ### The two copy loops -/

theorem ensure_alloc_copy_loop_ok (n : Nat) (a : Int) (cs : List (Option α)) (s e L : Nat)
    (n1 : Nat) (a1 : Int) (E : Nat)
    (hn : 0 < n) (hn2 : n < DIFF_MAX_SUCC) (hs : s < n) (he : e < n)
    (hL : L = (e + n - s) % n)
    (hlive : ∀ i, i < L → ∃ v, cs[(s + i) % n]? = some (some v))
    (hn1 : n1 < DIFF_MAX_SUCC) (hroom : L < n1)
    (hE : ∀ i, i < L → (i : Int) ≠ to_diff E) :
    ∀ (r fuel j : Nat) (cs1 : List (Option α)), j + r = L → r ≤ fuel → cs1.length = n1 →
      ∃ cs2, ensure_alloc_copy_loop fuel (⟨n, some ⟨a, cs⟩, s, e⟩ : ring_buffer α)
          ⟨n1, some ⟨a1, cs1⟩, 0, E⟩ ⟨a, a + n, a + ((s + j) % n : Nat)⟩ ⟨a1, a1 + n1, a1 + j⟩
          = .ok ⟨n1, some ⟨a1, cs2⟩, 0, E⟩ ∧ cs2.length = n1 ∧
        (∀ i, i < j → cs2[i]? = cs1[i]?) ∧
        (∀ i, j ≤ i → i < L → cs2[i]? = cs[(s + i) % n]?) ∧
        (∀ i, L ≤ i → cs2[i]? = cs1[i]?) := by
  have hend : (⟨n, some ⟨a, cs⟩, s, e⟩ : ring_buffer α).end_ = ⟨a, a + n, a + e⟩ :=
    it_of_mk n a cs s e e hn2 (by omega)
  intro r
  induction r with
  | zero =>
    intro fuel j cs1 hj _ hlen
    have hjL : j = L := by omega
    have hidx : (s + j) % n = e := by rw [hjL]; exact wrap_end hs he hL
    refine ⟨cs1, ?_, hlen, fun _ _ => rfl, fun i h1 h2 => by omega, fun _ _ => rfl⟩
    cases fuel <;>
      simp [ensure_alloc_copy_loop, hend, radix_iterator.ne, radix_iterator.eq, hidx]
  | succ r ih =>
    intro fuel j cs1 hj hfuel hlen
    obtain ⟨f, rfl⟩ : ∃ f, fuel = f + 1 := ⟨fuel - 1, by omega⟩
    have hjL : j < L := by omega
    have hne : (s + j) % n ≠ e := wrap_ne_end hs he hL hjL
    obtain ⟨v, hv⟩ := hlive j hjL
    have hidx : (s + j) % n < n := Nat.mod_lt _ hn
    have hload := load_mk n a cs s e ((s + j) % n) v hv
    have hj1 : j < cs1.length := by omega
    have hctor := ctor_value_mk n1 a1 cs1 0 E j v hj1 (by omega)
    have hinc1 := radix_iterator.pre_inc_in_range a n ((s + j) % n) hidx
    have hinc2 := radix_iterator.pre_inc_in_range a1 n1 j (by omega)
    rw [wrap_succ] at hinc1
    rw [Nat.mod_eq_of_lt (show j + 1 < n1 by omega)] at hinc2
    obtain ⟨cs2, h1, h2, h3, h4, h5⟩ := ih f (j + 1) (cs1.set j (some v)) (by omega)
      (by omega) (by simp [hlen])
    refine ⟨cs2, ?_, h2, ?_, ?_, ?_⟩
    · have hc1 : ¬ (a + (((s + j) % n : Nat) : Int) = a + (e : Int)) := by omega
      have hc2 : ¬ (a1 + (j : Int) = a1 + to_diff E) := by
        have := hE j hjL
        omega
      have hts : to_size (a1 + (j : Int) - a1) = j := by
        have : a1 + (j : Int) - a1 = (j : Int) := by omega
        rw [this]
        exact to_size_natCast (by unfold DIFF_MAX_SUCC at hn1; unfold SIZE_MOD; omega)
      have hend2 : (⟨n1, some ⟨a1, cs1⟩, 0, E⟩ : ring_buffer α).end_.current
          = a1 + to_diff E := rfl
      have hcond : (radix_iterator.ne ⟨a, a + n, a + ((s + j) % n : Nat)⟩
            (⟨n, some ⟨a, cs⟩, s, e⟩ : ring_buffer α).end_ &&
          radix_iterator.ne ⟨a1, a1 + n1, a1 + j⟩
            (⟨n1, some ⟨a1, cs1⟩, 0, E⟩ : ring_buffer α).end_) = true := by
        simp only [radix_iterator.ne, radix_iterator.eq, hend, hend2, Bool.and_eq_true,
          Bool.not_eq_true', beq_eq_false_iff_ne, ne_eq]
        exact ⟨hc1, hc2⟩
      rw [ensure_alloc_copy_loop, if_pos hcond]
      simp only [radix_iterator.get, hload, bind_ok_eq, get_ptr, hts, hctor, hinc1, hinc2]
      exact h1
    · intro i hi
      rw [h3 i (by omega), List.getElem?_set_ne (by omega)]
    · intro i hi1 hi2
      by_cases hij : i = j
      · subst hij
        rw [h3 i (by omega), List.getElem?_set_self, hv]
        simp [hj1]
      · exact h4 i (by omega) hi2
    · intro i hi
      rw [h5 i hi, List.getElem?_set_ne (by omega)]

end ring_buffer

namespace ring_buffer

variable {α : Type}

theorem capacity_small {b : ring_buffer α} (h1 : 0 < b.mb_size)
    (h2 : b.mb_size < DIFF_MAX_SUCC) : b.capacity = b.mb_size - 1 := by
  unfold capacity
  exact usub_small (by omega) (by unfold DIFF_MAX_SUCC at h2; unfold SIZE_MOD; omega)

theorem size_eq_usub (b : ring_buffer α) : b.size = usub b.m_end b.m_begin := by
  simp [size]

theorem size_to_diff {s e n : Nat} (hn2 : n < DIFF_MAX_SUCC) (hs : s < n) (he : e < n) :
    to_diff (usub e s) = (e : Int) - (s : Int) := by
  unfold DIFF_MAX_SUCC at hn2
  by_cases h : s ≤ e
  · rw [usub_small h (by unfold SIZE_MOD; omega), to_diff_small (by unfold DIFF_MAX_SUCC; omega)]
    omega
  · rw [usub_wrap (by omega) (by unfold SIZE_MOD; omega)]
    unfold to_diff
    have h3 : (e + SIZE_MOD - s) % SIZE_MOD = e + SIZE_MOD - s :=
      Nat.mod_eq_of_lt (by unfold SIZE_MOD; omega)
    rw [h3]
    have h4 : ¬ (e + SIZE_MOD - s < DIFF_MAX_SUCC) := by
      unfold SIZE_MOD DIFF_MAX_SUCC; omega
    rw [if_neg h4]
    unfold SIZE_MOD
    omega

theorem size_not_below_count {s e n L : Nat} (hn2 : n < DIFF_MAX_SUCC) (hs : s < n)
    (he : e < n) (hL : L = (e + n - s) % n) :
    ∀ i, i < L → (i : Int) ≠ to_diff (usub e s) := by
  intro i hi
  rw [size_to_diff hn2 hs he]
  rw [mod_two_range (show e + n - s < 2 * n by omega)] at hL
  split_ifs at hL <;> omega

end ring_buffer

namespace ring_buffer

variable {α : Type}

/-! ### Reallocation -/

theorem walk_bound_ge (a : Int) (n k : Nat) (t : Int) :
    n + 1 ≤ radix_iterator.walk_bound ⟨a, a + n, a + k⟩ t := by
  unfold radix_iterator.walk_bound
  simp only
  omega

theorem ensure_alloc_copy_grow (alloc : allocator_type) (n : Nat) (a : Int)
    (cs : List (Option α)) (s e count : Nat)
    (hwf : well_formed (⟨n, some ⟨a, cs⟩, s, e⟩ : ring_buffer α))
    (hc : n - 1 < count) (hgrant : count + 1 ≤ alloc.max_size)
    (hreal : alloc.max_size < DIFF_MAX_SUCC) :
    ∃ cs2, (⟨n, some ⟨a, cs⟩, s, e⟩ : ring_buffer α).ensure_alloc_copy alloc count
        = .ok ⟨count + 1, some ⟨alloc.next, cs2⟩, 0, usub e s⟩ ∧ cs2.length = count + 1 ∧
      (∀ i, i < (e + n - s) % n → cs2[i]? = cs[(s + i) % n]?) ∧
      (∀ i, (e + n - s) % n ≤ i → i < count + 1 → cs2[i]? = some none) := by
  obtain ⟨hn, hn2, hb, he, r, hr, hlen, hlive⟩ := hwf
  simp only at hn hn2 hb he hlen hlive
  simp only [Option.some.injEq] at hr
  subst hr
  simp only at hlen hlive
  have hcap : (⟨n, some ⟨a, cs⟩, s, e⟩ : ring_buffer α).capacity = n - 1 :=
    capacity_small hn hn2
  have hmb : uadd count 1 = count + 1 :=
    uadd_small (by unfold DIFF_MAX_SUCC at hreal; unfold SIZE_MOD; omega)
  have hLn : (e + n - s) % n < n := Nat.mod_lt _ hn
  have hbegin : (⟨n, some ⟨a, cs⟩, s, e⟩ : ring_buffer α).begin = ⟨a, a + n, a + s⟩ :=
    it_of_mk n a cs s e s hn2 (by omega)
  have hbegin2 : ∀ cs1 : List (Option α),
      (⟨count + 1, some ⟨alloc.next, cs1⟩, 0, usub e s⟩ : ring_buffer α).begin
        = ⟨alloc.next, alloc.next + (count + 1 : Nat), alloc.next + (0 : Nat)⟩ :=
    fun cs1 => it_of_mk (count + 1) alloc.next cs1 0 (usub e s) 0 (by omega)
      (by unfold DIFF_MAX_SUCC; omega)
  obtain ⟨cs2, h1, h2, _, h4, h5⟩ := ensure_alloc_copy_loop_ok n a cs s e ((e + n - s) % n)
    (count + 1) alloc.next (usub e s) hn hn2 hb he rfl hlive (by omega) (by omega)
    (size_not_below_count hn2 hb he rfl) ((e + n - s) % n)
    (max ((⟨n, some ⟨a, cs⟩, s, e⟩ : ring_buffer α).begin.walk_bound
        (⟨n, some ⟨a, cs⟩, s, e⟩ : ring_buffer α).end_.current)
      ((⟨count + 1, some ⟨alloc.next, List.replicate (count + 1) none⟩, 0, usub e s⟩ :
        ring_buffer α).begin.walk_bound
        (⟨count + 1, some ⟨alloc.next, List.replicate (count + 1) none⟩, 0, usub e s⟩ :
          ring_buffer α).end_.current))
    0 (List.replicate (count + 1) none) (by omega)
    (by
      rw [hbegin]
      have := walk_bound_ge a n s
        (⟨n, some ⟨a, cs⟩, s, e⟩ : ring_buffer α).end_.current
      omega)
    (by simp)
  have h0 : (s + 0) % n = s := by simpa using Nat.mod_eq_of_lt hb
  rw [h0] at h1
  refine ⟨cs2, ?_, h2, fun i hi => h4 i (Nat.zero_le _) hi, ?_⟩
  · have hd : (⟨n, some ⟨a, cs⟩, s, e⟩ : ring_buffer α).dtor = .ok () :=
      dtor_ok _ ⟨hn, hn2, hb, he, ⟨a, cs⟩, rfl, hlen, hlive⟩
    have hgt : count > (⟨n, some ⟨a, cs⟩, s, e⟩ : ring_buffer α).capacity := by
      rw [hcap]; exact hc
    unfold ensure_alloc_copy
    rw [if_pos hgt]
    simp only [ctor_cap, alloc_memblk, hmb, hgrant, if_true, bind_ok_eq, size_eq_usub]
    rw [← hbegin, ← hbegin2 (List.replicate (count + 1) none)] at h1
    simp only [h1, bind_ok_eq, swap, hd]
  · intro i hi1 hi2
    rw [h5 i hi1]
    simp [List.getElem?_replicate, hi2]

end ring_buffer

namespace ring_buffer

variable {α : Type}

/-! ### The growth step and the two pushes -/

theorem ensure_alloc_copy_extra_keep (alloc : allocator_type) (b : ring_buffer α) (n : Nat)
    (h : n ≤ b.capacity) : b.ensure_alloc_copy_extra alloc n = .ok b := by
  have h1 : ¬ (n > b.capacity) := by omega
  simp [ensure_alloc_copy_extra, ensure_alloc_copy, h1]

theorem ensure_alloc_copy_extra_grow (alloc : allocator_type) (n : Nat) (a : Int)
    (cs : List (Option α)) (s e count : Nat)
    (hwf : well_formed (⟨n, some ⟨a, cs⟩, s, e⟩ : ring_buffer α))
    (hc : n - 1 < count) (hgrant : max count (expand n) + 1 ≤ alloc.max_size)
    (hreal : alloc.max_size < DIFF_MAX_SUCC) :
    ∃ cs2, (⟨n, some ⟨a, cs⟩, s, e⟩ : ring_buffer α).ensure_alloc_copy_extra alloc count
        = .ok ⟨max count (expand n) + 1, some ⟨alloc.next, cs2⟩, 0, usub e s⟩ ∧
      cs2.length = max count (expand n) + 1 ∧
      (∀ i, i < (e + n - s) % n → cs2[i]? = cs[(s + i) % n]?) ∧
      (∀ i, (e + n - s) % n ≤ i → i < max count (expand n) + 1 → cs2[i]? = some none) := by
  have hcap : (⟨n, some ⟨a, cs⟩, s, e⟩ : ring_buffer α).capacity = n - 1 :=
    capacity_small hwf.1 hwf.2.1
  have hgt : count > (⟨n, some ⟨a, cs⟩, s, e⟩ : ring_buffer α).capacity := by
    rw [hcap]; exact hc
  have hnew : (if count > expand n then count else expand n) = max count (expand n) := by
    split <;> omega
  unfold ensure_alloc_copy_extra
  simp only [hgt, if_true, hnew]
  exact ensure_alloc_copy_grow alloc n a cs s e (max count (expand n)) hwf
    (by omega) hgrant hreal

theorem emplace_back_of_extra (alloc : allocator_type) (b : ring_buffer α) (v : α)
    (n1 : Nat) (a1 : Int) (cs1 : List (Option α)) (s1 e1 : Nat)
    (hens : b.ensure_alloc_copy_extra alloc (uadd b.size 1) = .ok ⟨n1, some ⟨a1, cs1⟩, s1, e1⟩)
    (hn : 0 < n1) (hn2 : n1 < DIFF_MAX_SUCC) (hlen : cs1.length = n1)
    (hs : s1 < n1) (he : e1 < n1) :
    ∃ r, b.emplace_back alloc v
      = .ok (⟨n1, some ⟨a1, cs1.set e1 (some v)⟩, s1, (s1 + 1) % n1⟩, r) := by
  have hctor := ctor_value_mk n1 a1 cs1 s1 e1 e1 v (by omega) (by omega)
  have hbeg : (⟨n1, some ⟨a1, cs1.set e1 (some v)⟩, s1, e1⟩ : ring_buffer α).begin
      = ⟨a1, a1 + n1, a1 + s1⟩ := it_of_mk n1 a1 _ s1 e1 s1 hn2 (by omega)
  have hadv : (⟨a1, a1 + n1, a1 + s1⟩ : radix_iterator).advance 1
      = ⟨a1, a1 + n1, a1 + ((s1 + 1) % n1 : Nat)⟩ := by
    simp [radix_iterator.advance, radix_iterator.next,
      radix_iterator.pre_inc_in_range a1 n1 s1 hs]
  have hoff := it_offset_mk n1 a1 (cs1.set e1 (some v)) s1 e1 ((s1 + 1) % n1) a1 (a1 + n1)
    hn hn2 (by
      have := Nat.mod_lt (s1 + 1) hn
      unfold DIFF_MAX_SUCC at hn2; unfold SIZE_MOD; omega)
  rw [Nat.mod_mod] at hoff
  refine ⟨(⟨n1, some ⟨a1, cs1.set e1 (some v)⟩, s1, (s1 + 1) % n1⟩ : ring_buffer α).back, ?_⟩
  unfold emplace_back
  simp only [hens, bind_ok_eq, hctor, hbeg, hadv, hoff]

theorem emplace_front_of_extra (alloc : allocator_type) (b : ring_buffer α) (v : α)
    (n1 : Nat) (a1 : Int) (cs1 : List (Option α)) (s1 e1 : Nat)
    (hens : b.ensure_alloc_copy_extra alloc (uadd b.size 1) = .ok ⟨n1, some ⟨a1, cs1⟩, s1, e1⟩)
    (hn : 0 < n1) (hn2 : n1 < DIFF_MAX_SUCC) (hlen : cs1.length = n1)
    (hs : s1 < n1) :
    ∃ r, b.emplace_front alloc v
      = .ok (⟨n1, some ⟨a1, cs1.set ((s1 + n1 - 1) % n1) (some v)⟩,
          (s1 + n1 - 1) % n1, e1⟩, r) := by
  have hlt : (s1 + n1 - 1) % n1 < n1 := Nat.mod_lt _ hn
  have hctor := ctor_value_mk n1 a1 cs1 s1 e1 ((s1 + n1 - 1) % n1) v (by omega) (by omega)
  have hbeg : (⟨n1, some ⟨a1, cs1⟩, s1, e1⟩ : ring_buffer α).begin
      = ⟨a1, a1 + n1, a1 + s1⟩ := it_of_mk n1 a1 _ s1 e1 s1 hn2 (by omega)
  have hadv : (⟨a1, a1 + n1, a1 + s1⟩ : radix_iterator).advance (-1)
      = ⟨a1, a1 + n1, a1 + ((s1 + n1 - 1) % n1 : Nat)⟩ := by
    simp [radix_iterator.advance, radix_iterator.prev,
      radix_iterator.pre_dec_in_range a1 n1 s1 hs]
  have hoff := it_offset_mk n1 a1 cs1 s1 e1 ((s1 + n1 - 1) % n1) a1 (a1 + n1)
    hn hn2 (by unfold DIFF_MAX_SUCC at hn2; unfold SIZE_MOD; omega)
  rw [Nat.mod_mod] at hoff
  refine ⟨(⟨n1, some ⟨a1, cs1.set ((s1 + n1 - 1) % n1) (some v)⟩,
    (s1 + n1 - 1) % n1, e1⟩ : ring_buffer α).front, ?_⟩
  unfold emplace_front
  simp only [hens, bind_ok_eq, hbeg, hadv, hoff, hctor]

end ring_buffer

namespace ring_buffer

variable {α : Type}

/-! ### Copy construction and element access on a range that does not wrap -/

end ring_buffer

namespace ring_buffer

variable {α : Type}

/-! ### The bounds check of `at` -/

theorem at_out_of_range_iff (b : ring_buffer α) (i : Nat) :
    b.at_ i = .error .out_of_range ↔ b.size ≤ i := by
  by_cases h : b.size ≤ i
  · have h1 : i ≥ b.size := h
    simp [at_, range_check, h1, h]
  · have h1 : ¬ (i ≥ b.size) := h
    constructor
    · intro hc
      simp only [at_, range_check, h1, if_false, bind_ok_eq] at hc
      unfold index offset_of abs_offset_of pwrap at hc
      split at hc <;> cases hc
    · intro hc
      exact absurd hc h

theorem at_eq_index_of_lt (b : ring_buffer α) (i : Nat) (h : i < b.size) :
    b.at_ i = b.index i := by
  have h1 : ¬ (i ≥ b.size) := by omega
  simp [at_, range_check, h1]

end ring_buffer

/-! ## The claims -/

namespace ring_buffer

variable {α : Type}

theorem run_full_three_eq : run_full_three = .ok full_three := by decide

theorem full_three_well_formed : well_formed full_three := by
  refine ⟨by decide, by decide, by decide, by decide, ⟨100, [some 1, some 2, some 3, none]⟩,
    rfl, rfl, ?_⟩
  intro j hj
  have hj3 : j < 3 := hj
  interval_cases j <;> exact ⟨_, rfl⟩

theorem one_two_well_formed : well_formed one_two := by
  refine ⟨by decide, by decide, by decide, by decide, ⟨100, [some 1, some 2, none, none]⟩,
    rfl, rfl, ?_⟩
  intro j hj
  have hj2 : j < 2 := hj
  interval_cases j <;> exact ⟨_, rfl⟩

/-- C1, code at the failing input.  After `ring_buffer<int> b(0); b.push_back(1);
b.push_back(2);` the buffer reports `size() == 1` and its logical contents are `[1]`,
while the double-ended list model holds `[1, 2]` after the same two operations: the
second `push_back` stores the value but leaves `m_end` one past `m_begin`. -/
theorem C1_push_back_twice_keeps_one_element :
    run_two_push_back = .ok ⟨4, some ⟨300, [some 1, some 2, none, none]⟩, 0, 1⟩ ∧
    (run_two_push_back >>= fun b => .ok b.size) = .ok 1 ∧
    (run_two_push_back >>= fun b => b.contents) = .ok [1] ∧
    deque_model [deque_op.push_back 1, deque_op.push_back 2] = [1, 2] := by
  decide

/-- C2, code at the failing input.  On the buffer holding `[1, 2]` (cells 0 and 1 of
4), `insert(std::next(begin()), 9)` returns the cursor of logical position 1 but
leaves the logical contents `[1, 9, 1]`: the value 2 is destroyed and cell 2 receives
a copy of the element before the insertion point. -/
theorem C2_insert_middle_overwrites_tail :
    run_one_two = .ok ⟨4, some ⟨100, [some 1, some 2, none, none]⟩, 0, 2⟩ ∧
    (run_one_two >>= fun b => b.contents) = .ok [1, 2] ∧
    run_insert_middle =
      .ok (⟨4, some ⟨100, [some 1, some 9, some 1, none]⟩, 0, 3⟩, ⟨100, 104, 101⟩) ∧
    (run_insert_middle >>= fun r => r.1.contents) = .ok [1, 9, 1] := by
  decide

/-- C3, code at the failing input.  On the wrapped buffer holding the two elements
8, 7 (`mb_size == 3`, `m_begin == 2`, `m_end == 1`) `size()` is `2 ^ 64 - 1`; `at(2)`
does not signal `out_of_range` and names cell 1, which is raw storage; and
`at(2 ^ 64 - 2)` names cell 0 although `(m_begin + i) mod mb_size` is 1. -/
theorem C3_at_on_wrapped_range :
    run_wrapped_small = .ok ⟨3, some ⟨100, [some 7, none, some 8]⟩, 2, 1⟩ ∧
    (run_wrapped_small >>= fun b => .ok b.size) = .ok 18446744073709551615 ∧
    (run_wrapped_small >>= fun b => b.at_ 2) = .ok 1 ∧
    (run_wrapped_small >>= fun b => b.at_value 2) = .error .undefined ∧
    (run_wrapped_small >>= fun b => b.at_ 18446744073709551614) = .ok 0 ∧
    (2 + 18446744073709551614) % 3 = 1 := by
  decide

/-- Growth policy of the growth step.  For a well-formed buffer and a free store that
grants the request: when the total element count `n` handed to the growth step
(`ensure_alloc_copy_extra`, called by `push_back`, `push_front`, `insert` and the growing
`resize` with `size() + k`) exceeds `capacity()`, the buffer is reallocated (a fresh
region of `mb_size` cells) and the new `capacity()` is `max(n, expand(old mb_size))`;
when `n <= capacity()` the state, hence the capacity, is unchanged.  For
`n = size() + 1` on a buffer whose range does not wrap, `push_back` and `push_front`
return and leave exactly that capacity. -/
theorem growth_step_policy (alloc : allocator_type) (b : ring_buffer α) (n : Nat) (v : α) :
    (well_formed b → alloc.max_size < DIFF_MAX_SUCC →
      max n (expand b.mb_size) + 1 ≤ alloc.max_size → b.capacity < n →
      ∃ b1 cs, b.ensure_alloc_copy_extra alloc n = .ok b1 ∧
        b1.capacity = max n (expand b.mb_size) ∧
        b1.mb_size = max n (expand b.mb_size) + 1 ∧
        b1.memblk = some ⟨alloc.next, cs⟩ ∧ cs.length = b1.mb_size) ∧
    (n ≤ b.capacity → b.ensure_alloc_copy_extra alloc n = .ok b) ∧
    (well_formed b → alloc.max_size < DIFF_MAX_SUCC →
      (b.capacity < n → max n (expand b.mb_size) + 1 ≤ alloc.max_size) →
      b.m_begin ≤ b.m_end → n = b.size + 1 →
      (∃ b1 r, b.push_back alloc v = .ok (b1, r) ∧
        b1.capacity = if b.capacity < n then max n (expand b.mb_size) else b.capacity) ∧
      (∃ b1 r, b.push_front alloc v = .ok (b1, r) ∧
        b1.capacity = if b.capacity < n then max n (expand b.mb_size) else b.capacity)) := by
  refine ⟨?_, ?_, ?_⟩
  · intro hwf hreal hgrant hlt
    have hwf0 := hwf
    obtain ⟨hm, hm2, hb, he, r, hr, hlen, hlive⟩ := hwf
    obtain ⟨m, blk, s, e⟩ := b
    obtain ⟨a, cs⟩ := r
    simp only at hm hm2 hb he hr hlen hlive hgrant
    subst hr
    have hcap : (⟨m, some ⟨a, cs⟩, s, e⟩ : ring_buffer α).capacity = m - 1 :=
      capacity_small hm hm2
    have hN2 : max n (expand m) + 1 < DIFF_MAX_SUCC := by omega
    rw [hcap] at hlt
    obtain ⟨cs2, h1, h2, _, _⟩ :=
      ensure_alloc_copy_extra_grow alloc m a cs s e n hwf0 hlt hgrant hreal
    refine ⟨_, cs2, h1, ?_, rfl, rfl, h2⟩
    rw [capacity_small (Nat.succ_pos _) hN2]
    simp
  · intro hle
    exact ensure_alloc_copy_extra_keep alloc _ n hle
  · intro hwf hreal hgrant hnw hn
    have hwf0 := hwf
    obtain ⟨hm, hm2, hb, he, r, hr, hlen, hlive⟩ := hwf
    obtain ⟨m, blk, s, e⟩ := b
    obtain ⟨a, cs⟩ := r
    simp only at hm hm2 hb he hr hlen hlive hgrant hnw
    subst hr
    have hcap : (⟨m, some ⟨a, cs⟩, s, e⟩ : ring_buffer α).capacity = m - 1 :=
      capacity_small hm hm2
    have hsz : (⟨m, some ⟨a, cs⟩, s, e⟩ : ring_buffer α).size = e - s := by
      rw [size_eq_usub]
      show usub e s = e - s
      exact usub_small hnw (by unfold DIFF_MAX_SUCC at hm2; unfold SIZE_MOD; omega)
    rw [hsz] at hn
    have hu : uadd (⟨m, some ⟨a, cs⟩, s, e⟩ : ring_buffer α).size 1 = n := by
      rw [hsz, hn]
      exact uadd_small (by unfold DIFF_MAX_SUCC at hm2; unfold SIZE_MOD; omega)
    rw [hcap] at hgrant ⊢
    by_cases hlt : m - 1 < n
    · have hg := hgrant hlt
      have hN2 : max n (expand m) + 1 < DIFF_MAX_SUCC := by omega
      have hcapN : ∀ (cs2 : List (Option α)) (s1 e1 : Nat),
          (⟨max n (expand m) + 1, some ⟨alloc.next, cs2⟩, s1, e1⟩ : ring_buffer α).capacity
            = max n (expand m) := by
        intro cs2 s1 e1
        rw [capacity_small (Nat.succ_pos _) hN2]
        simp
      obtain ⟨cs2, h1, h2, _, _⟩ :=
        ensure_alloc_copy_extra_grow alloc m a cs s e n hwf0 hlt hg hreal
      have hus : usub e s = e - s :=
        usub_small hnw (by unfold DIFF_MAX_SUCC at hm2; unfold SIZE_MOD; omega)
      replace h1 : (⟨m, some ⟨a, cs⟩, s, e⟩ : ring_buffer α).ensure_alloc_copy_extra alloc
          (uadd (⟨m, some ⟨a, cs⟩, s, e⟩ : ring_buffer α).size 1)
          = .ok ⟨max n (expand m) + 1, some ⟨alloc.next, cs2⟩, 0, usub e s⟩ := by
        rw [hu]; exact h1
      simp only [hlt, if_true]
      constructor
      · obtain ⟨r, hr⟩ := emplace_back_of_extra alloc _ v _ _ _ _ _ h1 (by omega) hN2 h2
          (by omega) (by rw [hus]; omega)
        exact ⟨_, r, hr, hcapN _ _ _⟩
      · obtain ⟨r, hr⟩ := emplace_front_of_extra alloc _ v _ _ _ _ _ h1 (by omega) hN2 h2
          (by omega)
        exact ⟨_, r, hr, hcapN _ _ _⟩
    · have h1 := ensure_alloc_copy_extra_keep alloc
        (⟨m, some ⟨a, cs⟩, s, e⟩ : ring_buffer α) n (by rw [hcap]; omega)
      replace h1 : (⟨m, some ⟨a, cs⟩, s, e⟩ : ring_buffer α).ensure_alloc_copy_extra alloc
          (uadd (⟨m, some ⟨a, cs⟩, s, e⟩ : ring_buffer α).size 1)
          = .ok ⟨m, some ⟨a, cs⟩, s, e⟩ := by
        rw [hu]; exact h1
      simp only [hlt, if_false]
      constructor
      · obtain ⟨r, hr⟩ := emplace_back_of_extra alloc _ v _ _ _ _ _ h1 hm hm2 hlen hb he
        exact ⟨_, r, hr, capacity_small hm hm2⟩
      · obtain ⟨r, hr⟩ := emplace_front_of_extra alloc _ v _ _ _ _ _ h1 hm hm2 hlen hb
        exact ⟨_, r, hr, capacity_small hm hm2⟩

/-- The growth step on two buffers.  The buffer of capacity 3 holding 3 elements
(reached by `run_full_three`) with `n = 4`: the growth step reallocates to capacity
`max(4, 6) = 6`, and the fourth `push_back` returns with `capacity() >= 4`.  The buffer
of capacity 3 holding 2 elements (reached by `run_one_two`) with `n = 3`: the growth
step and `push_back` leave the capacity at 3. -/
theorem growth_step_policy_example :
    run_full_three = .ok full_three ∧ well_formed full_three ∧
    (∃ b1, full_three.ensure_alloc_copy_extra (std_alloc 200) 4 = .ok b1 ∧ b1.capacity = 6) ∧
    (∃ b1 r, full_three.push_back (std_alloc 200) 4 = .ok (b1, r) ∧ 4 ≤ b1.capacity) ∧
    one_two.ensure_alloc_copy_extra (std_alloc 200) 3 = .ok one_two ∧
    (∃ b1 r, one_two.push_back (std_alloc 200) 3 = .ok (b1, r) ∧ b1.capacity = 3) := by
  have h := growth_step_policy (std_alloc 200) full_three 4 (4 : Nat)
  have g := growth_step_policy (std_alloc 200) one_two 3 (3 : Nat)
  refine ⟨run_full_three_eq, full_three_well_formed, ?_, ?_, ?_, ?_⟩
  · obtain ⟨b1, _, h1, h2, _⟩ := h.1 full_three_well_formed (by decide) (by decide)
      (by decide)
    exact ⟨b1, h1, by rw [h2]; decide⟩
  · obtain ⟨⟨b1, r, h1, h2⟩, _⟩ := h.2.2 full_three_well_formed (by decide)
      (fun _ => by decide) (by decide) (by decide)
    refine ⟨b1, r, h1, ?_⟩
    rw [h2]
    decide
  · exact g.2.1 (by decide)
  · obtain ⟨⟨b1, r, h1, h2⟩, _⟩ := g.2.2 one_two_well_formed (by decide)
      (fun hc => absurd hc (by decide)) (by decide) (by decide)
    refine ⟨b1, r, h1, ?_⟩
    rw [h2]
    decide

/-- C4, code at the failing input.  After `ring_buffer<int> b(2); b.push_back(7);
b.push_front(8);` the buffer holds two elements at capacity 2 (`mb_size == 3`,
`m_begin == 2`, `m_end == 1`).  `push_front(9)` needs a total of 3 elements, more than
`capacity()`, but the count handed to the growth step is `size() + 1`, which is 0 as
`size()` is `2 ^ 64 - 1`: nothing is reallocated, `capacity()` stays 2 where the policy
gives `max(3, floor(1.5 * 3)) == 4`, the element goes to the last blank cell and
`m_begin == m_end`.  On the full buffer holding `[1, 2, 3]` at capacity 3 an `insert`
needs 4 elements and does not return; `push_back` and `resize(5)` on it reallocate to
capacity 6. -/
theorem C4_full_wrapped_buffer_does_not_grow :
    run_wrapped_small = .ok ⟨3, some ⟨100, [some 7, none, some 8]⟩, 2, 1⟩ ∧
    (run_wrapped_small >>= fun b => .ok (b.capacity, b.live_count, uadd b.size 1))
      = .ok (2, 2, 0) ∧
    (run_wrapped_small >>= fun b => b.push_front (std_alloc 300) 9)
      = .ok (⟨3, some ⟨100, [some 7, some 9, some 8]⟩, 1, 1⟩, 101) ∧
    (run_wrapped_small >>= fun b => b.push_front (std_alloc 300) 9 >>= fun r =>
      .ok r.1.capacity) = .ok 2 ∧
    max 3 (expand 3) = 4 ∧
    full_three.insert (std_alloc 110) (full_three.begin.advance 1) 9 = .error .diverges ∧
    full_three.insert (std_alloc 110) full_three.end_ 9 = .error .undefined ∧
    (full_three.push_back (std_alloc 200) 4 >>= fun r => .ok r.1.capacity) = .ok 6 ∧
    (full_three.resize (std_alloc 200) 5 7 >>= fun b => .ok b.capacity) = .ok 6 := by
  decide

/-- C5, code at the failing input.  On the wrapped buffer holding `[1, 2]`
(`mb_size == 4`, `m_begin == 3`, `m_end == 1`) `reserve(10)` reallocates to
`mb_size == 11` with the elements from cell 0, but sets `m_end` to `2 ^ 64 - 2`, a
position outside the region; `at(12)` named the element 1 before and names 2 after. -/
theorem C5_reserve_on_wrapped_range :
    run_wrapped = .ok ⟨4, some ⟨100, [some 2, none, none, some 1]⟩, 3, 1⟩ ∧
    (run_wrapped >>= fun b => b.reserve (std_alloc 200) 10) =
      .ok ⟨11, some ⟨200, [some 1, some 2, none, none, none, none, none, none, none,
        none, none]⟩, 0, 18446744073709551614⟩ ∧
    (run_wrapped >>= fun b => b.at_value 12) = .ok 1 ∧
    (run_wrapped >>= fun b => b.reserve (std_alloc 200) 10 >>= fun c => c.at_value 12)
      = .ok 2 := by
  decide

/-- C6, code at the failing input.  After `ring_buffer<int> b(2); b.push_back(1);
b.push_back(2);` no reallocation has happened (`mb_size == 3`, `capacity() == 2`) and
`empty()` is false, but `size()` is 1, not `capacity()`. -/
theorem C6_fill_to_capacity_reports_size_one :
    run_fill_two = .ok ⟨3, some ⟨100, [some 1, some 2, none]⟩, 0, 1⟩ ∧
    (run_fill_two >>= fun b => .ok (b.capacity, b.size, b.empty)) = .ok (2, 1, false) := by
  decide

/-- C7, code at the failing input.  Copy construction from the wrapped buffer holding
`[1, 2]` (`mb_size == 4`, `m_begin == 3`, `m_end == 1`) requests `size() + 1 ==
2 ^ 64 - 1` cells and ends in `bad_alloc`; from the wrapped buffer with `mb_size == 3`,
`m_begin == 2`, `m_end == 1` it requests `2 ^ 64 mod 2 ^ 64 == 0` cells and then
divides by zero. -/
theorem C7_copy_of_wrapped_range_fails :
    (run_wrapped >>= fun b => .ok (uadd b.size 1)) = .ok 18446744073709551615 ∧
    (run_wrapped >>= fun b => b.ctor_copy (std_alloc 200)) = .error .bad_alloc ∧
    (run_wrapped_small >>= fun b => b.ctor_copy (std_alloc 200)) = .error .undefined := by
  decide

/-- C8.  Move construction gives the new buffer exactly the `mb_size`, region,
`m_begin` and `m_end` of the source, so its `size()`, every `at(i)` and every element
read through `at(i)` are those of the source before the move. -/
theorem C8_move_ctor_transfers_state (other : ring_buffer α) :
    (ctor_move other).1.mb_size = other.mb_size ∧
    (ctor_move other).1.memblk = other.memblk ∧
    (ctor_move other).1.m_begin = other.m_begin ∧
    (ctor_move other).1.m_end = other.m_end ∧
    (ctor_move other).1.size = other.size ∧
    (∀ i, (ctor_move other).1.at_ i = other.at_ i) ∧
    (∀ i, (ctor_move other).1.at_value i = other.at_value i) := by
  have h : (ctor_move other).1 = other := rfl
  rw [h]
  simp

/-- C9.  `a.swap(b)` exchanges region, `mb_size`, `m_begin` and `m_end`: afterwards
`a` is the former `b` and `b` the former `a` (so capacity and logical contents are
exchanged), and a second swap restores both. -/
theorem C9_swap_exchanges_and_is_involutive (a b : ring_buffer α) :
    (swap a b).1 = b ∧ (swap a b).2 = a ∧
    (swap a b).1.capacity = b.capacity ∧ (swap a b).2.capacity = a.capacity ∧
    (swap a b).1.contents = b.contents ∧ (swap a b).2.contents = a.contents ∧
    swap (swap a b).1 (swap a b).2 = (a, b) := by
  have h1 : (swap a b).1 = b := rfl
  have h2 : (swap a b).2 = a := rfl
  rw [h1, h2]
  exact ⟨rfl, rfl, rfl, rfl, rfl, rfl, rfl⟩

end ring_buffer

/-! ### Allocation failure -/

namespace ring_buffer

variable {α : Type}

theorem ensure_alloc_copy_bad_alloc (alloc : allocator_type) (b : ring_buffer α) (n : Nat)
    (h1 : b.capacity < n) (h2 : alloc.max_size < uadd n 1) :
    b.ensure_alloc_copy alloc n = .error .bad_alloc := by
  have h3 : n > b.capacity := h1
  have h4 : ¬ (uadd n 1 ≤ alloc.max_size) := by omega
  simp [ensure_alloc_copy, h3, ctor_cap, alloc_memblk, h4]

theorem ensure_alloc_copy_extra_bad_alloc (alloc : allocator_type) (b : ring_buffer α)
    (n : Nat) (h1 : b.capacity < n)
    (h2 : alloc.max_size < uadd (max n (expand b.mb_size)) 1) :
    b.ensure_alloc_copy_extra alloc n = .error .bad_alloc := by
  have h3 : n > b.capacity := h1
  have hnew : (if n > expand b.mb_size then n else expand b.mb_size)
      = max n (expand b.mb_size) := by
    split <;> omega
  unfold ensure_alloc_copy_extra
  simp only [h3, if_true, hnew]
  exact ensure_alloc_copy_bad_alloc alloc b _ (by omega) h2

end ring_buffer

namespace radix_iterator

/-! ### Steps of the cursor -/

theorem invariants_iff (it : radix_iterator) :
    it.invariants = true ↔
      (it.front = it.back ∧ it.current = it.front) ∨
      (it.front < it.back ∧ it.front ≤ it.current ∧ it.current < it.back) := by
  obtain ⟨f, bk, c⟩ := it
  unfold invariants range_empty
  simp only [beq_iff_eq]
  split_ifs with h1 h2 h3 h3 <;> simp <;> omega

theorem pre_inc_empty (it : radix_iterator) (h : it.front = it.back) : it.pre_inc = it := by
  simp [pre_inc, range_empty, h]

theorem pre_dec_empty (it : radix_iterator) (h : it.front = it.back) : it.pre_dec = it := by
  simp [pre_dec, range_empty, h]

theorem pre_inc_nonempty (it : radix_iterator) (h : it.front ≠ it.back) :
    it.pre_inc = ⟨it.front, it.back,
      if it.current + 1 = it.back then it.front else it.current + 1⟩ := by
  obtain ⟨f, bk, c⟩ := it
  simp only at h
  by_cases hc : c + 1 = bk <;> simp [pre_inc, range_empty, h, hc]

theorem pre_dec_nonempty (it : radix_iterator) (h : it.front ≠ it.back) :
    it.pre_dec = ⟨it.front, it.back,
      if it.current = it.front then it.back - 1 else it.current - 1⟩ := by
  obtain ⟨f, bk, c⟩ := it
  simp only at h
  by_cases hc : c = f <;> simp [pre_dec, range_empty, h, hc]

theorem pre_inc_invariants (it : radix_iterator) (h : it.invariants = true) :
    it.pre_inc.invariants = true := by
  rw [invariants_iff] at h ⊢
  rcases h with ⟨h1, h2⟩ | ⟨h1, h2, h3⟩
  · rw [pre_inc_empty it h1]; left; exact ⟨h1, h2⟩
  · rw [pre_inc_nonempty it (by omega)]
    right
    simp only
    split <;> omega

theorem pre_dec_invariants (it : radix_iterator) (h : it.invariants = true) :
    it.pre_dec.invariants = true := by
  rw [invariants_iff] at h ⊢
  rcases h with ⟨h1, h2⟩ | ⟨h1, h2, h3⟩
  · rw [pre_dec_empty it h1]; left; exact ⟨h1, h2⟩
  · rw [pre_dec_nonempty it (by omega)]
    right
    simp only
    split <;> omega

theorem pre_dec_pre_inc (it : radix_iterator) (h : it.invariants = true) :
    it.pre_inc.pre_dec = it := by
  rw [invariants_iff] at h
  rcases h with ⟨h1, _⟩ | ⟨h1, h2, h3⟩
  · rw [pre_inc_empty it h1, pre_dec_empty it h1]
  · obtain ⟨f, bk, c⟩ := it
    simp only at h1 h2 h3
    have hne : f ≠ bk := by omega
    rw [pre_inc_nonempty ⟨f, bk, c⟩ hne, pre_dec_nonempty ⟨f, bk, _⟩ hne]
    simp only
    congr 1
    split <;> split <;> omega

theorem pre_inc_pre_dec (it : radix_iterator) (h : it.invariants = true) :
    it.pre_dec.pre_inc = it := by
  rw [invariants_iff] at h
  rcases h with ⟨h1, _⟩ | ⟨h1, h2, h3⟩
  · rw [pre_dec_empty it h1, pre_inc_empty it h1]
  · obtain ⟨f, bk, c⟩ := it
    simp only at h1 h2 h3
    have hne : f ≠ bk := by omega
    rw [pre_dec_nonempty ⟨f, bk, c⟩ hne, pre_inc_nonempty ⟨f, bk, _⟩ hne]
    simp only
    congr 1
    split <;> split <;> omega

theorem next_succ (it : radix_iterator) (k : Nat) : it.next (k + 1) = (it.next k).pre_inc := by
  induction k generalizing it with
  | zero => rfl
  | succ k ih =>
    show next it.pre_inc (k + 1) = (next it.pre_inc k).pre_inc
    exact ih it.pre_inc

theorem prev_succ (it : radix_iterator) (k : Nat) : it.prev (k + 1) = (it.prev k).pre_dec := by
  induction k generalizing it with
  | zero => rfl
  | succ k ih =>
    show prev it.pre_dec (k + 1) = (prev it.pre_dec k).pre_dec
    exact ih it.pre_dec

theorem next_invariants (it : radix_iterator) (h : it.invariants = true) (k : Nat) :
    (it.next k).invariants = true := by
  induction k with
  | zero => exact h
  | succ k ih => rw [next_succ]; exact pre_inc_invariants _ ih

theorem prev_invariants (it : radix_iterator) (h : it.invariants = true) (k : Nat) :
    (it.prev k).invariants = true := by
  induction k with
  | zero => exact h
  | succ k ih => rw [prev_succ]; exact pre_dec_invariants _ ih

theorem prev_next_cancel (x : radix_iterator) (h : x.invariants = true) (k : Nat) :
    (x.next k).prev k = x := by
  induction k with
  | zero => rfl
  | succ k ih =>
    rw [next_succ]
    show prev (x.next k).pre_inc.pre_dec k = x
    rw [pre_dec_pre_inc _ (next_invariants x h k)]
    exact ih

theorem next_prev_cancel (x : radix_iterator) (h : x.invariants = true) (k : Nat) :
    (x.prev k).next k = x := by
  induction k with
  | zero => rfl
  | succ k ih =>
    rw [prev_succ]
    show next (x.prev k).pre_dec.pre_inc k = x
    rw [pre_inc_pre_dec _ (prev_invariants x h k)]
    exact ih

end radix_iterator

namespace ring_buffer

variable {α : Type}

/-- C11, code at the failing input.  A buffer that holds no region has `mb_size == 0`,
and `capacity()` computes `mb_size - 1` in `size_type`: a default-constructed buffer,
`ring_buffer<int> b(3)` after `clear()` and after `shrink_to_fit()` all report
`size() == 0` but `capacity() == 2 ^ 64 - 1`, not 0.  As a consequence a
default-constructed buffer never allocates: `push_back` constructs through the null
pointer. -/
theorem C11_no_region_reports_max_capacity :
    (ctor_default : ring_buffer Nat) = ⟨0, none, 0, 0⟩ ∧
    (ctor_default : ring_buffer Nat).size = 0 ∧
    (ctor_default : ring_buffer Nat).capacity = 18446744073709551615 ∧
    run_clear_empty = .ok ⟨0, none, 0, 0⟩ ∧
    run_shrink_empty = .ok ⟨0, none, 0, 0⟩ ∧
    run_default_push_back = .error .undefined := by
  decide

/-- C12, code at the failing input.  `ring_buffer<int> b(5, 7)` is empty (`size() == 0`):
the default-constructed buffer reports capacity `2 ^ 64 - 1`, so nothing is allocated
and the fill loop runs from `m_begin == 0` to `m_end == 0`.  `ring_buffer<int> b(5);
b.assign(3, 7)` is empty as well.  `ring_buffer<int> b(1); b.assign(3, 7)` allocates 3
cells, sets `m_end` to 4 and constructs a fourth element past the block. -/
theorem C12_assign_fill_fails :
    (ctor_fill (std_alloc 100) 5 7 : Except Fault (ring_buffer Nat))
      = .ok ⟨0, none, 0, 0⟩ ∧
    ((ctor_fill (std_alloc 100) 5 7 : Except Fault (ring_buffer Nat)) >>= fun b => .ok b.size)
      = .ok 0 ∧
    run_assign_fits = .ok ⟨6, some ⟨100, [none, none, none, none, none, none]⟩, 0, 0⟩ ∧
    (run_assign_fits >>= fun b => .ok b.size) = .ok 0 ∧
    run_assign_grow = .error .undefined := by
  decide

/-- C13, code at the failing input.  `ring_buffer<int> b{1, 2, 3}` (and construction
from a range) starts from the default-constructed buffer, where `it_offset` divides by
`mb_size == 0`.  `ring_buffer<int> b(3); b.assign({1, 2})` reads `*from` at the cell
before the region in the back-extending loop of `it_insert`.  Neither returns. -/
theorem C13_assign_range_fails :
    (ctor_range (std_alloc 100) [1, 2, 3] : Except Fault (ring_buffer Nat))
      = .error .undefined ∧
    ((ctor_default : ring_buffer Nat).it_offset (ctor_default : ring_buffer Nat).begin)
      = .error .undefined ∧
    run_assign_list = .error .undefined := by
  decide

/-- C14, code at the failing input.  On the empty buffer with `m_begin == m_end == 1`
(capacity 3), `resize(3, 7)` constructs the three elements in cells 1, 2, 3 and sets
`m_end` to `(1 + 3) mod 4 == 0`: `at(0)`, `at(1)`, `at(2)` name the value 7, but the
range wraps and `size()` is `2 ^ 64 - 1`, not 3. -/
theorem C14_resize_reports_wrong_size :
    run_empty_at_one = .ok ⟨4, some ⟨100, [none, none, none, none]⟩, 1, 1⟩ ∧
    run_resize_three = .ok ⟨4, some ⟨100, [none, some 7, some 7, some 7]⟩, 1, 0⟩ ∧
    (run_resize_three >>= fun b => .ok b.size) = .ok 18446744073709551615 ∧
    (run_resize_three >>= fun b => b.at_value 0) = .ok 7 ∧
    (run_resize_three >>= fun b => b.at_value 2) = .ok 7 := by
  decide

end ring_buffer

namespace ring_buffer

variable {α : Type}

end ring_buffer

namespace ring_buffer

variable {α : Type}

/-- C16, code at the failing input.  On the buffer holding `[1, 2]` in cells 0 and 1
(`run_one_two`) forward traversal visits the cells of `at(0)`, `at(1)` and meets `end()`
after `size() == 2` advances; but `*rbegin()` is the cell of `at(0)`, not of
`at(size() - 1)`, after `size()` steps the reverse cursor is not `rend()`, and no number
of steps takes it to `rend()`, whose base is the address before the region.  On the
wrapped buffer holding `[1, 2]` (`run_wrapped`) the forward cursor meets `end()` after 2
advances while `size()` is `2 ^ 64 - 2`. -/
theorem C16_traversal_reverse_and_wrapped :
    one_two.forward_walk = .ok [100, 101] ∧
    one_two.at_addr 0 = .ok 100 ∧ one_two.at_addr 1 = .ok 101 ∧
    radix_iterator.distance one_two.begin one_two.end_ = .ok 2 ∧ one_two.size = 2 ∧
    one_two.rbegin.deref_addr = 100 ∧
    reverse_iterator.eq one_two.rbegin.pre_inc.pre_inc one_two.rend = false ∧
    one_two.rend.base.current = 99 ∧
    one_two.reverse_walk = .error .diverges ∧
    (∀ k, reverse_iterator.eq ⟨one_two.rbegin.base.prev k⟩ one_two.rend = false) ∧
    (run_wrapped >>= fun b => radix_iterator.distance b.begin b.end_) = .ok 2 ∧
    (run_wrapped >>= fun b => .ok b.size) = .ok 18446744073709551614 := by
  refine ⟨by decide, by decide, by decide, by decide, by decide, by decide, by decide,
    by decide, by decide, ?_, by decide, by decide⟩
  intro k
  have h0 : one_two.rbegin.base.invariants = true := by decide
  have h1 := radix_iterator.prev_invariants _ h0 k
  rw [radix_iterator.invariants_iff] at h1
  have hf : ∀ j, (one_two.rbegin.base.prev j).front = 100 := by
    intro j
    induction j with
    | zero => rfl
    | succ j ih =>
      rw [radix_iterator.prev_succ]
      by_cases he : (one_two.rbegin.base.prev j).front = (one_two.rbegin.base.prev j).back
      · rw [radix_iterator.pre_dec_empty _ he]; exact ih
      · rw [radix_iterator.pre_dec_nonempty _ he]; exact ih
  have h2 := hf k
  have h3 : one_two.rend.base.current = 99 := by decide
  simp only [reverse_iterator.eq, radix_iterator.eq, h3, beq_eq_false_iff_ne, ne_eq]
  omega

end ring_buffer

namespace radix_iterator

/-- C17.  Prefix `++`: a cursor over an empty range (`front == back`) is unchanged;
otherwise `front` and `back` are unchanged and the new `current` is `front` when
`current + 1 == back` and `current + 1` when not. -/
theorem C17_pre_inc_step (it : radix_iterator) :
    (it.front = it.back → it.pre_inc = it) ∧
    (it.front ≠ it.back →
      it.pre_inc.front = it.front ∧ it.pre_inc.back = it.back ∧
      it.pre_inc.current = if it.current + 1 = it.back then it.front else it.current + 1) := by
  refine ⟨pre_inc_empty it, fun h => ?_⟩
  rw [pre_inc_nonempty it h]
  exact ⟨rfl, rfl, rfl⟩

/-- C17, witness.  Over the four slots at addresses 100 to 103: advancing from slot 3
gives slot 0, advancing from slot 1 gives slot 2; over an empty range nothing moves. -/
theorem C17_pre_inc_step_witness :
    (⟨100, 104, 103⟩ : radix_iterator).pre_inc.current = 100 ∧
    (⟨100, 104, 101⟩ : radix_iterator).pre_inc.current = 102 ∧
    (⟨100, 100, 100⟩ : radix_iterator).pre_inc = ⟨100, 100, 100⟩ :=
  ⟨(((C17_pre_inc_step ⟨100, 104, 103⟩).2 (by decide)).2.2).trans (by decide),
   (((C17_pre_inc_step ⟨100, 104, 101⟩).2 (by decide)).2.2).trans (by decide),
   (C17_pre_inc_step ⟨100, 100, 100⟩).1 rfl⟩

/-- C18.  Prefix `--`: a cursor over an empty range (`front == back`) is unchanged;
otherwise `front` and `back` are unchanged and the new `current` is `back - 1` when
`current == front` and `current - 1` when not. -/
theorem C18_pre_dec_step (it : radix_iterator) :
    (it.front = it.back → it.pre_dec = it) ∧
    (it.front ≠ it.back →
      it.pre_dec.front = it.front ∧ it.pre_dec.back = it.back ∧
      it.pre_dec.current = if it.current = it.front then it.back - 1 else it.current - 1) := by
  refine ⟨pre_dec_empty it, fun h => ?_⟩
  rw [pre_dec_nonempty it h]
  exact ⟨rfl, rfl, rfl⟩

/-- C18, witness.  Over the four slots at addresses 100 to 103: retreating from slot 0
gives slot 3, retreating from slot 2 gives slot 1; over an empty range nothing moves. -/
theorem C18_pre_dec_step_witness :
    (⟨100, 104, 100⟩ : radix_iterator).pre_dec.current = 103 ∧
    (⟨100, 104, 102⟩ : radix_iterator).pre_dec.current = 101 ∧
    (⟨100, 100, 100⟩ : radix_iterator).pre_dec = ⟨100, 100, 100⟩ :=
  ⟨(((C18_pre_dec_step ⟨100, 104, 100⟩).2 (by decide)).2.2).trans (by decide),
   (((C18_pre_dec_step ⟨100, 104, 102⟩).2 (by decide)).2.2).trans (by decide),
   (C18_pre_dec_step ⟨100, 100, 100⟩).1 rfl⟩

/-- C19.  The step operations keep the invariant: when `invariants()` holds for a
cursor, it holds after prefix `++` and prefix `--`, and for both the stepped cursor
and the returned copy of postfix `++` and postfix `--`; and `invariants()` says
exactly `front == back == current` or `front <= current < back`. -/
theorem C19_steps_keep_invariants (it : radix_iterator) (h : it.invariants = true) :
    it.pre_inc.invariants = true ∧ it.pre_dec.invariants = true ∧
    it.post_inc.2.invariants = true ∧ it.post_inc.1.invariants = true ∧
    it.post_dec.2.invariants = true ∧ it.post_dec.1.invariants = true ∧
    ((it.front = it.back ∧ it.current = it.front) ∨
      (it.front < it.back ∧ it.front ≤ it.current ∧ it.current < it.back)) :=
  ⟨pre_inc_invariants it h, pre_dec_invariants it h, pre_inc_invariants it h, h,
    pre_dec_invariants it h, h, (invariants_iff it).1 h⟩

/-- C19, witness.  The cursor at the last of the four slots 100 to 103 satisfies
`invariants()`, and so do its successors and predecessors. -/
theorem C19_steps_keep_invariants_witness :
    (⟨100, 104, 103⟩ : radix_iterator).invariants = true ∧
    (⟨100, 104, 103⟩ : radix_iterator).pre_inc.invariants = true ∧
    (⟨100, 104, 103⟩ : radix_iterator).pre_dec.invariants = true :=
  ⟨by decide, (C19_steps_keep_invariants ⟨100, 104, 103⟩ (by decide)).1,
    (C19_steps_keep_invariants ⟨100, 104, 103⟩ (by decide)).2.1⟩

/-- C20.  For a cursor `x` with `invariants()` true and every `k`: `k` advances
followed by `k` retreats give back `x` (same `front`, `back`, `current`, so the result
compares equal to `x`), and so do `k` retreats followed by `k` advances. -/
theorem C20_advance_retreat_cancel (x : radix_iterator) (h : x.invariants = true) (k : Nat) :
    (x.next k).prev k = x ∧ (x.prev k).next k = x ∧
    eq ((x.next k).prev k) x = true ∧ eq ((x.prev k).next k) x = true := by
  have h1 := prev_next_cancel x h k
  have h2 := next_prev_cancel x h k
  refine ⟨h1, h2, ?_, ?_⟩
  · rw [h1]; simp [eq]
  · rw [h2]; simp [eq]

/-- C20, witness.  For `x` at slot 0 of the four slots 100 to 103, `--(++x) == x`, and
three advances followed by three retreats give back `x`. -/
theorem C20_advance_retreat_cancel_witness :
    (⟨100, 104, 100⟩ : radix_iterator).invariants = true ∧
    (⟨100, 104, 100⟩ : radix_iterator).pre_inc.pre_dec = ⟨100, 104, 100⟩ ∧
    eq (⟨100, 104, 100⟩ : radix_iterator).pre_inc.pre_dec ⟨100, 104, 100⟩ = true ∧
    (((⟨100, 104, 100⟩ : radix_iterator).prev 3).next 3) = ⟨100, 104, 100⟩ :=
  ⟨by decide, (C20_advance_retreat_cancel ⟨100, 104, 100⟩ (by decide) 1).1,
    (C20_advance_retreat_cancel ⟨100, 104, 100⟩ (by decide) 1).2.2.1,
    (C20_advance_retreat_cancel ⟨100, 104, 100⟩ (by decide) 3).2.1⟩

end radix_iterator

/-! ### A full turn of the cursor -/

namespace radix_iterator

theorem next_in_range (a : Int) (n k j : Nat) (hk : k < n) :
    next ⟨a, a + n, a + k⟩ j = ⟨a, a + n, a + ((k + j) % n : Nat)⟩ := by
  induction j generalizing k with
  | zero => rw [Nat.add_zero, Nat.mod_eq_of_lt hk]; rfl
  | succ j ih =>
    show next (pre_inc ⟨a, a + n, a + k⟩) j = _
    rw [pre_inc_in_range a n k hk, ih ((k + 1) % n) (Nat.mod_lt _ (by omega)),
      Nat.mod_add_mod]
    have : k + 1 + j = k + (j + 1) := by omega
    rw [this]

theorem next_full_turn (x : radix_iterator) (h : x.invariants = true) (hne : x.front ≠ x.back) :
    x.next (x.back - x.front).toNat = x := by
  rw [invariants_iff] at h
  obtain ⟨f, bk, c⟩ := x
  simp only at h hne ⊢
  rcases h with ⟨h1, _⟩ | ⟨h1, h2, h3⟩
  · exact absurd h1 hne
  · obtain ⟨n, hn⟩ : ∃ n : Nat, bk = f + n := ⟨(bk - f).toNat, by omega⟩
    obtain ⟨k, hk⟩ : ∃ k : Nat, c = f + k := ⟨(c - f).toNat, by omega⟩
    subst hn hk
    have hkn : k < n := by omega
    have hlen : (f + (n : Int) - f).toNat = n := by omega
    rw [hlen, next_in_range f n k n hkn, Nat.add_mod_right, Nat.mod_eq_of_lt hkn]

theorem prev_full_turn (x : radix_iterator) (h : x.invariants = true) (hne : x.front ≠ x.back) :
    x.prev (x.back - x.front).toNat = x := by
  have h1 := prev_next_cancel x h (x.back - x.front).toNat
  rw [next_full_turn x h hne] at h1
  exact h1

theorem it_of_in_range {α : Type} (b : ring_buffer α) (idx : Nat)
    (h2 : b.mb_size < DIFF_MAX_SUCC) (hi : idx < b.mb_size) :
    b.it_of idx = ⟨b.get_ptr, b.get_ptr + b.mb_size, b.get_ptr + idx⟩ := by
  unfold ring_buffer.it_of
  rw [to_diff_small h2, to_diff_small (by omega)]

/-- C21.  A cursor with `invariants()` true over a non-empty range of
`n = back - front` slots is back at its start (same `front`, `back`, `current`) after
exactly `n` advances, and after exactly `n` retreats.  The cursor `it_of(idx)` that a
ring buffer with a region of `mb_size >= 1` slots (at most `PTRDIFF_MAX`) makes for an
offset `idx < mb_size` (as `begin()`, `end()` do for `m_begin`, `m_end`) satisfies
`invariants()` and is back at its start after `mb_size` advances, and after `mb_size`
retreats. -/
theorem C21_full_turn :
    (∀ x : radix_iterator, x.invariants = true → x.front ≠ x.back →
      x.next (x.back - x.front).toNat = x ∧ x.prev (x.back - x.front).toNat = x) ∧
    (∀ (α : Type) (b : ring_buffer α) (idx : Nat),
      0 < b.mb_size → b.mb_size < DIFF_MAX_SUCC → idx < b.mb_size →
      (b.it_of idx).invariants = true ∧
      (b.it_of idx).next b.mb_size = b.it_of idx ∧
      (b.it_of idx).prev b.mb_size = b.it_of idx) := by
  refine ⟨fun x h hne => ⟨next_full_turn x h hne, prev_full_turn x h hne⟩, ?_⟩
  intro α b idx h1 h2 hi
  have hinv : (b.it_of idx).invariants = true := by
    rw [it_of_in_range b idx h2 hi, invariants_iff]
    right
    simp only
    omega
  have hne : (b.it_of idx).front ≠ (b.it_of idx).back := by
    rw [it_of_in_range b idx h2 hi]
    simp only
    omega
  have hlen : ((b.it_of idx).back - (b.it_of idx).front).toNat = b.mb_size := by
    rw [it_of_in_range b idx h2 hi]
    simp only
    omega
  have hn := next_full_turn _ hinv hne
  have hp := prev_full_turn _ hinv hne
  rw [hlen] at hn hp
  exact ⟨hinv, hn, hp⟩

/-- C21, witness.  The cursor at slot 1 of the four slots 100 to 103 is back at slot 1
after four advances and after four retreats; `begin()` of the buffer holding `[1, 2, 3]`
in a region of four slots is back at its start after `mb_size == 4` advances. -/
theorem C21_full_turn_witness :
    (⟨100, 104, 101⟩ : radix_iterator).next 4 = ⟨100, 104, 101⟩ ∧
    (⟨100, 104, 101⟩ : radix_iterator).prev 4 = ⟨100, 104, 101⟩ ∧
    ring_buffer.full_three.begin.next 4 = ring_buffer.full_three.begin :=
  ⟨(C21_full_turn.1 ⟨100, 104, 101⟩ (by decide) (by decide)).1,
   (C21_full_turn.1 ⟨100, 104, 101⟩ (by decide) (by decide)).2,
   (C21_full_turn.2 Nat ring_buffer.full_three 0 (by decide) (by decide) (by decide)).2.1⟩

/-- C22.  Postfix `x++` returns a cursor with the `front`, `back` and `current` that `x`
had before the step and leaves `x` in the state prefix `++x` leaves it in; postfix `x--`
likewise with prefix `--x`. -/
theorem C22_postfix_steps (x : radix_iterator) :
    x.post_inc.1.front = x.front ∧ x.post_inc.1.back = x.back ∧
    x.post_inc.1.current = x.current ∧ x.post_inc.2 = x.pre_inc ∧
    x.post_dec.1.front = x.front ∧ x.post_dec.1.back = x.back ∧
    x.post_dec.1.current = x.current ∧ x.post_dec.2 = x.pre_dec :=
  ⟨rfl, rfl, rfl, rfl, rfl, rfl, rfl, rfl⟩

/-- C23.  For every triple `(front, back, current)`, `invariants()` returns true exactly
when `front == back == current`, or `front < back` and `front <= current < back`; it is
true for the default-constructed cursor and for every `(p, p, p)`, and false whenever
`back < front`. -/
theorem C23_invariants_characterised (f bk c : Int) :
    ((⟨f, bk, c⟩ : radix_iterator).invariants = true ↔
      (f = bk ∧ bk = c) ∨ (f < bk ∧ f ≤ c ∧ c < bk)) ∧
    default_ctor.invariants = true ∧
    (⟨c, c, c⟩ : radix_iterator).invariants = true ∧
    (bk < f → (⟨f, bk, c⟩ : radix_iterator).invariants = false) := by
  refine ⟨?_, by decide, ?_, ?_⟩
  · rw [invariants_iff]
    simp only
    constructor
    · rintro (⟨h1, h2⟩ | h)
      · left; omega
      · right; exact h
    · rintro (⟨h1, h2⟩ | h)
      · left; omega
      · right; exact h
  · rw [invariants_iff]; left; exact ⟨rfl, rfl⟩
  · intro h
    cases hv : (⟨f, bk, c⟩ : radix_iterator).invariants
    · rfl
    · rw [invariants_iff] at hv
      simp only at hv
      omega

/-- C23, witness.  Over the slots 100 to 103 the position 101 is valid, the position 104
(one past the end) is not, and the inverted bounds `(104, 100, 101)` are not. -/
theorem C23_invariants_characterised_witness :
    (⟨100, 104, 101⟩ : radix_iterator).invariants = true ∧
    ¬ ((⟨100, 104, 104⟩ : radix_iterator).invariants = true) ∧
    (⟨104, 100, 101⟩ : radix_iterator).invariants = false :=
  ⟨(C23_invariants_characterised 100 104 101).1.2 (Or.inr (by decide)),
   fun h => absurd ((C23_invariants_characterised 100 104 104).1.1 h) (by decide),
   (C23_invariants_characterised 104 100 101).2.2.2 (by decide)⟩

end radix_iterator

/-! ### Wrapping of offsets, the size, the constructed slots -/

namespace ring_buffer

/-- C24, code at the failing input.  `pwrap(-1, 3)` returns 0, the floor-modulo of the
claim is 2; `pwrap(-2, 3)` returns 2, the floor-modulo is 1: `val % wrap` converts the
negative `val` to `size_type` first, and `2 ^ 64` is not a multiple of 3.  `idx_of`
passes such a value: in the buffer of the run `ring_buffer<int> b(2); b.push_back(7);
b.push_front(8);` (3 slots, `m_begin == 2`) cell 0 holds the element `at(1)`, and
`idx_of(0)` is 2. -/
theorem C24_pwrap_of_negative_offset :
    pwrap (-1) 3 = .ok 0 ∧ spec_floor_mod (-1) 3 = 2 ∧
    pwrap (-2) 3 = .ok 2 ∧ spec_floor_mod (-2) 3 = 1 ∧
    run_wrapped_small = .ok ⟨3, some ⟨100, [some 7, none, some 8]⟩, 2, 1⟩ ∧
    (run_wrapped_small >>= fun b => b.at_ 1) = .ok 0 ∧
    (run_wrapped_small >>= fun b => b.idx_of 0) = .ok 2 := by
  refine ⟨by decide, by decide, by decide, by decide, by decide, by decide, by decide⟩

/-- C25, code at the failing input.  After the run `ring_buffer<int> b(3); b.push_back(2);
b.push_front(1);` the region has 4 slots, `m_begin == 3`, `m_end == 1`: the forward
wrap-distance from `m_begin` to `m_end` is 2, and `size()` returns `2 ^ 64 - 2`. -/
theorem C25_size_of_wrapped_range :
    run_wrapped = .ok ⟨4, some ⟨100, [some 2, none, none, some 1]⟩, 3, 1⟩ ∧
    spec_floor_mod ((1 : Int) - 3) 4 = 2 ∧
    (run_wrapped >>= fun b => .ok b.live_count) = .ok 2 ∧
    (run_wrapped >>= fun b => .ok b.size) = .ok 18446744073709551614 := by
  refine ⟨by decide, by decide, by decide, by decide⟩

/-- C27, code at the failing input.  After the run `ring_buffer<int> b(0); b.push_back(1);
b.push_back(2);` cells 0 and 1 hold constructed elements while the range `[m_begin, m_end)`
is `[0, 1)`: two live elements, `size() == 1`; the destructor destroys cell 0 only, so one
element is still constructed when the block is deallocated.  On the buffer holding
`[1, 2]` (`run_one_two`) `clear()` does not return: the deleter runs after the stored
pointer is null and destroys through the null pointer. -/
theorem C27_constructed_slot_outside_range :
    run_two_push_back = .ok ⟨4, some ⟨300, [some 1, some 2, none, none]⟩, 0, 1⟩ ∧
    (run_two_push_back >>= fun b => .ok (b.size, b.constructed_count)) = .ok (1, 2) ∧
    (run_two_push_back >>= fun b => b.dtor_leak) = .ok 1 ∧
    (run_one_two >>= fun b => b.clear) = .error .undefined := by
  refine ⟨by decide, by decide, by decide, by decide⟩

/-- C28, code at the failing input.  The buffer of `run_three_of_seven` holds `[1, 2, 3]`
in cells 0 to 2 of 8 (`size() == 3`, `capacity() == 7`).  Inserting one element at logical
position 1 (1 element before, 2 after: the front is extended) keeps `m_end == 3` but
sets `m_begin` to 2, one step before `m_end`, where the claim has `m_begin` move back by
one step to 7; the element `3` at logical position 2 loses its cell 2 to the relocated
`1`, and the new element goes to cell 3. -/
theorem C28_front_extension_starts_at_end :
    run_three_of_seven = .ok three_of_seven ∧
    three_of_seven.size = 3 ∧ three_of_seven.capacity = 7 ∧
    three_of_seven.contents = .ok [1, 2, 3] ∧
    three_of_seven.at_addr 2 = .ok 102 ∧
    radix_iterator.distance three_of_seven.begin (three_of_seven.begin.advance 1) = .ok 1 ∧
    radix_iterator.distance (three_of_seven.begin.advance 1) three_of_seven.end_ = .ok 2 ∧
    three_of_seven.insert (std_alloc 200) (three_of_seven.begin.advance 1) 9 =
      .ok (⟨8, some ⟨100, [none, some 2, some 1, some 9, none, none, none, none]⟩, 2, 3⟩,
        ⟨100, 108, 103⟩) := by
  refine ⟨by decide, by decide, by decide, by decide, by decide, by decide, by decide,
    by decide⟩

/-- C29, code at the failing input.  On the buffer holding `[1, 2, 3]` in cells 0 to 2 of
8 (`run_three_of_seven`), inserting the sequence `8, 9` at `end()`: the batch path gives
`[1, 2, 3, 8, 9]`; the one-at-a-time path inserts every element at the same `pos` and
gives `[1, 2, 3, 9, 3]`. -/
theorem C29_one_at_a_time_differs_from_batch :
    run_three_of_seven = .ok three_of_seven ∧
    (three_of_seven.insert_range (std_alloc 200) three_of_seven.end_ [8, 9] >>=
      fun r => r.1.contents) = .ok [1, 2, 3, 8, 9] ∧
    (three_of_seven.it_insert_input (fun i => std_alloc (200 + 100 * i)) three_of_seven.end_
      [8, 9] >>= fun r => r.1.contents) = .ok [1, 2, 3, 9, 3] ∧
    (three_of_seven.it_insert_input (fun i => std_alloc (200 + 100 * i)) three_of_seven.end_
      [8, 9] >>= fun r => .ok r.1) =
      .ok ⟨8, some ⟨100, [some 1, some 2, some 3, some 9, some 3, none, none, none]⟩, 0, 5⟩ := by
  refine ⟨by decide, by decide, by decide, by decide⟩

/-- C30, code at the failing input.  On the buffer holding `[1, 2]` in cells 0 and 1 of 4
(`run_one_two`: `size() == 2 < capacity() == 3`, `m_end == 2`) `push_back(3)` constructs
the element in cell 2 and sets `m_end` to 1, one step after `m_begin`, where the claim
has `m_end` move by one step to 3.  `push_front`, `pop_back` and `pop_front` on the same
buffer move their offset by one step. -/
theorem C30_push_back_sets_end_after_begin :
    run_one_two = .ok one_two ∧ one_two.size = 2 ∧ one_two.capacity = 3 ∧
    one_two.push_back (std_alloc 200) 3 =
      .ok (⟨4, some ⟨100, [some 1, some 2, some 3, none]⟩, 0, 1⟩, 103) ∧
    one_two.push_front (std_alloc 200) 3 =
      .ok (⟨4, some ⟨100, [some 1, some 2, none, some 3]⟩, 3, 2⟩, 103) ∧
    one_two.pop_back = .ok ⟨4, some ⟨100, [some 1, none, none, none]⟩, 0, 1⟩ ∧
    one_two.pop_front = .ok ⟨4, some ⟨100, [none, some 2, none, none]⟩, 1, 2⟩ := by
  refine ⟨by decide, by decide, by decide, by decide, by decide, by decide, by decide⟩

end ring_buffer

/-! ### The offsets of the states the operations produce -/

namespace ring_buffer

variable {α : Type}

theorem bind_eq_ok {ε β γ : Type} {x : Except ε β} {f : β → Except ε γ} {r : γ}
    (h : (x >>= f) = .ok r) : ∃ a, x = .ok a ∧ f a = .ok r := by
  cases x with
  | error e => simp at h
  | ok a => exact ⟨a, rfl, by simpa using h⟩

theorem same_offsets_refl (b : ring_buffer α) : same_offsets b b := ⟨rfl, rfl, rfl⟩

theorem same_offsets_trans {a b c : ring_buffer α} (h1 : same_offsets a b)
    (h2 : same_offsets b c) : same_offsets a c :=
  ⟨h2.1.trans h1.1, h2.2.1.trans h1.2.1, h2.2.2.trans h1.2.2⟩

theorem construct_offsets {b b1 : ring_buffer α} {p : Int} {v : α}
    (h : b.construct p v = .ok b1) : same_offsets b b1 := by
  unfold construct at h
  split at h
  · cases h
  · split at h
    · cases h
    · cases h; exact ⟨rfl, rfl, rfl⟩

theorem destroy_offsets {b b1 : ring_buffer α} {p : Int}
    (h : b.destroy p = .ok b1) : same_offsets b b1 := by
  unfold destroy at h
  split at h
  · cases h
  · split at h
    · cases h
    · split at h
      · cases h; exact ⟨rfl, rfl, rfl⟩
      · cases h

theorem ctor_value_offsets {b b1 : ring_buffer α} {i : Nat} {v : α}
    (h : b.ctor_value i v = .ok b1) : same_offsets b b1 := construct_offsets h

theorem dtor_value_offsets {b b1 : ring_buffer α} {i : Nat}
    (h : b.dtor_value i = .ok b1) : same_offsets b b1 := by
  unfold dtor_value at h
  obtain ⟨off, _, h2⟩ := bind_eq_ok h
  exact destroy_offsets h2

theorem dtor_value_loop_offsets (fuel : Nat) (b b1 : ring_buffer α) (idx e : Nat)
    (h : dtor_value_loop fuel b idx e = .ok b1) : same_offsets b b1 := by
  induction fuel generalizing b idx with
  | zero =>
    unfold dtor_value_loop at h
    split at h
    · cases h; exact same_offsets_refl _
    · cases h
  | succ fuel ih =>
    unfold dtor_value_loop at h
    split at h
    · cases h; exact same_offsets_refl _
    · obtain ⟨b2, h2, h3⟩ := bind_eq_ok h
      split at h3
      · cases h3
      · exact same_offsets_trans (dtor_value_offsets h2) (ih _ _ h3)

theorem dtor_value_all_offsets {b b1 : ring_buffer α} (h : b.dtor_value_all = .ok b1) :
    b1.mb_size = b.mb_size ∧ b1.m_begin = 0 ∧ b1.m_end = 0 := by
  unfold dtor_value_all dtor_value_range at h
  obtain ⟨b2, h2, h3⟩ := bind_eq_ok h
  cases h3
  exact ⟨(dtor_value_loop_offsets _ _ _ _ _ h2).1, rfl, rfl⟩

theorem pwrap_lt {z : Int} {w r : Nat} (h : pwrap z w = .ok r) : 0 < w ∧ r < w := by
  unfold pwrap at h
  split at h
  · cases h
  · next hw =>
    cases h
    have hw0 : 0 < w := Nat.pos_of_ne_zero hw
    exact ⟨hw0, Nat.mod_lt _ hw0⟩

theorem it_offset_lt {b : ring_buffer α} {it : radix_iterator} {r : Nat}
    (h : b.it_offset it = .ok r) : 0 < b.mb_size ∧ r < b.mb_size := pwrap_lt h

theorem offset_of_lt {b : ring_buffer α} {z : Int} {r : Nat}
    (h : b.offset_of z = .ok r) : 0 < b.mb_size ∧ r < b.mb_size := pwrap_lt h

theorem abs_offset_of_lt {b : ring_buffer α} {z : Int} {r : Nat}
    (h : b.abs_offset_of z = .ok r) : 0 < b.mb_size ∧ r < b.mb_size := pwrap_lt h

theorem offsets_in_region_of_lt {b : ring_buffer α} (h0 : b.mb_size < DIFF_MAX_SUCC)
    (h1 : b.m_begin < b.mb_size) (h2 : b.m_end < b.mb_size) : offsets_in_region b :=
  ⟨h0, Or.inr ⟨by omega, h1, h2⟩⟩

theorem offsets_in_region_pos {b : ring_buffer α} (h : offsets_in_region b)
    (hp : 0 < b.mb_size) : b.m_begin < b.mb_size ∧ b.m_end < b.mb_size := by
  rcases h.2 with ⟨h1, _, _⟩ | ⟨_, h2, h3⟩
  · omega
  · exact ⟨h2, h3⟩

theorem pop_back_offsets (b b1 : ring_buffer α) (hb : offsets_in_region b)
    (h : b.pop_back = .ok b1) : offsets_in_region b1 := by
  unfold pop_back at h
  obtain ⟨ne, h1, h⟩ := bind_eq_ok h
  obtain ⟨b2, h2, h⟩ := bind_eq_ok h
  cases h
  obtain ⟨hm, hb0, he0⟩ := dtor_value_offsets h2
  obtain ⟨hp, hlt⟩ := it_offset_lt h1
  obtain ⟨hbg, _⟩ := offsets_in_region_pos hb hp
  apply offsets_in_region_of_lt
  · show b2.mb_size < DIFF_MAX_SUCC
    rw [hm]; exact hb.1
  · show b2.m_begin < b2.mb_size
    rw [hm, hb0]; exact hbg
  · show ne < b2.mb_size
    rw [hm]; exact hlt

theorem pop_front_offsets (b b1 : ring_buffer α) (hb : offsets_in_region b)
    (h : b.pop_front = .ok b1) : offsets_in_region b1 := by
  unfold pop_front at h
  obtain ⟨nb, h1, h⟩ := bind_eq_ok h
  obtain ⟨b2, h2, h⟩ := bind_eq_ok h
  cases h
  obtain ⟨hm, hb0, he0⟩ := dtor_value_offsets h2
  obtain ⟨hp, hlt⟩ := it_offset_lt h1
  obtain ⟨_, hen⟩ := offsets_in_region_pos hb hp
  apply offsets_in_region_of_lt
  · show b2.mb_size < DIFF_MAX_SUCC
    rw [hm]; exact hb.1
  · show nb < b2.mb_size
    rw [hm]; exact hlt
  · show b2.m_end < b2.mb_size
    rw [hm, he0]; exact hen

end ring_buffer

namespace ring_buffer

variable {α : Type}

theorem size_lt (b : ring_buffer α) : b.size < SIZE_MOD := by
  rw [size_eq_usub]
  unfold usub
  exact Nat.mod_lt _ (by unfold SIZE_MOD; omega)

theorem size_of_ordered {b : ring_buffer α} (hb : offsets_in_region b)
    (ho : b.m_begin ≤ b.m_end) :
    b.size = b.m_end - b.m_begin ∧ (0 < b.mb_size → b.size ≤ b.mb_size - 1) ∧
      (b.mb_size = 0 → b.size = 0) := by
  have h1 := hb.1
  have hsz : b.size = b.m_end - b.m_begin := by
    rw [size_eq_usub]
    apply usub_small ho
    rcases hb.2 with ⟨_, _, h3⟩ | ⟨_, _, h3⟩ <;>
      (unfold DIFF_MAX_SUCC at h1; unfold SIZE_MOD; omega)
  refine ⟨hsz, fun hp => ?_, fun h0 => ?_⟩
  · have := offsets_in_region_pos hb hp
    omega
  · rcases hb.2 with ⟨_, h2, h3⟩ | ⟨h2, _, _⟩ <;> omega

theorem ensure_alloc_copy_loop_offsets (fuel : Nat) (self nb r : ring_buffer α)
    (own new : radix_iterator)
    (h : ensure_alloc_copy_loop fuel self nb own new = .ok r) : same_offsets nb r := by
  induction fuel generalizing nb own new with
  | zero =>
    unfold ensure_alloc_copy_loop at h
    split at h
    · cases h
    · cases h; exact same_offsets_refl _
  | succ fuel ih =>
    unfold ensure_alloc_copy_loop at h
    split at h
    · obtain ⟨v, _, h⟩ := bind_eq_ok h
      obtain ⟨nb1, h1, h⟩ := bind_eq_ok h
      exact same_offsets_trans (ctor_value_offsets h1) (ih _ _ _ h)
    · cases h; exact same_offsets_refl _

theorem ctor_cap_ok {alloc : allocator_type} {cap : Nat} {b : ring_buffer α}
    (h : ctor_cap cap alloc = .ok b) :
    uadd cap 1 ≤ alloc.max_size ∧
      b = ⟨uadd cap 1, some ⟨alloc.next, List.replicate (uadd cap 1) none⟩, 0, 0⟩ := by
  unfold ctor_cap alloc_memblk at h
  by_cases hg : uadd cap 1 ≤ alloc.max_size
  · simp only [hg, if_true, bind_ok_eq] at h
    cases h
    exact ⟨hg, rfl⟩
  · simp only [hg, if_false, bind_error_eq] at h
    cases h

theorem ensure_alloc_copy_offsets {alloc : allocator_type} {b b1 : ring_buffer α} {count : Nat}
    (h : b.ensure_alloc_copy alloc count = .ok b1) :
    b1 = b ∨ (b.capacity < count ∧ b1.mb_size = uadd count 1 ∧
      uadd count 1 ≤ alloc.max_size ∧ b1.m_begin = 0 ∧ b1.m_end = b.size) := by
  unfold ensure_alloc_copy at h
  split at h
  · next hc =>
    right
    obtain ⟨nb0, h0, h⟩ := bind_eq_ok h
    obtain ⟨hg, hnb0⟩ := ctor_cap_ok h0
    subst hnb0
    obtain ⟨nb2, h2, h⟩ := bind_eq_ok h
    obtain ⟨hm, hb0, he0⟩ := ensure_alloc_copy_loop_offsets _ _ _ _ _ _ h2
    simp only [swap] at h
    obtain ⟨_, _, h⟩ := bind_eq_ok h
    cases h
    exact ⟨hc, hm, hg, hb0, he0⟩
  · cases h; exact Or.inl rfl

theorem ensure_alloc_copy_extra_offsets {alloc : allocator_type} {b b1 : ring_buffer α}
    {count : Nat} (h : b.ensure_alloc_copy_extra alloc count = .ok b1) :
    b1 = b ∨ ∃ ns, count ≤ ns ∧ ns ≤ max count (expand b.mb_size) ∧ b.capacity < count ∧
      b1.mb_size = uadd ns 1 ∧ uadd ns 1 ≤ alloc.max_size ∧ b1.m_begin = 0 ∧
      b1.m_end = b.size := by
  unfold ensure_alloc_copy_extra at h
  rcases ensure_alloc_copy_offsets h with h1 | ⟨h1, h2, h3, h4, h5⟩
  · exact Or.inl h1
  · right
    by_cases hc : count > b.capacity
    · simp only [hc, if_true] at h1 h2 h3
      refine ⟨_, ?_, ?_, hc, h2, h3, h4, h5⟩
      · split <;> omega
      · split <;> omega
    · simp only [hc, if_false] at h1

theorem expand_exact (n : Nat) (h : 3 * n < 9007199254740992) : expand n = n * 3 / 2 := by
  have h1 : to_double n = n := by unfold to_double; rw [if_pos (by omega)]
  have h2 : to_double (3 * n) = 3 * n := by unfold to_double; rw [if_pos h]
  unfold expand
  rw [h1, h2]
  omega

theorem expand_lt (n : Nat) (h : n < DIFF_MAX_SUCC) : expand n < SIZE_MOD := by
  have h1 := to_double_le n
  have h2 := to_double_le (3 * to_double n)
  unfold expand
  unfold DIFF_MAX_SUCC at h
  unfold SIZE_MOD
  omega

theorem extra_offsets_ok {alloc : allocator_type} {b b1 : ring_buffer α} {count : Nat}
    (hb : offsets_in_region b) (ha : alloc.max_size < DIFF_MAX_SUCC) (hc : count < SIZE_MOD)
    (h : b.ensure_alloc_copy_extra alloc count = .ok b1) (hp : 0 < b1.mb_size) :
    b1.mb_size < DIFF_MAX_SUCC ∧ b1.m_begin < b1.mb_size ∧
      ((b.capacity < count → b.size ≤ count) → b1.m_end < b1.mb_size) := by
  rcases ensure_alloc_copy_extra_offsets h with h1 | ⟨ns, h1, h2, h3, h4, h5, h6, h7⟩
  · subst h1
    obtain ⟨h2, h3⟩ := offsets_in_region_pos hb hp
    exact ⟨hb.1, h2, fun _ => h3⟩
  · refine ⟨by omega, by omega, fun hs => ?_⟩
    have hs1 := hs h3
    have hmb := hb.1
    have hns : ns < SIZE_MOD := by
      have : expand b.mb_size < SIZE_MOD := expand_lt _ hmb
      omega
    rw [h7, h4]
    rw [h4] at hp
    unfold uadd at hp ⊢
    unfold SIZE_MOD at *
    omega

theorem emplace_back_offsets (alloc : allocator_type) (b : ring_buffer α) (v : α)
    (r : ring_buffer α × Int) (hb : offsets_in_region b)
    (ha : alloc.max_size < DIFF_MAX_SUCC) (h : b.emplace_back alloc v = .ok r) :
    offsets_in_region r.1 := by
  unfold emplace_back at h
  obtain ⟨b1, h1, h⟩ := bind_eq_ok h
  obtain ⟨b2, h2, h⟩ := bind_eq_ok h
  obtain ⟨ne, h3, h⟩ := bind_eq_ok h
  cases h
  obtain ⟨hm, hb0, _⟩ := ctor_value_offsets h2
  obtain ⟨hp, hlt⟩ := it_offset_lt h3
  have hsz : uadd b.size 1 < SIZE_MOD := Nat.mod_lt _ (by unfold SIZE_MOD; omega)
  obtain ⟨k1, k2, _⟩ := extra_offsets_ok hb ha hsz h1 (by rw [← hm]; exact hp)
  apply offsets_in_region_of_lt
  · show b2.mb_size < DIFF_MAX_SUCC
    rw [hm]; exact k1
  · show b2.m_begin < b2.mb_size
    rw [hm, hb0]; exact k2
  · exact hlt

theorem emplace_front_offsets (alloc : allocator_type) (b : ring_buffer α) (v : α)
    (r : ring_buffer α × Int) (hb : offsets_in_region b)
    (ha : alloc.max_size < DIFF_MAX_SUCC) (h : b.emplace_front alloc v = .ok r) :
    offsets_in_region r.1 := by
  unfold emplace_front at h
  obtain ⟨b1, h1, h⟩ := bind_eq_ok h
  obtain ⟨nb, h3, h⟩ := bind_eq_ok h
  obtain ⟨b2, h2, h⟩ := bind_eq_ok h
  cases h
  obtain ⟨hm, _, he0⟩ := ctor_value_offsets h2
  obtain ⟨hp, hlt⟩ := it_offset_lt h3
  have hsz : uadd b.size 1 < SIZE_MOD := Nat.mod_lt _ (by unfold SIZE_MOD; omega)
  obtain ⟨k1, _, k3⟩ := extra_offsets_ok hb ha hsz h1 hp
  have hle : b.capacity < uadd b.size 1 → b.size ≤ uadd b.size 1 := by
    intro hcap
    have := size_lt b
    unfold uadd at hcap ⊢
    unfold SIZE_MOD at *
    omega
  apply offsets_in_region_of_lt
  · show b2.mb_size < DIFF_MAX_SUCC
    rw [hm]; exact k1
  · show nb < b2.mb_size
    rw [hm]; exact hlt
  · show b2.m_end < b2.mb_size
    rw [hm, he0]; exact k3 hle

end ring_buffer

namespace ring_buffer

variable {α : Type}

theorem resize_fill_loop_offsets (fuel : Nat) (b r : ring_buffer α) (it : radix_iterator)
    (v : α) (h : resize_fill_loop fuel b it v = .ok r) : same_offsets b r := by
  induction fuel generalizing b it with
  | zero =>
    unfold resize_fill_loop at h
    split at h
    · cases h
    · cases h; exact same_offsets_refl _
  | succ fuel ih =>
    unfold resize_fill_loop at h
    split at h
    · obtain ⟨off, _, h⟩ := bind_eq_ok h
      obtain ⟨b1, h1, h⟩ := bind_eq_ok h
      exact same_offsets_trans (ctor_value_offsets h1) (ih _ _ h)
    · cases h; exact same_offsets_refl _

theorem ctor_copy_loop_offsets (fuel : Nat) (other self r : ring_buffer α)
    (src dst : radix_iterator)
    (h : ctor_copy_loop fuel other self src dst = .ok r) : same_offsets self r := by
  induction fuel generalizing self src dst with
  | zero =>
    unfold ctor_copy_loop at h
    split at h
    · cases h
    · cases h; exact same_offsets_refl _
  | succ fuel ih =>
    unfold ctor_copy_loop at h
    split at h
    · obtain ⟨v, _, h⟩ := bind_eq_ok h
      obtain ⟨off, _, h⟩ := bind_eq_ok h
      obtain ⟨s1, h1, h⟩ := bind_eq_ok h
      exact same_offsets_trans (ctor_value_offsets h1) (ih _ _ _ h)
    · cases h; exact same_offsets_refl _

theorem ctor_copy_offsets_eq {alloc : allocator_type} {other b : ring_buffer α}
    (h : ctor_copy other alloc = .ok b) :
    b.mb_size = uadd other.size 1 ∧ uadd other.size 1 ≤ alloc.max_size ∧
      b.m_begin = 0 ∧ b.m_end = other.size := by
  unfold ctor_copy alloc_memblk at h
  by_cases hg : uadd other.size 1 ≤ alloc.max_size
  · simp only [hg, if_true, bind_ok_eq] at h
    obtain ⟨hm, hb0, he0⟩ := ctor_copy_loop_offsets _ _ _ _ _ _ h
    exact ⟨hm, hg, hb0, he0⟩
  · simp only [hg, if_false, bind_error_eq] at h
    cases h

theorem ctor_copy_offsets (alloc : allocator_type) (other b : ring_buffer α)
    (ho : offsets_in_region other) (hord : other.m_begin ≤ other.m_end)
    (ha : alloc.max_size < DIFF_MAX_SUCC) (h : ctor_copy other alloc = .ok b) :
    offsets_in_region b := by
  obtain ⟨h1, h2, h3, h4⟩ := ctor_copy_offsets_eq h
  obtain ⟨k1, k2, k3⟩ := size_of_ordered ho hord
  have hmb := ho.1
  have hu : uadd other.size 1 = other.size + 1 := by
    apply uadd_small
    have := offsets_in_region_pos ho
    unfold DIFF_MAX_SUCC at hmb; unfold SIZE_MOD
    omega
  apply offsets_in_region_of_lt <;> omega

theorem ctor_cap_offsets (alloc : allocator_type) (cap : Nat) (b : ring_buffer α)
    (ha : alloc.max_size < DIFF_MAX_SUCC) (h : ctor_cap cap alloc = .ok b) :
    offsets_in_region b := by
  obtain ⟨h1, h2⟩ := ctor_cap_ok h
  subst h2
  refine ⟨by show uadd cap 1 < DIFF_MAX_SUCC; omega, ?_⟩
  show (uadd cap 1 = 0 ∧ 0 = 0 ∧ 0 = 0) ∨ (1 ≤ uadd cap 1 ∧ 0 < uadd cap 1 ∧ 0 < uadd cap 1)
  omega

theorem clear_offsets (b b1 : ring_buffer α) (h : b.clear = .ok b1) :
    offsets_in_region b1 := by
  unfold clear at h
  obtain ⟨b2, _, h⟩ := bind_eq_ok h
  cases h
  exact ⟨by show 0 < DIFF_MAX_SUCC; unfold DIFF_MAX_SUCC; omega, Or.inl ⟨rfl, rfl, rfl⟩⟩

theorem shrink_to_fit_offsets (alloc : allocator_type) (b b1 : ring_buffer α)
    (hb : offsets_in_region b) (ha : alloc.max_size < DIFF_MAX_SUCC)
    (h : b.shrink_to_fit alloc = .ok b1) : offsets_in_region b1 := by
  unfold shrink_to_fit at h
  simp only at h
  split at h
  · obtain ⟨b2, _, h⟩ := bind_eq_ok h
    cases h
    exact ⟨by show 0 < DIFF_MAX_SUCC; unfold DIFF_MAX_SUCC; omega, Or.inl ⟨rfl, rfl, rfl⟩⟩
  · split at h
    · next hlt =>
      obtain ⟨copy, hc, h⟩ := bind_eq_ok h
      simp only [swap] at h
      obtain ⟨_, _, h⟩ := bind_eq_ok h
      cases h
      obtain ⟨h1, h2, h3, h4⟩ := ctor_copy_offsets_eq hc
      have hcap : b.capacity < SIZE_MOD := Nat.mod_lt _ (by unfold SIZE_MOD; omega)
      have hu : uadd b.size 1 = b.size + 1 := uadd_small (by omega)
      apply offsets_in_region_of_lt
      · show copy.mb_size < DIFF_MAX_SUCC
        omega
      · show copy.m_begin < copy.mb_size
        omega
      · show copy.m_end < copy.mb_size
        omega
    · cases h; exact hb

theorem resize_offsets (alloc : allocator_type) (b b1 : ring_buffer α) (n : Nat) (v : α)
    (hb : offsets_in_region b) (ha : alloc.max_size < DIFF_MAX_SUCC) (hn : n < SIZE_MOD)
    (h : b.resize alloc n v = .ok b1) : offsets_in_region b1 := by
  unfold resize at h
  split at h
  · obtain ⟨b2, h2, h⟩ := bind_eq_ok h
    obtain ⟨ne, h3, h⟩ := bind_eq_ok h
    obtain ⟨hm, hb0, he0⟩ := resize_fill_loop_offsets _ _ _ _ _ h
    obtain ⟨hp, hlt⟩ := offset_of_lt h3
    obtain ⟨k1, k2, _⟩ := extra_offsets_ok hb ha hn h2 hp
    apply offsets_in_region_of_lt
    · rw [hm]; exact k1
    · rw [hm, hb0]; exact k2
    · rw [hm, he0]; exact hlt
  · split at h
    · obtain ⟨ne, h3, h⟩ := bind_eq_ok h
      obtain ⟨hm, hb0, he0⟩ := dtor_value_loop_offsets _ _ _ _ _ h
      obtain ⟨hp, hlt⟩ := abs_offset_of_lt h3
      obtain ⟨k2, _⟩ := offsets_in_region_pos hb hp
      apply offsets_in_region_of_lt
      · rw [hm]; exact hb.1
      · rw [hm, hb0]; exact k2
      · rw [hm, he0]; exact hlt
    · cases h; exact hb

end ring_buffer

namespace ring_buffer

variable {α : Type}

theorem to_diff_inj_small {x y : Nat} (hx : x < DIFF_MAX_SUCC) (hy : y < DIFF_MAX_SUCC)
    (h : to_diff x = to_diff y) : x = y := by
  rw [to_diff_small hx, to_diff_small hy] at h
  omega

theorem to_diff_eq_zero {x : Nat} (hx : x < SIZE_MOD) (h : to_diff x = 0) : x = 0 := by
  unfold to_diff at h
  rw [Nat.mod_eq_of_lt hx] at h
  split at h
  · omega
  · unfold SIZE_MOD at *; omega

theorem cell_index_nil (a p : Int) : cell_index (⟨a, []⟩ : region α) p = none := by
  unfold cell_index
  rw [if_neg]
  rintro ⟨h1, h2⟩
  dsimp only at h1 h2
  simp at h2
  omega

theorem ctor_value_nil (n : Nat) (a : Int) (s e i : Nat) (v : α) :
    (⟨n, some ⟨a, []⟩, s, e⟩ : ring_buffer α).ctor_value i v = .error .undefined := by
  simp [ctor_value, construct, cell_index_nil]

theorem offsets_in_region_small {b : ring_buffer α} (hb : offsets_in_region b) :
    b.m_begin < DIFF_MAX_SUCC ∧ b.m_end < DIFF_MAX_SUCC := by
  have h1 := hb.1
  rcases hb.2 with ⟨_, h2, h3⟩ | ⟨_, h2, h3⟩ <;> constructor <;> omega

theorem ensure_alloc_copy_no_slot {alloc : allocator_type} {b b1 : ring_buffer α}
    {count : Nat} (hb : offsets_in_region b)
    (h : b.ensure_alloc_copy alloc count = .ok b1) (hc : b.capacity < count)
    (h0 : uadd count 1 = 0) : b.size = 0 := by
  unfold ensure_alloc_copy at h
  rw [if_pos hc] at h
  obtain ⟨nb0, hn0, h⟩ := bind_eq_ok h
  obtain ⟨_, hnb0⟩ := ctor_cap_ok hn0
  subst hnb0
  obtain ⟨nb2, h2, _⟩ := bind_eq_ok h
  simp only [h0, List.replicate_zero] at h2
  generalize hfuel : max (b.begin.walk_bound b.end_.current) _ = fuel at h2
  have hf : 0 < fuel := by
    rw [← hfuel]
    unfold radix_iterator.walk_bound
    omega
  obtain ⟨f, rfl⟩ : ∃ f, fuel = f + 1 := ⟨fuel - 1, by omega⟩
  unfold ensure_alloc_copy_loop at h2
  split at h2
  · obtain ⟨v, _, h2⟩ := bind_eq_ok h2
    obtain ⟨nb, h3, _⟩ := bind_eq_ok h2
    rw [ctor_value_nil] at h3
    cases h3
  · next hcond =>
    simp only [radix_iterator.ne, radix_iterator.eq, Bool.and_eq_true, Bool.not_eq_true',
      beq_eq_false_iff_ne, ne_eq, not_and, not_not] at hcond
    obtain ⟨hs, he⟩ := offsets_in_region_small hb
    by_cases hown : b.begin.current = b.end_.current
    · simp only [begin, end_, it_of] at hown
      have hse : b.m_begin = b.m_end := to_diff_inj_small hs he (by omega)
      rw [size_eq_usub, hse]
      unfold usub
      unfold SIZE_MOD
      omega
    · have hh := hcond hown
      simp only [begin, end_, it_of, get_ptr] at hh
      have h00 : to_diff 0 = 0 := to_diff_small (by unfold DIFF_MAX_SUCC; omega)
      exact to_diff_eq_zero (size_lt b) (by omega)

theorem reserve_offsets (alloc : allocator_type) (b b1 : ring_buffer α) (n : Nat)
    (hb : offsets_in_region b) (hord : b.m_begin ≤ b.m_end)
    (ha : alloc.max_size < DIFF_MAX_SUCC) (hn : n < SIZE_MOD)
    (h : b.reserve alloc n = .ok b1) : offsets_in_region b1 := by
  unfold reserve at h
  split at h
  · rcases ensure_alloc_copy_offsets h with h1 | ⟨h1, h2, h3, h4, h5⟩
    · rw [h1]; exact hb
    · obtain ⟨k1, k2, k3⟩ := size_of_ordered hb hord
      by_cases h0 : uadd n 1 = 0
      · have hz := ensure_alloc_copy_no_slot hb h h1 h0
        exact ⟨by omega, Or.inl ⟨by omega, h4, by omega⟩⟩
      · have hu : uadd n 1 = n + 1 := by
          unfold uadd at h0 ⊢
          unfold SIZE_MOD at *
          omega
        have hsz : b.size ≤ n := by
          by_cases hp : 0 < b.mb_size
          · have hcap : b.capacity = b.mb_size - 1 := capacity_small hp hb.1
            have := k2 hp
            omega
          · have := k3 (by omega)
            omega
        apply offsets_in_region_of_lt <;> omega
  · cases h; exact hb

end ring_buffer

namespace ring_buffer

variable {α : Type}

theorem it_insert_fwd_loop_offsets (fuel : Nat) (b r : ring_buffer α)
    (src dst pos : radix_iterator)
    (h : it_insert_fwd_loop fuel b src dst pos = .ok r) : same_offsets b r := by
  induction fuel generalizing b src dst with
  | zero =>
    unfold it_insert_fwd_loop at h
    split at h
    · cases h
    · cases h; exact same_offsets_refl _
  | succ fuel ih =>
    unfold it_insert_fwd_loop at h
    split at h
    · obtain ⟨v, _, h⟩ := bind_eq_ok h
      obtain ⟨b1, h1, h⟩ := bind_eq_ok h
      obtain ⟨b2, h2, h⟩ := bind_eq_ok h
      exact same_offsets_trans (construct_offsets h1)
        (same_offsets_trans (destroy_offsets h2) (ih _ _ _ h))
    · cases h; exact same_offsets_refl _

theorem it_insert_back_loop_offsets (fuel : Nat) (b r : ring_buffer α)
    (src dst end_pos : reverse_iterator)
    (h : it_insert_back_loop fuel b src dst end_pos = .ok r) : same_offsets b r := by
  induction fuel generalizing b src dst with
  | zero =>
    unfold it_insert_back_loop at h
    split at h
    · cases h
    · cases h; exact same_offsets_refl _
  | succ fuel ih =>
    unfold it_insert_back_loop at h
    split at h
    · obtain ⟨v, _, h⟩ := bind_eq_ok h
      obtain ⟨b1, h1, h⟩ := bind_eq_ok h
      obtain ⟨b2, h2, h⟩ := bind_eq_ok h
      exact same_offsets_trans (construct_offsets h1)
        (same_offsets_trans (destroy_offsets h2) (ih _ _ _ h))
    · cases h; exact same_offsets_refl _

theorem it_insert_init_loop_offsets (vals : List α) (b r : ring_buffer α)
    (it : radix_iterator) (num count : Nat)
    (h : it_insert_init_loop b it vals num count = .ok r) : same_offsets b r := by
  induction vals generalizing b it num with
  | nil =>
    unfold it_insert_init_loop at h
    cases h; exact same_offsets_refl _
  | cons v rest ih =>
    unfold it_insert_init_loop at h
    split at h
    · obtain ⟨off, _, h⟩ := bind_eq_ok h
      obtain ⟨b1, h1, h⟩ := bind_eq_ok h
      exact same_offsets_trans (ctor_value_offsets h1) (ih _ _ _ h)
    · cases h; exact same_offsets_refl _

theorem it_insert_offsets (alloc : allocator_type) (b : ring_buffer α) (pos : radix_iterator)
    (vals : List α) (count : Nat) (r : ring_buffer α × radix_iterator)
    (hb : offsets_in_region b) (hord : b.m_begin ≤ b.m_end)
    (ha : alloc.max_size < DIFF_MAX_SUCC)
    (h : b.it_insert alloc pos vals count = .ok r) : offsets_in_region r.1 := by
  unfold it_insert at h
  obtain ⟨d1, _, h⟩ := bind_eq_ok h
  obtain ⟨d2, _, h⟩ := bind_eq_ok h
  obtain ⟨pos_off, _, h⟩ := bind_eq_ok h
  obtain ⟨buf_start, _, h⟩ := bind_eq_ok h
  obtain ⟨b1, h1, h⟩ := bind_eq_ok h
  obtain ⟨b2, h2, h⟩ := bind_eq_ok h
  obtain ⟨b3, h3, h⟩ := bind_eq_ok h
  cases h
  obtain ⟨hm3, hb3, he3⟩ := it_insert_init_loop_offsets _ _ _ _ _ _ h3
  have hcnt : uadd b.size count < SIZE_MOD := Nat.mod_lt _ (by unfold SIZE_MOD; omega)
  obtain ⟨k1, k2, k3⟩ := size_of_ordered hb hord
  have hsz : b.capacity < uadd b.size count → b.size ≤ uadd b.size count := by
    intro hcap
    by_cases hp : 0 < b.mb_size
    · have hc : b.capacity = b.mb_size - 1 := capacity_small hp hb.1
      have := k2 hp
      omega
    · have := k3 (by omega)
      omega
  show offsets_in_region b3
  split at h2
  · obtain ⟨nb, h4, h2⟩ := bind_eq_ok h2
    obtain ⟨hm2, hb2, he2⟩ := it_insert_fwd_loop_offsets _ _ _ _ _ _ h2
    obtain ⟨hp, hlt⟩ := it_offset_lt h4
    obtain ⟨j1, _, j3⟩ := extra_offsets_ok hb ha hcnt h1 hp
    apply offsets_in_region_of_lt
    · rw [hm3, hm2]; exact j1
    · rw [hm3, hm2, hb3, hb2]; exact hlt
    · rw [hm3, hm2, he3, he2]; exact j3 hsz
  · obtain ⟨me, h4, h2⟩ := bind_eq_ok h2
    obtain ⟨hm2, hb2, he2⟩ := it_insert_back_loop_offsets _ _ _ _ _ _ h2
    obtain ⟨hp, hlt⟩ := it_offset_lt h4
    obtain ⟨j1, j2, _⟩ := extra_offsets_ok hb ha hcnt h1 hp
    apply offsets_in_region_of_lt
    · rw [hm3, hm2]; exact j1
    · rw [hm3, hm2, hb3, hb2]; exact j2
    · rw [hm3, hm2, he3, he2]; exact hlt

theorem dtor_value_all_in_region {b b1 : ring_buffer α} (hb : offsets_in_region b)
    (h : b.dtor_value_all = .ok b1) : offsets_in_region b1 ∧ b1.m_begin ≤ b1.m_end := by
  obtain ⟨h1, h2, h3⟩ := dtor_value_all_offsets h
  have := hb.1
  refine ⟨⟨by omega, ?_⟩, by omega⟩
  by_cases hp : b1.mb_size = 0
  · exact Or.inl ⟨hp, h2, h3⟩
  · exact Or.inr ⟨by omega, by omega, by omega⟩

theorem assign_range_offsets (alloc : allocator_type) (b b1 : ring_buffer α) (vals : List α)
    (hb : offsets_in_region b) (ha : alloc.max_size < DIFF_MAX_SUCC)
    (h : b.assign_range alloc vals = .ok b1) : offsets_in_region b1 := by
  unfold assign_range at h
  obtain ⟨b0, h0, h⟩ := bind_eq_ok h
  obtain ⟨r, h1, h⟩ := bind_eq_ok h
  cases h
  obtain ⟨k1, k2⟩ := dtor_value_all_in_region hb h0
  exact it_insert_offsets alloc b0 _ vals _ r k1 k2 ha h1

end ring_buffer

namespace ring_buffer

variable {α : Type}

theorem assign_loop_offsets (fuel : Nat) (b r : ring_buffer α) (i : Nat) (v : α)
    (h : assign_loop fuel b i v = .ok r) : same_offsets b r := by
  induction fuel generalizing b i with
  | zero =>
    unfold assign_loop at h
    split at h
    · cases h; exact same_offsets_refl _
    · cases h
  | succ fuel ih =>
    unfold assign_loop at h
    split at h
    · cases h; exact same_offsets_refl _
    · obtain ⟨b1, h1, h⟩ := bind_eq_ok h
      exact same_offsets_trans (ctor_value_offsets h1) (ih _ _ h)

theorem ctor_value_inside {b b2 : ring_buffer α} {r : region α} {i : Nat} {v : α}
    (hm : b.memblk = some r) (hi : i < DIFF_MAX_SUCC) (h : b.ctor_value i v = .ok b2) :
    i < r.cells.length ∧ ∃ r2, b2.memblk = some r2 ∧ r2.cells.length = r.cells.length := by
  unfold ctor_value construct get_ptr at h
  rw [hm] at h
  simp only [to_diff_small hi] at h
  unfold cell_index at h
  split at h
  · cases h
  · next heq =>
    split at heq
    · next hin =>
      cases h
      exact ⟨by omega, _, rfl, by simp⟩
    · cases heq

theorem assign_loop_overrun (fuel : Nat) (b b1 : ring_buffer α) (r : region α)
    (i count : Nat) (v : α) (hm : b.memblk = some r) (hl : r.cells.length ≤ count)
    (he : b.m_end = count + 1) (hi : i ≤ count) (hc : count < DIFF_MAX_SUCC) :
    assign_loop fuel b i v ≠ .ok b1 := by
  induction fuel generalizing b r i with
  | zero =>
    unfold assign_loop
    rw [if_neg (by omega)]
    intro h; cases h
  | succ fuel ih =>
    unfold assign_loop
    rw [if_neg (by omega)]
    intro h
    obtain ⟨b2, h2, h⟩ := bind_eq_ok h
    obtain ⟨hin, r2, hm2, hl2⟩ := ctor_value_inside hm (by omega) h2
    have hu : uadd i 1 = i + 1 :=
      uadd_small (by unfold DIFF_MAX_SUCC at hc; unfold SIZE_MOD; omega)
    rw [hu] at h
    exact ih b2 r2 (i + 1) hm2 (by omega) ((ctor_value_offsets h2).2.2.trans he) (by omega) h

theorem memblk_assign_blank {b b2 : ring_buffer α} {blk : region α}
    (h0 : b.m_begin = b.m_end) (h : b.memblk_assign blk = .ok b2) : b2.memblk = some blk := by
  unfold memblk_assign at h
  split at h
  · cases h; rfl
  · unfold destruct_memblk dtor_value_all dtor_value_range dtor_value_loop at h
    simp only [h0, if_true, bind_ok_eq] at h
    split at h
    · cases h; rfl
    · cases h

theorem assign_offsets (alloc : allocator_type) (b b1 : ring_buffer α) (n : Nat) (v : α)
    (hb : offsets_in_region b) (ha : alloc.max_size < DIFF_MAX_SUCC)
    (h : b.assign alloc n v = .ok b1) : offsets_in_region b1 := by
  unfold assign at h
  obtain ⟨b2, h2, h⟩ := bind_eq_ok h
  obtain ⟨hm, hb0, he0⟩ := assign_loop_offsets _ _ _ _ _ h
  unfold ensure_alloc_blanked at h2
  obtain ⟨b0, h0, h2⟩ := bind_eq_ok h2
  obtain ⟨k1, k2⟩ := dtor_value_all_in_region hb h0
  split at h2
  · exfalso
    obtain ⟨blk, h3, h2⟩ := bind_eq_ok h2
    obtain ⟨b3, h4, h2⟩ := bind_eq_ok h2
    cases h2
    unfold alloc_memblk at h3
    split at h3
    · next hg =>
      cases h3
      obtain ⟨_, j2, j3⟩ := dtor_value_all_offsets h0
      have hblk := memblk_assign_blank (j2.trans j3.symm) h4
      have hn : n < DIFF_MAX_SUCC := by omega
      have hu : uadd n 1 = n + 1 :=
        uadd_small (by unfold DIFF_MAX_SUCC at hn; unfold SIZE_MOD; omega)
      exact assign_loop_overrun _
        { b3 with mb_size := uadd n 1, m_begin := 0, m_end := uadd n 1 } b1
        ⟨alloc.next, List.replicate n none⟩ 0 n v hblk (by simp) hu (Nat.zero_le _) hn h
    · cases h3
  · cases h2
    rcases k1 with ⟨j1, j2⟩
    refine ⟨by rw [hm]; exact j1, ?_⟩
    rw [hm, hb0, he0]
    exact j2

end ring_buffer

namespace ring_buffer

variable {α : Type}

theorem ctor_default_offsets : offsets_in_region (ctor_default : ring_buffer α) :=
  ⟨by show 0 < DIFF_MAX_SUCC; unfold DIFF_MAX_SUCC; omega, Or.inl ⟨rfl, rfl, rfl⟩⟩

end ring_buffer

namespace ring_buffer

/-- C26, code at the failing input.  The state after `ring_buffer<int> b(3);
b.push_back(2); b.push_front(1);` has `mb_size == 4`, `m_begin == 3`, `m_end == 1`, two
elements and `capacity() == 3 == mb_size - 1`, but `size()` is `2 ^ 64 - 2`, above
`mb_size - 1`.  `reserve(10)` on it returns with `mb_size == 11` and
`m_end == 2 ^ 64 - 2`, not below `mb_size`, with `size()` above `capacity() == 10`. -/
theorem C26_size_above_capacity_on_wrapped_range :
    run_wrapped = .ok ⟨4, some ⟨100, [some 2, none, none, some 1]⟩, 3, 1⟩ ∧
    (run_wrapped >>= fun b => .ok (b.live_count, b.capacity, b.size))
      = .ok (2, 3, 18446744073709551614) ∧
    (run_wrapped >>= fun b => b.reserve (std_alloc 200) 10 >>= fun b1 =>
      .ok (b1.mb_size, b1.m_begin, b1.m_end, b1.capacity, b1.size))
      = .ok (11, 0, 18446744073709551614, 10, 18446744073709551614) := by
  decide

end ring_buffer

/-! ### Move construction, the two ends, copy assignment -/

namespace ring_buffer

variable {α : Type}

/-- C31, code at the failing input.  Move construction from the buffer holding `[1, 2]`
(`run_one_two`) leaves the source with a null pointer but with `mb_size == 4`,
`m_begin == 0`, `m_end == 2` as before: it reports `size() == 2` and `empty() == false`.
Move assignment `a = std::move(b)` onto a default-constructed `a` leaves `b` in the same
state.  For every source, move construction leaves it without a region and with the
`size()` it had. -/
theorem C31_moved_from_source_keeps_size :
    run_one_two = .ok one_two ∧
    (ctor_move one_two).1 = one_two ∧
    (ctor_move one_two).2 = ⟨4, none, 0, 2⟩ ∧
    (ctor_move one_two).2.size = 2 ∧ (ctor_move one_two).2.empty = false ∧
    move_assign (ctor_default : ring_buffer Nat) one_two = .ok (one_two, ⟨4, none, 0, 2⟩) ∧
    (move_assign (ctor_default : ring_buffer Nat) one_two >>= fun r => .ok (r.2.size, r.2.empty))
      = .ok (2, false) ∧
    (∀ other : ring_buffer α, (ctor_move other).2.memblk = none ∧
      (ctor_move other).2.size = other.size ∧ (ctor_move other).2.empty = other.empty) := by
  refine ⟨by decide, by decide, by decide, by decide, by decide, by decide, by decide, ?_⟩
  intro other
  exact ⟨rfl, rfl, rfl⟩

/-- C32, code at the failing input.  On the buffer holding `[1, 2]` in cells 0 and 1
(`run_one_two`) `front()` names cell 0, the cell of `at(0)`, but `back()` names cell 0 as
well, the element 1, where `at(size() - 1)` is the element 2 in cell 1; on the buffer
holding `[1, 2, 3]` `back()` is the element 2.  After `ring_buffer<int> b(3);
b.push_back(7);` the new element is in cell 0 and the returned reference names cell 3,
raw storage.  The reference returned by `push_front(7)` names the new first element. -/
theorem C32_back_is_one_before_last :
    one_two.front = 100 ∧ one_two.at_addr 0 = .ok 100 ∧ one_two.front_value = .ok 1 ∧
    one_two.size = 2 ∧
    one_two.back = 100 ∧ one_two.at_addr 1 = .ok 101 ∧
    one_two.back_value = .ok 1 ∧ one_two.at_value 1 = .ok 2 ∧
    full_three.size = 3 ∧
    full_three.back_value = .ok 2 ∧ full_three.at_value 2 = .ok 3 ∧
    run_push_back_one = .ok (⟨4, some ⟨100, [some 7, none, none, none]⟩, 0, 1⟩, 103) ∧
    (run_push_back_one >>= fun r => r.1.at_addr 0) = .ok 100 ∧
    (run_push_back_one >>= fun r => r.1.load r.2) = .error .undefined ∧
    run_push_front_one = .ok (⟨4, some ⟨100, [none, none, none, some 7]⟩, 3, 0⟩, 103) ∧
    (run_push_front_one >>= fun r => r.1.at_addr 0) = .ok 103 ∧
    (run_push_front_one >>= fun r => r.1.load r.2) = .ok 7 := by
  decide

theorem copy_assign_not_ok (alloc : allocator_type) (a b r : ring_buffer α)
    (h : copy_assign alloc a b = .ok r) : False := by
  unfold copy_assign at h
  obtain ⟨s1, h1, h⟩ := bind_eq_ok h
  obtain ⟨vals, _, h⟩ := bind_eq_ok h
  unfold clear at h1
  obtain ⟨s0, _, h1⟩ := bind_eq_ok h1
  cases h1
  unfold assign_range at h
  obtain ⟨s2, h2, h⟩ := bind_eq_ok h
  obtain ⟨r2, h3, _⟩ := bind_eq_ok h
  have hm : s2.mb_size = 0 := (dtor_value_all_offsets h2).1
  unfold insert_range it_insert at h3
  obtain ⟨d1, _, h3⟩ := bind_eq_ok h3
  obtain ⟨d2, _, h3⟩ := bind_eq_ok h3
  obtain ⟨pos_off, h4, _⟩ := bind_eq_ok h3
  have := (it_offset_lt h4).1
  omega

/-- C33, code at the failing input.  The copy assignment `a = b` with `b` holding
`[1, 2]` (`run_one_two`) does not return: for a default-constructed `a`, and for an
empty `a` of capacity 3, `clear()` leaves `mb_size == 0` and `assign` divides by it in
`it_offset`; for `a` holding `[1, 2, 3]`, `clear()` destroys the elements through the
null pointer.  No copy assignment returns, whatever `a` and `b` are. -/
theorem C33_copy_assignment_does_not_return :
    run_one_two = .ok one_two ∧ one_two.range_values = .ok [1, 2] ∧
    copy_assign (std_alloc 300) (ctor_default : ring_buffer Nat) one_two
      = .error .undefined ∧
    ((ctor_cap 3 (std_alloc 500) : Except Fault (ring_buffer Nat)) >>= fun a =>
      copy_assign (std_alloc 300) a one_two) = .error .undefined ∧
    (ctor_default : ring_buffer Nat).clear = .ok ⟨0, none, 0, 0⟩ ∧
    ((⟨0, none, 0, 0⟩ : ring_buffer Nat).it_offset (⟨0, none, 0, 0⟩ : ring_buffer Nat).begin)
      = .error .undefined ∧
    copy_assign (std_alloc 300) full_three one_two = .error .undefined ∧
    full_three.clear = .error .undefined ∧
    (∀ (alloc : allocator_type) (a b : ring_buffer α),
      ∃ f, copy_assign alloc a b = .error f) := by
  refine ⟨by decide, by decide, by decide, by decide, by decide, by decide, by decide,
    by decide, ?_⟩
  intro alloc a b
  cases h : copy_assign alloc a b with
  | error f => exact ⟨f, rfl⟩
  | ok r => exact (copy_assign_not_ok alloc a b r h).elim

end ring_buffer

/-! ### Member functions with an explicit `*this` -/

namespace member

variable {α β γ : Type}

@[simp] theorem write_bind (t : ring_buffer α) (f : Unit → member α γ) (s : ring_buffer α) :
    (write t >>= f) s = f () t := rfl

@[simp] theorem pure_run (x : β) (s : ring_buffer α) :
    (pure x : member α β) s = (.ok x, s) := rfl

@[simp] theorem eval_run (r : Except Fault β) (s : ring_buffer α) :
    (eval r : member α β) s = (r, s) := rfl

theorem returns_bind (m : member α β) (f : β → member α γ) (s : ring_buffer α) :
    (m >>= f).returns s = (m.returns s >>= fun p => (f p.2).returns p.1) := by
  unfold returns
  show (match seq m f s with
    | (.ok x, s1) => Except.ok (s1, x)
    | (.error e, _) => Except.error e) = _
  unfold seq
  rcases h : m s with ⟨r, s1⟩
  cases r <;> rfl

@[simp] theorem returns_read (s : ring_buffer α) : (read : member α _).returns s = .ok (s, s) :=
  rfl

@[simp] theorem returns_write (t s : ring_buffer α) : (write t).returns s = .ok (t, ()) := rfl

@[simp] theorem returns_pure (x : β) (s : ring_buffer α) :
    (pure x : member α β).returns s = .ok (s, x) := rfl

theorem returns_eval (r : Except Fault β) (s : ring_buffer α) :
    (eval r : member α β).returns s = (r >>= fun x => .ok (s, x)) := by
  cases r <;> rfl

theorem returns_step (f : ring_buffer α → Except Fault (ring_buffer α)) (s : ring_buffer α) :
    (step f).returns s = (f s >>= fun s1 => .ok (s1, ())) := by
  unfold step
  rw [returns_bind, returns_read]
  simp only [ring_buffer.bind_ok_eq, returns_bind, returns_eval, returns_write]
  cases f s <;> rfl

theorem returns_ite (c : Prop) [Decidable c] (m1 m2 : member α β) (s : ring_buffer α) :
    (if c then m1 else m2).returns s = if c then m1.returns s else m2.returns s := by
  split <;> rfl

end member

namespace ring_buffer

variable {α : Type}

theorem ensure_alloc_copy_m_returns (alloc : allocator_type) (b : ring_buffer α) (n : Nat) :
    (ensure_alloc_copy_m alloc n).returns b
      = (b.ensure_alloc_copy alloc n >>= fun b1 => .ok (b1, ())) := by
  unfold ensure_alloc_copy_m ensure_alloc_copy
  rw [member.returns_bind, member.returns_read, bind_ok_eq]
  simp only [member.returns_ite]
  split
  · simp only [member.returns_bind, member.returns_eval, member.returns_write, bind_ok_eq,
      bind_assoc, swap]
  · rfl

end ring_buffer

namespace ring_buffer

variable {α : Type}

theorem ensure_alloc_copy_extra_m_returns (alloc : allocator_type) (b : ring_buffer α)
    (n : Nat) :
    (ensure_alloc_copy_extra_m alloc n).returns b
      = (b.ensure_alloc_copy_extra alloc n >>= fun b1 => .ok (b1, ())) := by
  unfold ensure_alloc_copy_extra_m ensure_alloc_copy_extra
  rw [member.returns_bind, member.returns_read, bind_ok_eq]
  exact ensure_alloc_copy_m_returns alloc b _

theorem emplace_back_m_returns (alloc : allocator_type) (b : ring_buffer α) (v : α) :
    (emplace_back_m alloc v).returns b = b.emplace_back alloc v := by
  unfold emplace_back_m emplace_back
  simp only [member.returns_bind, member.returns_read, member.returns_eval,
    member.returns_write, member.returns_step, member.returns_pure,
    ensure_alloc_copy_extra_m_returns, bind_ok_eq, bind_assoc]

theorem emplace_front_m_returns (alloc : allocator_type) (b : ring_buffer α) (v : α) :
    (emplace_front_m alloc v).returns b = b.emplace_front alloc v := by
  unfold emplace_front_m emplace_front
  simp only [member.returns_bind, member.returns_read, member.returns_eval,
    member.returns_write, member.returns_step, member.returns_pure,
    ensure_alloc_copy_extra_m_returns, bind_ok_eq, bind_assoc]

theorem reserve_m_returns (alloc : allocator_type) (b : ring_buffer α) (n : Nat) :
    (reserve_m alloc n).returns b = (b.reserve alloc n >>= fun b1 => .ok (b1, ())) := by
  unfold reserve_m reserve
  rw [member.returns_bind, member.returns_read, bind_ok_eq]
  simp only [member.returns_ite]
  split
  · exact ensure_alloc_copy_m_returns alloc b n
  · rfl

theorem resize_m_returns (alloc : allocator_type) (b : ring_buffer α) (n : Nat) (v : α) :
    (resize_m alloc n v).returns b = (b.resize alloc n v >>= fun b1 => .ok (b1, ())) := by
  unfold resize_m resize
  rw [member.returns_bind, member.returns_read, bind_ok_eq]
  simp only [member.returns_ite]
  split
  · simp only [member.returns_bind, member.returns_read, member.returns_eval,
      member.returns_write, member.returns_step, member.returns_pure,
      ensure_alloc_copy_extra_m_returns, bind_ok_eq, bind_assoc]
  · split
    · simp only [member.returns_bind, member.returns_read, member.returns_eval,
        member.returns_write, member.returns_step, member.returns_pure,
        bind_ok_eq, bind_assoc, dtor_value_range]
    · rfl

theorem it_insert_m_returns (alloc : allocator_type) (b : ring_buffer α)
    (pos : radix_iterator) (vals : List α) (count : Nat) :
    (it_insert_m alloc pos vals count).returns b = b.it_insert alloc pos vals count := by
  unfold it_insert_m it_insert
  simp only [member.returns_bind, member.returns_read, member.returns_eval,
    member.returns_write, member.returns_step, member.returns_pure, member.returns_ite,
    ensure_alloc_copy_extra_m_returns, bind_ok_eq, bind_assoc]
  refine bind_congr fun d1 => bind_congr fun d2 => bind_congr fun po => bind_congr fun bs =>
    bind_congr fun b1 => ?_
  split <;> simp only [bind_assoc, bind_ok_eq]

theorem it_insert_input_loop_m_returns (allocs : Nat → allocator_type) (i : Nat)
    (b : ring_buffer α) (pos : radix_iterator) (vals : List α) (ip : radix_iterator) :
    (it_insert_input_loop_m allocs i pos vals ip).returns b
      = it_insert_input_loop allocs i b pos vals ip := by
  induction vals generalizing i b ip with
  | nil => rfl
  | cons v rest ih =>
    unfold it_insert_input_loop_m it_insert_input_loop
    rw [member.returns_bind, it_insert_m_returns]
    exact bind_congr fun r => ih _ _ _

theorem it_insert_input_m_returns (allocs : Nat → allocator_type) (b : ring_buffer α)
    (pos : radix_iterator) (vals : List α) :
    (it_insert_input_m allocs pos vals).returns b = b.it_insert_input allocs pos vals := by
  unfold it_insert_input_m it_insert_input
  simp only [member.returns_bind, member.returns_read, member.returns_eval, bind_ok_eq,
    bind_assoc, it_insert_input_loop_m_returns]

theorem ensure_alloc_blanked_m_returns (alloc : allocator_type) (b : ring_buffer α)
    (n : Nat) :
    (ensure_alloc_blanked_m alloc n).returns b
      = (b.ensure_alloc_blanked alloc n >>= fun b1 => .ok (b1, ())) := by
  unfold ensure_alloc_blanked_m ensure_alloc_blanked
  simp only [member.returns_bind, member.returns_read, member.returns_step, bind_ok_eq,
    bind_assoc, member.returns_ite]
  refine bind_congr fun b1 => ?_
  split
  · simp only [member.returns_bind, member.returns_read, member.returns_eval,
      member.returns_write, member.returns_step, bind_ok_eq, bind_assoc]
  · rfl

theorem assign_m_returns (alloc : allocator_type) (b : ring_buffer α) (n : Nat) (v : α) :
    (assign_m alloc n v).returns b = (b.assign alloc n v >>= fun b1 => .ok (b1, ())) := by
  unfold assign_m assign
  simp only [member.returns_bind, member.returns_read, member.returns_step,
    ensure_alloc_blanked_m_returns, bind_ok_eq, bind_assoc]

theorem assign_range_m_returns (alloc : allocator_type) (b : ring_buffer α) (vals : List α) :
    (assign_range_m alloc vals).returns b
      = (b.assign_range alloc vals >>= fun b1 => .ok (b1, ())) := by
  unfold assign_range_m assign_range insert_range
  simp only [member.returns_bind, member.returns_read, member.returns_step,
    member.returns_pure, it_insert_m_returns, bind_ok_eq, bind_assoc]

end ring_buffer

/-! ### Allocation failure: the state a `bad_alloc` leaves -/

namespace ring_buffer

variable {α : Type}

end ring_buffer
